import Mathlib

/-!
# RC5 / RC6 infrared codecs (`ir_RC5_RC6.cpp`)

A shallow embedding of the level quantizer `getRClevel`, the decoders
`decodeRC5` / `decodeRC6` and the encoders `sendRC5` / `sendRC6`, followed by
theorems about them.

Conventions of the embedding
* `int` / `long` values that cannot overflow on the paths considered are `Nat` or
  `Int`; the `long` accumulator of the decoders is reduced modulo `2 ^ 32` after
  every shift. The initial mask `1 << (nbits - 1)` of the encoders is an `int`
  shift whose result is widened to `unsigned long`: `sendRC5_int` / `sendRC6_int`
  take the width of `int` in bits as a parameter, and `sendRC5` / `sendRC6` are the
  encoders for a 32-bit `int`.
* `MARK`, `SPACE`, `MARK_EXCESS`, `MATCH`, `MATCH_MARK` and `MATCH_SPACE` are
  declared in `IRremoteInt.h`, which is not part of the sources at hand; they are
  the fields of the parameter `Env`.
* The decode loops carry a fuel argument (one unit per evaluation of the loop
  condition); `none` means the fuel ran out.
* The decoders record the quantizer calls and the direct buffer reads they make
  in a log, so that statements about which calls happen can be expressed.
-/

namespace IRremote

/-! ## Parameters declared outside the file -/

/-- The constants and tolerance tests of `IRremoteInt.h` used by the codecs. -/
structure Env where
  MARK : Int
  SPACE : Int
  MARK_EXCESS : Int
  MATCH : Int → Int → Bool
  MATCH_MARK : Int → Int → Bool
  MATCH_SPACE : Int → Int → Bool

/-- Modelled from the spec: the tolerance test is absent from the sources; the spec
describes it as a percentage tolerance window. This instance is the customary one
of the library: measurements are 50 µs ticks, the window is 25 % either way
(`TICKS_LOW (us) = us * 3 / 4 / 50`, `TICKS_HIGH (us) = us * 5 / 4 / 50 + 1`). -/
def ticksMATCH (measured desired : Int) : Bool :=
  decide (desired * 3 / 4 / 50 ≤ measured) && decide (measured ≤ desired * 5 / 4 / 50 + 1)

/-- Modelled from the spec: a concrete choice of the absent constants
(`MARK = 1`, `SPACE = 0`, `MARK_EXCESS = 100`) with the 25 % tick window, used
to evaluate the code on concrete buffers. -/
def libEnv : Env where
  MARK := 1
  SPACE := 0
  MARK_EXCESS := 100
  MATCH := ticksMATCH
  MATCH_MARK := fun m d => ticksMATCH m (d + 100)
  MATCH_SPACE := fun m d => ticksMATCH m (d - 100)

/-- The `decode_type` tags written by the two decoders (`UNKNOWN` stands for any
other tag of the enumeration in `IRremote.h`). -/
inductive decode_type_t where
  | UNKNOWN
  | RC5
  | RC6
  deriving DecidableEq, Repr

/-- The fields of `decode_results` the codecs touch. `rawbuf` is the memory the
pointer designates, `rawlen` the length field. -/
structure decode_results where
  rawbuf : Nat → Int
  rawlen : Nat
  bits : Nat
  value : Nat
  decode_type : decode_type_t

/-- The pair `(*offset, *used)` threaded through `getRClevel`. -/
structure Cursor where
  offset : Nat
  used : Int
  deriving DecidableEq, Repr

/-! ## `getRClevel` -/

/-- The polarity `val` that `getRClevel` derives from the parity of the offset. -/
def getRClevel_val (env : Env) (offset : Nat) : Int :=
  if offset % 2 ≠ 0 then env.MARK else env.SPACE

/-- The `correction` of `getRClevel`: `MARK_EXCESS` for a mark, its opposite
otherwise. -/
def getRClevel_correction (env : Env) (offset : Nat) : Int :=
  if getRClevel_val env offset = env.MARK then env.MARK_EXCESS else - env.MARK_EXCESS

/-- The `avail` that `getRClevel` computes for a width (`none`: no multiple
matched, the `return -1` branch). -/
def getRClevel_avail (env : Env) (width t1 correction : Int) : Option Int :=
  if env.MATCH width (t1 + correction) then some 1
  else if env.MATCH width (2 * t1 + correction) then some 2
  else if env.MATCH width (3 * t1 + correction) then some 3
  else none

/-- The function `IRrecv::getRClevel`: the returned level together with the updated cursor. -/
def getRClevel (env : Env) (results : decode_results) (c : Cursor) (t1 : Int) : Int × Cursor :=
  if c.offset ≥ results.rawlen then (env.SPACE, c)
  else
    let width := results.rawbuf c.offset
    let val := getRClevel_val env c.offset
    let correction := getRClevel_correction env c.offset
    match getRClevel_avail env width t1 correction with
    | none => (-1, c)
    | some avail =>
      let used := c.used + 1
      if used ≥ avail then (val, ⟨c.offset + 1, 0⟩) else (val, ⟨c.offset, used⟩)

/-- The levels returned by `n` successive calls of `getRClevel`, and the cursor
after them. -/
def getRClevels (env : Env) (results : decode_results) (t1 : Int) :
    Nat → Cursor → List Int × Cursor
  | 0, c => ([], c)
  | n + 1, c =>
    let r := getRClevel env results c t1
    let rest := getRClevels env results t1 n r.2
    (r.1 :: rest.1, rest.2)

/-! ## Decoders -/

/-- What a decoder did to the outside: a call of `getRClevel` at a cursor, or a
direct read `rawbuf[index]`. -/
inductive Event where
  | quantize (c : Cursor)
  | read (index : Nat)
  deriving DecidableEq, Repr

/-- Return value of a decoder, the `decode_results` it leaves, and its log. -/
structure Outcome where
  ret : Bool
  results : decode_results
  log : List Event

def MIN_RC5_SAMPLES : Nat := 11
def RC5_T1 : Int := 889

/-- The `for` loop of `decodeRC5`, entered with the current `nbits`, `data` and
cursor. Result: `none` when the fuel is exhausted; otherwise `some (r, log)`
where `r = none` is `return false` and `r = some (nbits, data)` is the normal
exit of the loop. -/
def decodeRC5_loop (env : Env) (irparams_rawlen : Nat) (results : decode_results) :
    Nat → Nat → Nat → Cursor → Option (Option (Nat × Nat) × List Event)
  | 0, _, _, _ => none
  | fuel + 1, nbits, data, c =>
    if c.offset < irparams_rawlen then
      let a := getRClevel env results c RC5_T1
      let b := getRClevel env results a.2 RC5_T1
      let levelA := a.1
      let levelB := b.1
      if levelA = env.SPACE ∧ levelB = env.MARK then
        (decodeRC5_loop env irparams_rawlen results fuel (nbits + 1)
            (((data <<< 1) ||| 1) % 2 ^ 32) b.2).map
          (fun r => (r.1, Event.quantize c :: Event.quantize a.2 :: r.2))
      else if levelA = env.MARK ∧ levelB = env.SPACE then
        (decodeRC5_loop env irparams_rawlen results fuel (nbits + 1)
            ((data <<< 1) % 2 ^ 32) b.2).map
          (fun r => (r.1, Event.quantize c :: Event.quantize a.2 :: r.2))
      else some (none, [Event.quantize c, Event.quantize a.2])
    else some (some (nbits, data), [])

/-- The decoder `IRrecv::decodeRC5`. `irparams_rawlen` is the global `irparams.rawlen`. -/
def decodeRC5 (env : Env) (fuel : Nat) (irparams_rawlen : Nat) (results : decode_results) :
    Option Outcome :=
  if irparams_rawlen < MIN_RC5_SAMPLES + 2 then some ⟨false, results, []⟩
  else
    let c0 : Cursor := ⟨1, 0⟩
    let r1 := getRClevel env results c0 RC5_T1
    if r1.1 ≠ env.MARK then some ⟨false, results, [Event.quantize c0]⟩
    else
      let r2 := getRClevel env results r1.2 RC5_T1
      if r2.1 ≠ env.SPACE then
        some ⟨false, results, [Event.quantize c0, Event.quantize r1.2]⟩
      else
        let r3 := getRClevel env results r2.2 RC5_T1
        let start := [Event.quantize c0, Event.quantize r1.2, Event.quantize r2.2]
        if r3.1 ≠ env.MARK then some ⟨false, results, start⟩
        else
          match decodeRC5_loop env irparams_rawlen results fuel 0 0 r3.2 with
          | none => none
          | some (none, log) => some ⟨false, results, start ++ log⟩
          | some (some (nbits, data), log) =>
            some ⟨true,
              { results with bits := nbits, value := data, decode_type := decode_type_t.RC5 },
              start ++ log⟩

def MIN_RC6_SAMPLES : Nat := 1
def RC6_HDR_MARK : Int := 2666
def RC6_HDR_SPACE : Int := 889
def RC6_T1 : Int := 444

/-- One iteration of the `for` loop of `decodeRC6` at bit index `nbits`: the new
`data` (`none` for `return false`), the cursor it leaves and the quantizer calls
it made. -/
def decodeRC6_body (env : Env) (results : decode_results) (nbits data : Nat) (c : Cursor) :
    Option Nat × Cursor × List Event :=
  let a := getRClevel env results c RC6_T1
  let levelA := a.1
  let a2 := if nbits = 3 then getRClevel env results a.2 RC6_T1 else a
  let logA := if nbits = 3 then [Event.quantize c, Event.quantize a.2] else [Event.quantize c]
  if nbits = 3 ∧ levelA ≠ a2.1 then (none, a2.2, logA)
  else
    let b := getRClevel env results a2.2 RC6_T1
    let levelB := b.1
    let b2 := if nbits = 3 then getRClevel env results b.2 RC6_T1 else b
    let logB :=
      if nbits = 3 then logA ++ [Event.quantize a2.2, Event.quantize b.2]
      else logA ++ [Event.quantize a2.2]
    if nbits = 3 ∧ levelB ≠ b2.1 then (none, b2.2, logB)
    else if levelA = env.MARK ∧ levelB = env.SPACE then
      (some (((data <<< 1) ||| 1) % 2 ^ 32), b2.2, logB)
    else if levelA = env.SPACE ∧ levelB = env.MARK then
      (some ((data <<< 1) % 2 ^ 32), b2.2, logB)
    else (none, b2.2, logB)

/-- The `for` loop of `decodeRC6` (same result convention as `decodeRC5_loop`). -/
def decodeRC6_loop (env : Env) (results : decode_results) :
    Nat → Nat → Nat → Cursor → Option (Option (Nat × Nat) × List Event)
  | 0, _, _, _ => none
  | fuel + 1, nbits, data, c =>
    if c.offset < results.rawlen then
      match decodeRC6_body env results nbits data c with
      | (none, _, log) => some (none, log)
      | (some data1, c1, log) =>
        (decodeRC6_loop env results fuel (nbits + 1) data1 c1).map
          (fun r => (r.1, log ++ r.2))
    else some (some (nbits, data), [])

/-- The decoder `IRrecv::decodeRC6`. -/
def decodeRC6 (env : Env) (fuel : Nat) (results : decode_results) : Option Outcome :=
  if results.rawlen < MIN_RC6_SAMPLES then some ⟨false, results, []⟩
  else if ¬ env.MATCH_MARK (results.rawbuf 1) RC6_HDR_MARK then
    some ⟨false, results, [Event.read 1]⟩
  else if ¬ env.MATCH_SPACE (results.rawbuf 2) RC6_HDR_SPACE then
    some ⟨false, results, [Event.read 1, Event.read 2]⟩
  else
    let hdr := [Event.read 1, Event.read 2]
    let c0 : Cursor := ⟨3, 0⟩
    let r1 := getRClevel env results c0 RC6_T1
    if r1.1 ≠ env.MARK then some ⟨false, results, hdr ++ [Event.quantize c0]⟩
    else
      let r2 := getRClevel env results r1.2 RC6_T1
      let start := hdr ++ [Event.quantize c0, Event.quantize r1.2]
      if r2.1 ≠ env.SPACE then some ⟨false, results, start⟩
      else
        match decodeRC6_loop env results fuel 0 0 r2.2 with
        | none => none
        | some (none, log) => some ⟨false, results, start ++ log⟩
        | some (some (nbits, data), log) =>
          some ⟨true,
            { results with bits := nbits, value := data, decode_type := decode_type_t.RC6 },
            start ++ log⟩

/-! ## Encoders -/

/-- The calls an encoder makes on the transmission primitives. -/
inductive IRcall where
  | enableIROut (khz : Nat)
  | mark (t : Int)
  | space (t : Int)
  deriving DecidableEq, Repr

/-- The data loop of `sendRC5`: `for (mask = …; mask; mask >>= 1)`. -/
def sendRC5_loop (data mask : Nat) : List IRcall :=
  if _h : mask = 0 then []
  else
    (if data &&& mask ≠ 0 then [IRcall.space RC5_T1, IRcall.mark RC5_T1]
      else [IRcall.mark RC5_T1, IRcall.space RC5_T1])
      ++ sendRC5_loop data (mask >>> 1)
termination_by mask
decreasing_by
  rw [Nat.shiftRight_eq_div_pow]
  omega

/-- The encoder `IRsend::sendRC5` with a 32-bit `int` (for `nbits ≥ 1`; the shift
`1 << (nbits - 1)` is kept to 32 bits). It is `sendRC5_int 32`, and it is `sendRC5_int intBits`
for every width `intBits > nbits` when `nbits ≤ 32`. -/
def sendRC5 (data nbits : Nat) : List IRcall :=
  [IRcall.enableIROut 36, IRcall.mark RC5_T1, IRcall.space RC5_T1, IRcall.mark RC5_T1]
    ++ sendRC5_loop data ((1 <<< (nbits - 1)) % 2 ^ 32)
    ++ [IRcall.space 0]

/-- The data loop of `sendRC6`: `for (i = 1, mask = …; mask; i++, mask >>= 1)`. -/
def sendRC6_loop (data : Nat) (i mask : Nat) : List IRcall :=
  if _h : mask = 0 then []
  else
    let t : Int := if i = 4 then RC6_T1 * 2 else RC6_T1
    (if data &&& mask ≠ 0 then [IRcall.mark t, IRcall.space t]
      else [IRcall.space t, IRcall.mark t])
      ++ sendRC6_loop data (i + 1) (mask >>> 1)
termination_by mask
decreasing_by
  rw [Nat.shiftRight_eq_div_pow]
  omega

/-- The encoder `IRsend::sendRC6` with a 32-bit `int` (for `nbits ≥ 1`; the shift
`1 << (nbits - 1)` is kept to 32 bits). It is `sendRC6_int 32`, and it is `sendRC6_int intBits`
for every width `intBits > nbits` when `nbits ≤ 32`. -/
def sendRC6 (data nbits : Nat) : List IRcall :=
  [IRcall.enableIROut 36, IRcall.mark RC6_HDR_MARK, IRcall.space RC6_HDR_SPACE,
    IRcall.mark RC6_T1, IRcall.space RC6_T1]
    ++ sendRC6_loop data 1 ((1 <<< (nbits - 1)) % 2 ^ 32)
    ++ [IRcall.space 0]

/-- The initial value of `unsigned long mask = 1 << (nbits - 1)` (for `nbits ≥ 1`) when `int`
has `intBits` bits, `16 ≤ intBits ≤ 32`, and `unsigned long` has 32. The literal `1` is an
`int`, so the shift is evaluated in `int`: its result is kept to `intBits` bits in two's
complement, and the conversion to `unsigned long` extends the sign. For `nbits < intBits` the
shift does not overflow and the mask is `2 ^ (nbits - 1)`, whatever the two widths. For
`nbits = intBits` the shift overflows into the sign bit, and for `nbits > intBits` the shift
count reaches the width of `int`, which C++ leaves undefined: the model wraps (sign bit set,
respectively every bit shifted out). -/
def intShiftMask (intBits nbits : Nat) : Nat :=
  let v := (1 <<< (nbits - 1)) % 2 ^ intBits
  if v < 2 ^ (intBits - 1) then v % 2 ^ 32 else (v + 2 ^ 32 - 2 ^ intBits) % 2 ^ 32

/-- The encoder `IRsend::sendRC5` when `int` has `intBits` bits. -/
def sendRC5_int (intBits data nbits : Nat) : List IRcall :=
  [IRcall.enableIROut 36, IRcall.mark RC5_T1, IRcall.space RC5_T1, IRcall.mark RC5_T1]
    ++ sendRC5_loop data (intShiftMask intBits nbits)
    ++ [IRcall.space 0]

/-- The encoder `IRsend::sendRC6` when `int` has `intBits` bits. -/
def sendRC6_int (intBits data nbits : Nat) : List IRcall :=
  [IRcall.enableIROut 36, IRcall.mark RC6_HDR_MARK, IRcall.space RC6_HDR_SPACE,
    IRcall.mark RC6_T1, IRcall.space RC6_T1]
    ++ sendRC6_loop data 1 (intShiftMask intBits nbits)
    ++ [IRcall.space 0]

/-- The data loop of `sendRC5` cut after `n` iterations; it is the loop itself when
`mask < 2 ^ n`, and serves to evaluate the loop on a given mask. -/
def sendRC5_loopN (data : Nat) : Nat → Nat → List IRcall
  | 0, _ => []
  | n + 1, mask =>
    if mask = 0 then []
    else
      (if data &&& mask ≠ 0 then [IRcall.space RC5_T1, IRcall.mark RC5_T1]
        else [IRcall.mark RC5_T1, IRcall.space RC5_T1])
        ++ sendRC5_loopN data n (mask >>> 1)

/-- The data loop of `sendRC6` cut after `n` iterations; it is the loop itself when
`mask < 2 ^ n`, and serves to evaluate the loop on a given mask. -/
def sendRC6_loopN (data : Nat) : Nat → Nat → Nat → List IRcall
  | 0, _, _ => []
  | n + 1, i, mask =>
    if mask = 0 then []
    else
      let t : Int := if i = 4 then RC6_T1 * 2 else RC6_T1
      (if data &&& mask ≠ 0 then [IRcall.mark t, IRcall.space t]
        else [IRcall.space t, IRcall.mark t])
        ++ sendRC6_loopN data n (i + 1) (mask >>> 1)

/-! ## Captures of an emission

The decoders are fed by a receiver that measures the emitted marks and spaces.
The definitions below describe, in the words of the specification, which raw
buffers are captures of a sequence of encoder calls. -/

/-- The mark/space durations of a call sequence, in order (`true` is a mark). -/
def pulses : List IRcall → List (Bool × Int)
  | [] => []
  | IRcall.enableIROut _ :: cs => pulses cs
  | IRcall.mark t :: cs => (true, t) :: pulses cs
  | IRcall.space t :: cs => (false, t) :: pulses cs

/-- Adjacent durations of the same polarity are merged into one entry. -/
def mergePulses : List (Bool × Int) → List (Bool × Int)
  | [] => []
  | (p, w) :: rest =>
    match mergePulses rest with
    | [] => [(p, w)]
    | (q, v) :: tl => if p = q then (p, w + v) :: tl else (p, w) :: (q, v) :: tl

/-- The trailing space, if any, is not recorded. -/
def dropTrailingSpace : List (Bool × Int) → List (Bool × Int)
  | [] => []
  | [(p, w)] => if p then [(p, w)] else []
  | e :: e2 :: es => e :: dropTrailingSpace (e2 :: es)

/-- The nominal entries of the capture of a call sequence (without the gap). -/
def captureEntries (calls : List IRcall) : List (Bool × Int) :=
  dropTrailingSpace (mergePulses (pulses calls))

/-- The buffer entries from index `i` on match the nominal widths of `es`, each
with the `MARK_EXCESS` correction of its polarity, under `MATCH`. -/
def entriesMatch (env : Env) (rawbuf : Nat → Int) : Nat → List (Bool × Int) → Bool
  | _, [] => true
  | i, (p, w) :: es =>
    env.MATCH (rawbuf i) (w + (if p then env.MARK_EXCESS else - env.MARK_EXCESS))
      && entriesMatch env rawbuf (i + 1) es

/-- No buffer entry from index `i` on matches a smaller multiple (one or two
units `t1`) than its nominal width in `es`. -/
def entriesUnambiguous (env : Env) (t1 : Int) (rawbuf : Nat → Int) :
    Nat → List (Bool × Int) → Bool
  | _, [] => true
  | i, (p, w) :: es =>
    let c := if p then env.MARK_EXCESS else - env.MARK_EXCESS
    (decide (w ≤ t1) || !env.MATCH (rawbuf i) (t1 + c))
      && (decide (w ≤ 2 * t1) || !env.MATCH (rawbuf i) (2 * t1 + c))
      && entriesUnambiguous env t1 rawbuf (i + 1) es

/-- The raw buffer `results` is a capture of `calls`: one leading gap entry, then
one entry per merged duration, the trailing space dropped, every entry matching
its nominal width. -/
def IsCapture (env : Env) (calls : List IRcall) (results : decode_results) : Prop :=
  results.rawlen = 1 + (captureEntries calls).length ∧
    entriesMatch env results.rawbuf 1 (captureEntries calls) = true

instance (env : Env) (calls : List IRcall) (results : decode_results) :
    Decidable (IsCapture env calls results) := by
  unfold IsCapture
  infer_instance

/-- A buffer holding the given entries (index 0 is the gap), zero elsewhere. -/
def bufferOf (entries : List Int) : decode_results where
  rawbuf := fun i => entries.getD i 0
  rawlen := entries.length
  bits := 0
  value := 0
  decode_type := decode_type_t.UNKNOWN

/-! ## Unit symbols, runs and Manchester pairs (used by the round-trip proofs) -/

/-- The level the quantizer returns for a polarity (`true` is a mark). -/
def levelOf (env : Env) (p : Bool) : Int := if p then env.MARK else env.SPACE

/-- The unit symbols of a list of runs `(polarity, number of units)`. -/
def expandRuns : List (Bool × Int) → List Bool
  | [] => []
  | (p, k) :: rs => List.replicate k.toNat p ++ expandRuns rs

/-- Runs counted in units, turned into durations. -/
def scaleRuns (t1 : Int) (rs : List (Bool × Int)) : List (Bool × Int) :=
  rs.map (fun e => (e.1, e.2 * t1))

/-- Each pair `(x, k)` is a Manchester bit: `k` units of polarity `x`, then `k`
units of the opposite polarity. -/
def manchester : List (Bool × Int) → List (Bool × Int)
  | [] => []
  | (x, k) :: ps => (x, k) :: (!x, k) :: manchester ps

/-- Every half bit is one or two units wide and two neighbouring half bits span
at most three units. -/
def okPairs : List (Bool × Int) → Prop
  | [] => True
  | [(_, k)] => 1 ≤ k ∧ k ≤ 2
  | (_, k) :: (y, k2) :: rest => 1 ≤ k ∧ k ≤ 2 ∧ k + k2 ≤ 3 ∧ okPairs ((y, k2) :: rest)

/-- Runs that alternate from polarity `p` on, all but the last of one to three
units, the last one a space. -/
def PreRuns : Bool → List (Bool × Int) → Prop
  | _, [] => False
  | p, [(q, k)] => q = p ∧ p = false ∧ 0 ≤ k
  | p, (q, k) :: r :: rs => q = p ∧ 1 ≤ k ∧ k ≤ 3 ∧ PreRuns (!p) (r :: rs)

/-- Runs of one to three units that alternate from polarity `p` on and end with a
mark. -/
def RunsAlt : Bool → List (Bool × Int) → Prop
  | p, [] => p = false
  | p, (q, k) :: rs => q = p ∧ 1 ≤ k ∧ k ≤ 3 ∧ RunsAlt (!p) rs

/-- From cursor `c` on, the quantizer returns the unit symbols `us` one per call,
and the cursor is inside the buffer exactly as long as a mark remains to be read. -/
def Tracks (env : Env) (results : decode_results) (t1 : Int) : Cursor → List Bool → Prop
  | c, [] => results.rawlen ≤ c.offset
  | c, u :: us =>
    (c.offset < results.rawlen ↔ true ∈ u :: us) ∧
      (getRClevel env results c t1).1 = levelOf env u ∧
      Tracks env results t1 (getRClevel env results c t1).2 us

/-- The bits `n - 1, …, 0` of `data`, most significant first. -/
def bitsMSB (data : Nat) : Nat → List Bool
  | 0 => []
  | n + 1 => data.testBit n :: bitsMSB data n

/-- The accumulator of the decode loops after reading the bits `bs`. -/
def bitsValue : Nat → List Bool → Nat
  | acc, [] => acc
  | acc, b :: bs =>
    bitsValue (if b then ((acc <<< 1) ||| 1) % 2 ^ 32 else (acc <<< 1) % 2 ^ 32) bs

/-- The calls of the data loop of `sendRC5` for the bits `bs`. -/
def emitRC5 : List Bool → List IRcall
  | [] => []
  | b :: bs =>
    (if b then [IRcall.space RC5_T1, IRcall.mark RC5_T1]
      else [IRcall.mark RC5_T1, IRcall.space RC5_T1]) ++ emitRC5 bs

/-- The calls of the data loop of `sendRC6` for the bits `bs`, the first of them
sent with loop counter `i`. -/
def emitRC6 : Nat → List Bool → List IRcall
  | _, [] => []
  | i, b :: bs =>
    (if b then [IRcall.mark (if i = 4 then RC6_T1 * 2 else RC6_T1),
        IRcall.space (if i = 4 then RC6_T1 * 2 else RC6_T1)]
      else [IRcall.space (if i = 4 then RC6_T1 * 2 else RC6_T1),
        IRcall.mark (if i = 4 then RC6_T1 * 2 else RC6_T1)]) ++ emitRC6 (i + 1) bs

/-- The Manchester pairs of RC5 data bits: a one is space then mark. -/
def rc5Pairs (bs : List Bool) : List (Bool × Int) := bs.map (fun b => (!b, 1))

/-- The Manchester pairs of RC6 data bits, the first at bit index `j`: a one is
mark then space, and bit index 3 is two units wide. -/
def rc6Pairs : Nat → List Bool → List (Bool × Int)
  | _, [] => []
  | j, b :: bs => (b, if j = 3 then 2 else 1) :: rc6Pairs (j + 1) bs

/-! ## Sample captures (ticks of 50 µs, index 0 is the gap) -/

/-- Nominal capture of `sendRC5 (1, 1)`: 6 samples. -/
def captureRC5_1_1 : decode_results := bufferOf [100, 19, 15, 19, 15, 19]

/-- Nominal capture of `sendRC5 (0, 5)`: 12 samples. -/
def captureRC5_0_5 : decode_results :=
  bufferOf [100, 19, 15, 37, 15, 19, 15, 19, 15, 19, 15, 19]

/-- Nominal capture of `sendRC5 (0, 6)`: 14 samples. -/
def captureRC5_0_6 : decode_results :=
  bufferOf [100, 19, 15, 37, 15, 19, 15, 19, 15, 19, 15, 19, 15, 19]

/-- Nominal capture of `sendRC5 (0x2C5, 10)`: 18 samples. -/
def captureRC5_0x2C5_10 : decode_results :=
  bufferOf [100, 19, 15, 19, 15, 37, 33, 19, 15, 37, 15, 19, 15, 19, 33, 37, 33, 19]

/-- Nominal capture of `sendRC5 (0x1F, 12)`: 26 samples. -/
def captureRC5_0x1F_12 : decode_results :=
  bufferOf [100, 19, 15, 37, 15, 19, 15, 19, 15, 19, 15, 19, 15, 19, 15, 19, 33, 19, 15, 19,
    15, 19, 15, 19, 15, 19]

/-- Nominal capture of `sendRC6 (0xA5, 8)`: 14 samples. -/
def captureRC6_0xA5_8 : decode_results :=
  bufferOf [100, 55, 15, 10, 6, 10, 15, 19, 24, 19, 6, 19, 15, 19]

/-- A capture of `sendRC6 (0xA5, 8)` whose three-unit space (index 8, nominal
1332 µs) was measured as 19 ticks: within the window of 1332 - 100 µs, and also
within the window of two units. -/
def ambiguousRC6_0xA5_8 : decode_results :=
  bufferOf [100, 55, 15, 10, 6, 10, 15, 19, 19, 19, 6, 19, 15, 19]

/-- Nominal capture of `sendRC5_int 16 0 16`, the emission of `sendRC5 (0, 16)` with a
16-bit `int`: the start condition and 32 pairs `mark`, `space`; 66 samples. -/
def captureRC5_int16_0_16 : decode_results :=
  bufferOf ([100, 19, 15, 37] ++ (List.range 62).map (fun i => if i % 2 = 0 then 15 else 19))

/-- Nominal capture of `sendRC6_int 16 0 16`, the emission of `sendRC6 (0, 16)` with a
16-bit `int`: the header, the start bit and 32 pairs `space`, `mark`; 68 samples. -/
def captureRC6_int16_0_16 : decode_results :=
  bufferOf ([100, 55, 15, 10, 15, 10, 6, 10, 6, 10, 15, 19] ++
    (List.range 56).map (fun i => if i % 2 = 0 then 6 else 10))

/-- Nominal capture of `sendRC6_int 16 0x1A5A5 17`, the emission of `sendRC6 (0x1A5A5, 17)`
with a 16-bit `int`: the header and the mark of the start bit; 4 samples. -/
def captureRC6_int16_0x1A5A5_17 : decode_results := bufferOf [100, 55, 15, 10]

/-! ## Reads, cursor invariant and measure -/

/-- The indices of `rawbuf` a decoder read, from its log: a direct read is a read,
and a call of `getRClevel` reads `rawbuf[offset]` exactly when `offset < rawlen`. -/
def logReads (results : decode_results) : List Event → List Nat
  | [] => []
  | Event.read i :: es => i :: logReads results es
  | Event.quantize c :: es =>
    if c.offset < results.rawlen then c.offset :: logReads results es
    else logReads results es

/-- A receiver state with one recorded sample (the gap) while the memory behind
it still holds durations of an earlier capture. -/
def staleRC6 : decode_results where
  rawbuf := fun i => [100, 55, 15].getD i 0
  rawlen := 1
  bits := 0
  value := 0
  decode_type := decode_type_t.UNKNOWN

/-- The cursor invariant: `used` is 0, or the cursor is on a buffer element that
matches a multiple `avail` and `0 ≤ used < avail`. -/
def CursorOk (env : Env) (results : decode_results) (t1 : Int) (c : Cursor) : Prop :=
  c.used = 0 ∨
    (c.offset < results.rawlen ∧
      ∃ k, getRClevel_avail env (results.rawbuf c.offset) t1
          (getRClevel_correction env c.offset) = some k ∧ 0 ≤ c.used ∧ c.used < k)

/-- The measure `3 * (rawlen - offset) - used` of a cursor. -/
def cursorMeasure (results : decode_results) (c : Cursor) : Int :=
  3 * ((results.rawlen : Int) - (c.offset : Int)) - c.used

/-- A 14-sample buffer that starts with a two-unit mark (37 ticks). -/
def doubleMarkRC5 : decode_results :=
  bufferOf [100, 37, 15, 19, 15, 19, 15, 19, 15, 19, 15, 19, 15, 19]

/-! ## The flat unit-symbol decoder of the specification (RC5) -/

/-- The unit symbols of the `n` buffer elements from index `i` on: each element is
replaced by `avail` copies of the polarity of its index (`true` for a mark at an
odd index); `none` when some element matches no multiple of the unit. -/
def unitsFrom (env : Env) (results : decode_results) (t1 : Int) : Nat → Nat → Option (List Bool)
  | 0, _ => some []
  | n + 1, i =>
    match getRClevel_avail env (results.rawbuf i) t1 (getRClevel_correction env i) with
    | none => none
    | some k =>
      (unitsFrom env results t1 n (i + 1)).map
        (fun us => List.replicate k.toNat (decide (i % 2 = 1)) ++ us)

/-- The flat unit-symbol sequence `U` of a buffer for RC5: elements `1` to
`rawlen - 1`. -/
def unitsRC5 (env : Env) (results : decode_results) : Option (List Bool) :=
  unitsFrom env results RC5_T1 (results.rawlen - 1) 1

/-- One SPACE is appended when the length is odd. -/
def padSpace (us : List Bool) : List Bool :=
  if us.length % 2 = 1 then us ++ [false] else us

/-- The bits of a unit sequence split into pairs: (SPACE, MARK) is a one,
(MARK, SPACE) a zero, anything else fails. -/
def pairBits : List Bool → Option (List Bool)
  | [] => some []
  | [_] => none
  | a :: b :: rest =>
    if a = false ∧ b = true then (pairBits rest).map (fun bs => true :: bs)
    else if a = true ∧ b = false then (pairBits rest).map (fun bs => false :: bs)
    else none

/-- The decoder over the flat sequence: MARK, SPACE, MARK, then the pairs of the
padded rest. -/
def flatDecodeRC5 : List Bool → Option (List Bool)
  | true :: false :: true :: rest => pairBits (padSpace rest)
  | _ => none

/-- The number whose binary digits, most significant first, are `bs`. -/
def valueMSB (bs : List Bool) : Nat :=
  bs.foldl (fun acc b => 2 * acc + (if b then 1 else 0)) 0

/-- From cursor `c` on, the quantizer returns the unit symbols `us` one per call
from inside the buffer; after them the cursor is at the end of the buffer
(`bad = false`) or on an element that matches no multiple (`bad = true`). -/
def Reads (env : Env) (results : decode_results) (t1 : Int) (bad : Bool) :
    Cursor → List Bool → Prop
  | c, [] =>
    if bad then c.offset < results.rawlen ∧ getRClevel env results c t1 = (-1, c)
    else results.rawlen ≤ c.offset
  | c, u :: us =>
    c.offset < results.rawlen ∧ (getRClevel env results c t1).1 = levelOf env u ∧
      Reads env results t1 bad (getRClevel env results c t1).2 us

/-- A 70-sample buffer: the RC5 start condition followed by 33 one bits, every
element one unit wide. -/
def longRC5 : decode_results :=
  bufferOf (100 :: (List.range 69).map (fun i => if i % 2 = 0 then 19 else 15))

/-- The outcome of `decodeRC5` for a result of its loop: false and the results
untouched, or true with the three fields written. -/
def outcomeRC5 (results : decode_results) (log : List Event) : Option (Nat × Nat) → Outcome
  | none => ⟨false, results, log⟩
  | some (n, d) =>
    ⟨true, { results with bits := n, value := d, decode_type := decode_type_t.RC5 }, log⟩

/-! ## The quantizer -/

theorem getRClevel_past_end (env : Env) (results : decode_results) (c : Cursor) (t1 : Int)
    (h : results.rawlen ≤ c.offset) : getRClevel env results c t1 = (env.SPACE, c) := by
  unfold getRClevel
  rw [if_pos h]

theorem getRClevel_of_avail (env : Env) (results : decode_results) (c : Cursor) (t1 k : Int)
    (h : c.offset < results.rawlen)
    (hk : getRClevel_avail env (results.rawbuf c.offset) t1 (getRClevel_correction env c.offset)
      = some k) :
    getRClevel env results c t1 =
      (getRClevel_val env c.offset,
        if c.used + 1 ≥ k then ⟨c.offset + 1, 0⟩ else ⟨c.offset, c.used + 1⟩) := by
  unfold getRClevel
  rw [if_neg (by omega)]
  simp only [hk]
  split <;> rfl

theorem getRClevel_of_no_avail (env : Env) (results : decode_results) (c : Cursor) (t1 : Int)
    (h : c.offset < results.rawlen)
    (hk : getRClevel_avail env (results.rawbuf c.offset) t1 (getRClevel_correction env c.offset)
      = none) :
    getRClevel env results c t1 = (-1, c) := by
  unfold getRClevel
  rw [if_neg (by omega)]
  simp only [hk]

theorem getRClevel_correction_eq (env : Env) (hMS : env.MARK ≠ env.SPACE) (offset : Nat) :
    getRClevel_correction env offset =
      if offset % 2 = 1 then env.MARK_EXCESS else - env.MARK_EXCESS := by
  unfold getRClevel_correction getRClevel_val
  rcases Nat.mod_two_eq_zero_or_one offset with h | h
  · simp [h, Ne.symm hMS]
  · simp [h]

theorem getRClevel_val_eq (env : Env) (offset : Nat) :
    getRClevel_val env offset = if offset % 2 = 1 then env.MARK else env.SPACE := by
  unfold getRClevel_val
  rcases Nat.mod_two_eq_zero_or_one offset with h | h <;> simp [h]

/-- The first matching multiple, stated with `k` ranging over `1, 2, 3`. -/
theorem getRClevel_avail_eq_some (env : Env) (width t1 corr : Int) (k : Nat)
    (hk : 1 ≤ k ∧ k ≤ 3)
    (hmatch : env.MATCH width ((k : Int) * t1 + corr) = true)
    (hfirst : ∀ j : Nat, 1 ≤ j → j < k → env.MATCH width ((j : Int) * t1 + corr) = false) :
    getRClevel_avail env width t1 corr = some (k : Int) := by
  unfold getRClevel_avail
  obtain ⟨h1, h3⟩ := hk
  have hk3 : k = 1 ∨ k = 2 ∨ k = 3 := by omega
  rcases hk3 with rfl | rfl | rfl
  · have : env.MATCH width (t1 + corr) = true := by simpa using hmatch
    simp [this]
  · have h1 : env.MATCH width (t1 + corr) = false := by simpa using hfirst 1 (by omega) (by omega)
    have h2 : env.MATCH width (2 * t1 + corr) = true := by simpa using hmatch
    simp [h1, h2]
  · have h1 : env.MATCH width (t1 + corr) = false := by simpa using hfirst 1 (by omega) (by omega)
    have h2 : env.MATCH width (2 * t1 + corr) = false := by
      simpa using hfirst 2 (by omega) (by omega)
    have h3 : env.MATCH width (3 * t1 + corr) = true := by simpa using hmatch
    simp [h1, h2, h3]

theorem getRClevel_avail_eq_none_iff (env : Env) (width t1 corr : Int) :
    getRClevel_avail env width t1 corr = none ↔
      ∀ k : Nat, 1 ≤ k → k ≤ 3 → env.MATCH width ((k : Int) * t1 + corr) = false := by
  unfold getRClevel_avail
  constructor
  · intro h k hk1 hk3
    have hk : k = 1 ∨ k = 2 ∨ k = 3 := by omega
    by_cases h1 : env.MATCH width (t1 + corr) = true
    · simp [h1] at h
    by_cases h2 : env.MATCH width (2 * t1 + corr) = true
    · simp [h1, h2] at h
    by_cases h3 : env.MATCH width (3 * t1 + corr) = true
    · simp [h1, h2, h3] at h
    rcases hk with rfl | rfl | rfl
    · simpa using h1
    · simpa using h2
    · simpa using h3
  · intro h
    have h1 : env.MATCH width (t1 + corr) = false := by simpa using h 1 (by omega) (by omega)
    have h2 : env.MATCH width (2 * t1 + corr) = false := by simpa using h 2 (by omega) (by omega)
    have h3 : env.MATCH width (3 * t1 + corr) = false := by simpa using h 3 (by omega) (by omega)
    simp [h1, h2, h3]

/-- Within one buffer element of `k` units, the calls at `used = j < k - 1` stay on
the element, and `j` calls from `used = 0` return `j` copies of its polarity. -/
theorem getRClevels_within (env : Env) (results : decode_results) (t1 : Int) (offset : Nat)
    (k : Nat) (h : offset < results.rawlen)
    (hk : getRClevel_avail env (results.rawbuf offset) t1 (getRClevel_correction env offset)
      = some (k : Int)) :
    ∀ (j : Nat) (u : Nat), u + j < k →
      getRClevels env results t1 j ⟨offset, (u : Int)⟩ =
        (List.replicate j (getRClevel_val env offset), ⟨offset, ((u + j : Nat) : Int)⟩) := by
  intro j
  induction j with
  | zero => intro u _; simp [getRClevels]
  | succ j ih =>
    intro u hu
    have hstep := getRClevel_of_avail env results ⟨offset, (u : Int)⟩ t1 k h hk
    have hlt : ¬ ((u : Int) + 1 ≥ (k : Int)) := by omega
    simp only [hlt, if_false] at hstep
    have ih2 := ih (u + 1) (by omega)
    simp only [getRClevels, hstep]
    rw [show ((u : Int) + 1) = ((u + 1 : Nat) : Int) by push_cast; rfl, ih2]
    simp [List.replicate_succ]
    omega

theorem getRClevels_succ_last (env : Env) (results : decode_results) (t1 : Int) :
    ∀ (n : Nat) (c : Cursor),
      getRClevels env results t1 (n + 1) c =
        ((getRClevels env results t1 n c).1 ++
            [(getRClevel env results (getRClevels env results t1 n c).2 t1).1],
          (getRClevel env results (getRClevels env results t1 n c).2 t1).2) := by
  intro n
  induction n with
  | zero => intro c; simp [getRClevels]
  | succ n ih =>
    intro c
    have h := ih (getRClevel env results c t1).2
    rw [getRClevels]
    simp only [h]
    simp [getRClevels]

theorem getRClevels_element (env : Env) (results : decode_results) (t1 : Int) (offset : Nat)
    (k : Nat) (hk1 : 1 ≤ k) (h : offset < results.rawlen)
    (hk : getRClevel_avail env (results.rawbuf offset) t1 (getRClevel_correction env offset)
      = some (k : Int)) :
    getRClevels env results t1 k ⟨offset, 0⟩ =
      (List.replicate k (getRClevel_val env offset), ⟨offset + 1, 0⟩) := by
  obtain ⟨m, rfl⟩ : ∃ m, k = m + 1 := ⟨k - 1, by omega⟩
  have hw := getRClevels_within env results t1 offset (m + 1) h hk m 0 (by omega)
  rw [getRClevels_succ_last]
  simp only [Nat.cast_zero, zero_add] at hw
  have hw0 : getRClevels env results t1 m ⟨offset, 0⟩ =
      (List.replicate m (getRClevel_val env offset), ⟨offset, (m : Int)⟩) := by
    simpa using hw
  rw [hw0]
  have hstep := getRClevel_of_avail env results ⟨offset, (m : Int)⟩ t1 ((m + 1 : Nat) : Int) h hk
  have hge : (m : Int) + 1 ≥ ((m + 1 : Nat) : Int) := by push_cast; omega
  simp only [hge, if_true] at hstep
  simp only [hstep]
  simp [List.replicate_succ']

/-! ## Claims on the quantizer and on the guards of the decoders -/

/-- C4: `getRClevel` splits one buffer element into unit symbols. For
`offset < rawlen`, starting from `used = 0`, if `k ∈ {1, 2, 3}` is the smallest
multiple for which `rawbuf[offset]` matches `k * t1` plus the correction, then for
every `j < k` the first `j` calls return `j` copies of the polarity of the element
(MARK at an odd offset, SPACE at an even one) and leave the cursor at
`(offset, j)`, and `k` calls return `k` copies and leave it at `(offset + 1, 0)`. -/
theorem getRClevel_splits_element (env : Env) (results : decode_results) (t1 : Int)
    (offset k : Nat) (hMS : env.MARK ≠ env.SPACE) (hoff : offset < results.rawlen)
    (hk : 1 ≤ k ∧ k ≤ 3)
    (hmatch : env.MATCH (results.rawbuf offset)
      ((k : Int) * t1 + (if offset % 2 = 1 then env.MARK_EXCESS else - env.MARK_EXCESS)) = true)
    (hfirst : ∀ j : Nat, 1 ≤ j → j < k → env.MATCH (results.rawbuf offset)
      ((j : Int) * t1 + (if offset % 2 = 1 then env.MARK_EXCESS else - env.MARK_EXCESS))
        = false) :
    (∀ j : Nat, j < k →
      getRClevels env results t1 j ⟨offset, 0⟩ =
        (List.replicate j (if offset % 2 = 1 then env.MARK else env.SPACE),
          ⟨offset, (j : Int)⟩)) ∧
    getRClevels env results t1 k ⟨offset, 0⟩ =
      (List.replicate k (if offset % 2 = 1 then env.MARK else env.SPACE), ⟨offset + 1, 0⟩) := by
  rw [← getRClevel_correction_eq env hMS] at hmatch hfirst
  have hav := getRClevel_avail_eq_some env _ t1 _ k hk hmatch hfirst
  rw [← getRClevel_val_eq]
  refine ⟨fun j hj => ?_, getRClevels_element env results t1 offset k hk.1 hoff hav⟩
  have := getRClevels_within env results t1 offset k hoff hav j 0 (by omega)
  simpa using this

/-- Witness of C4: a mark of 37 ticks at offset 3 is two RC5 units. -/
theorem getRClevel_splits_element_witness :
    getRClevels libEnv (bufferOf [100, 19, 15, 37, 15]) 889 2 ⟨3, 0⟩ =
      (List.replicate 2 (if 3 % 2 = 1 then libEnv.MARK else libEnv.SPACE), ⟨3 + 1, 0⟩) :=
  (getRClevel_splits_element libEnv (bufferOf [100, 19, 15, 37, 15]) 889 3 2 (by decide)
    (by decide) (by decide) (by decide)
    (fun j h1 h2 => by
      have hj : j = 1 := by omega
      subst hj
      decide)).2

/-- C5: `getRClevel` fails exactly on a timing mismatch, and atomically. For
`offset < rawlen` it returns `-1` if and only if `rawbuf[offset]` matches none of
`k * t1 + c`, `k ∈ {1, 2, 3}`, with `c = MARK_EXCESS` at an odd offset and
`c = - MARK_EXCESS` at an even one; and when it returns `-1` the cursor is
unchanged. -/
theorem getRClevel_error_iff (env : Env) (results : decode_results) (c : Cursor) (t1 : Int)
    (hMS : env.MARK ≠ env.SPACE) (hM : env.MARK ≠ -1) (hS : env.SPACE ≠ -1)
    (hoff : c.offset < results.rawlen) :
    ((getRClevel env results c t1).1 = -1 ↔
      ∀ k : Nat, 1 ≤ k → k ≤ 3 → env.MATCH (results.rawbuf c.offset)
        ((k : Int) * t1 + (if c.offset % 2 = 1 then env.MARK_EXCESS else - env.MARK_EXCESS))
          = false) ∧
    ((getRClevel env results c t1).1 = -1 → (getRClevel env results c t1).2 = c) := by
  rw [← getRClevel_correction_eq env hMS, ← getRClevel_avail_eq_none_iff]
  cases hav : getRClevel_avail env (results.rawbuf c.offset) t1
      (getRClevel_correction env c.offset) with
  | none =>
    rw [getRClevel_of_no_avail env results c t1 hoff hav]
    simp
  | some k =>
    rw [getRClevel_of_avail env results c t1 k hoff hav]
    have hv : getRClevel_val env c.offset ≠ -1 := by
      unfold getRClevel_val
      split <;> assumption
    simp [hv]

/-- Witness of C5: 90 ticks at offset 1 match no multiple of 889 µs. -/
theorem getRClevel_error_iff_witness :
    (getRClevel libEnv (bufferOf [100, 90, 15]) ⟨1, 0⟩ 889).1 = -1 ∧
      (getRClevel libEnv (bufferOf [100, 90, 15]) ⟨1, 0⟩ 889).2 = ⟨1, 0⟩ :=
  have h := getRClevel_error_iff libEnv (bufferOf [100, 90, 15]) ⟨1, 0⟩ 889
    (by decide) (by decide) (by decide) (by decide)
  ⟨by decide, h.2 (by decide)⟩

/-- C6: past the end of the buffer the quantizer reports idle and does not move
the cursor: for `offset ≥ rawlen`, any `used` and any `t1`, `getRClevel` returns
SPACE and leaves `offset` and `used` unchanged. -/
theorem getRClevel_idle_past_end (env : Env) (results : decode_results) (c : Cursor) (t1 : Int)
    (h : results.rawlen ≤ c.offset) :
    getRClevel env results c t1 = (env.SPACE, c) :=
  getRClevel_past_end env results c t1 h

/-- Witness of C6: offset 7 in a buffer of three entries. -/
theorem getRClevel_idle_past_end_witness :
    getRClevel libEnv (bufferOf [100, 19, 15]) ⟨7, 2⟩ 444 = (libEnv.SPACE, ⟨7, 2⟩) :=
  getRClevel_idle_past_end libEnv (bufferOf [100, 19, 15]) ⟨7, 2⟩ 444 (by decide)

/-- C7: RC5 start-bit rule. If the first three unit symbols the quantizer produces
from offset 1 with unit 889 are not MARK, SPACE, MARK in that order, `decodeRC5`
returns false and leaves the results untouched, whatever the rest of the buffer,
the recorded length and the fuel. -/
theorem decodeRC5_start_rule (env : Env) (fuel irparams_rawlen : Nat)
    (results : decode_results)
    (h : (getRClevels env results RC5_T1 3 ⟨1, 0⟩).1 ≠ [env.MARK, env.SPACE, env.MARK]) :
    ∃ log, decodeRC5 env fuel irparams_rawlen results = some ⟨false, results, log⟩ := by
  unfold decodeRC5
  by_cases hlen : irparams_rawlen < MIN_RC5_SAMPLES + 2
  · exact ⟨[], by rw [if_pos hlen]⟩
  rw [if_neg hlen]
  simp only [getRClevels] at h
  by_cases h1 : (getRClevel env results ⟨1, 0⟩ RC5_T1).1 = env.MARK
  · by_cases h2 : (getRClevel env results (getRClevel env results ⟨1, 0⟩ RC5_T1).2 RC5_T1).1
        = env.SPACE
    · by_cases h3 : (getRClevel env results
          (getRClevel env results (getRClevel env results ⟨1, 0⟩ RC5_T1).2 RC5_T1).2 RC5_T1).1
            = env.MARK
      · exact absurd (by rw [h1, h2, h3]) h
      · simp only [h1, h2, h3, ne_eq, not_true_eq_false, not_false_eq_true, if_true, if_false]
        exact ⟨_, rfl⟩
    · simp only [h1, h2, ne_eq, not_true_eq_false, not_false_eq_true, if_true, if_false]
      exact ⟨_, rfl⟩
  · simp only [h1, ne_eq, not_false_eq_true, if_true]
    exact ⟨_, rfl⟩

/-- Witness of C7: a 14-entry buffer whose second unit symbol is a mark. -/
theorem decodeRC5_start_rule_witness :
    ∃ log, decodeRC5 libEnv 50 14
        (bufferOf [100, 37, 15, 19, 15, 19, 15, 19, 15, 19, 15, 19, 15, 19]) =
      some ⟨false, bufferOf [100, 37, 15, 19, 15, 19, 15, 19, 15, 19, 15, 19, 15, 19], log⟩ :=
  decodeRC5_start_rule libEnv 50 14
    (bufferOf [100, 37, 15, 19, 15, 19, 15, 19, 15, 19, 15, 19, 15, 19]) (by decide)

/-- C9: with fewer than 11 recorded samples `decodeRC5` returns false, leaves the
results untouched and makes no call to `getRClevel` (its log is empty). -/
theorem decodeRC5_too_short (env : Env) (fuel irparams_rawlen : Nat) (results : decode_results)
    (h : irparams_rawlen < 11) :
    decodeRC5 env fuel irparams_rawlen results = some ⟨false, results, []⟩ := by
  unfold decodeRC5
  rw [if_pos (by unfold MIN_RC5_SAMPLES; omega)]

/-- Witness of C9: a buffer of 10 samples. -/
theorem decodeRC5_too_short_witness :
    decodeRC5 libEnv 50 10 (bufferOf [100, 19, 15, 19, 15, 19, 15, 19, 15, 19]) =
      some ⟨false, bufferOf [100, 19, 15, 19, 15, 19, 15, 19, 15, 19], []⟩ :=
  decodeRC5_too_short libEnv 50 10 (bufferOf [100, 19, 15, 19, 15, 19, 15, 19, 15, 19])
    (by decide)

/-- C8: RC6 double-width rule. In an iteration of the loop of `decodeRC6` at bit
index 3, each Manchester half is read by two quantizer calls (`a1`, `a2` and `b1`,
`b2`). If the two calls of the first half differ the decode returns false; if they
agree and the two calls of the second half differ the decode returns false; if both
halves agree, the pair `(a1, b1)` is classified as for any other bit, and on a
valid pair the loop goes on at bit index 4 with the value shifted by one position:
the double-width bit adds exactly one bit. -/
theorem decodeRC6_double_width (env : Env) (results : decode_results) (fuel data : Nat)
    (c : Cursor) (hoff : c.offset < results.rawlen) :
    let a1 := getRClevel env results c RC6_T1
    let a2 := getRClevel env results a1.2 RC6_T1
    let b1 := getRClevel env results a2.2 RC6_T1
    let b2 := getRClevel env results b1.2 RC6_T1
    let calls := [Event.quantize c, Event.quantize a1.2, Event.quantize a2.2,
      Event.quantize b1.2]
    (a1.1 ≠ a2.1 →
      decodeRC6_loop env results (fuel + 1) 3 data c =
        some (none, [Event.quantize c, Event.quantize a1.2])) ∧
    (a1.1 = a2.1 → b1.1 ≠ b2.1 →
      decodeRC6_loop env results (fuel + 1) 3 data c = some (none, calls)) ∧
    (a1.1 = a2.1 → b1.1 = b2.1 →
      decodeRC6_loop env results (fuel + 1) 3 data c =
        if a1.1 = env.MARK ∧ b1.1 = env.SPACE then
          (decodeRC6_loop env results fuel 4 (((data <<< 1) ||| 1) % 2 ^ 32) b2.2).map
            (fun r => (r.1, calls ++ r.2))
        else if a1.1 = env.SPACE ∧ b1.1 = env.MARK then
          (decodeRC6_loop env results fuel 4 ((data <<< 1) % 2 ^ 32) b2.2).map
            (fun r => (r.1, calls ++ r.2))
        else some (none, calls)) := by
  intro a1 a2 b1 b2 calls
  refine ⟨fun h => ?_, fun ha h => ?_, fun ha hb => ?_⟩
  · rw [decodeRC6_loop, if_pos hoff]
    simp only [decodeRC6_body, if_true]
    rw [if_pos ⟨trivial, h⟩]
  · rw [decodeRC6_loop, if_pos hoff]
    simp only [decodeRC6_body, if_true]
    rw [if_neg (fun hh => hh.2 ha), if_pos ⟨trivial, h⟩]
    rfl
  · rw [decodeRC6_loop, if_pos hoff]
    simp only [decodeRC6_body, if_true]
    rw [if_neg (fun hh => hh.2 ha), if_neg (fun hh => hh.2 hb)]
    by_cases h1 : a1.1 = env.MARK ∧ b1.1 = env.SPACE
    · rw [if_pos h1, if_pos h1]
      rfl
    · rw [if_neg h1, if_neg h1]
      by_cases h2 : a1.1 = env.SPACE ∧ b1.1 = env.MARK
      · rw [if_pos h2, if_pos h2]
        rfl
      · rw [if_neg h2, if_neg h2]
        rfl

/-- Witness of C8: a double-width mark followed by a double-width space, read at
bit index 3 with `data = 5`, gives `data = 11` at bit index 4. -/
theorem decodeRC6_double_width_witness :
    decodeRC6_loop libEnv (bufferOf [100, 19, 15]) 2 3 5 ⟨1, 0⟩ =
      some (some (4, 11), [Event.quantize ⟨1, 0⟩, Event.quantize ⟨1, 1⟩,
        Event.quantize ⟨2, 0⟩, Event.quantize ⟨2, 1⟩]) := by
  rw [(decodeRC6_double_width libEnv (bufferOf [100, 19, 15]) 1 5 ⟨1, 0⟩ (by decide)).2.2
    (by decide) (by decide)]
  decide

/-! ## Runs of a Manchester emission -/

theorem pulses_append (a b : List IRcall) : pulses (a ++ b) = pulses a ++ pulses b := by
  induction a with
  | nil => rfl
  | cons x xs ih => cases x <;> simp [pulses, ih]

theorem mergePulses_scale (t1 : Int) (l : List (Bool × Int)) :
    mergePulses (scaleRuns t1 l) = scaleRuns t1 (mergePulses l) := by
  induction l with
  | nil => rfl
  | cons e rest ih =>
    obtain ⟨p, w⟩ := e
    have hs : scaleRuns t1 ((p, w) :: rest) = (p, w * t1) :: scaleRuns t1 rest := rfl
    rw [hs, mergePulses, ih]
    cases hm : mergePulses rest with
    | nil => simp [mergePulses, hm, scaleRuns]
    | cons f tl =>
      obtain ⟨q, v⟩ := f
      simp only [mergePulses, hm, scaleRuns, List.map_cons]
      by_cases hpq : p = q
      · simp [hpq, add_mul]
      · simp [hpq]

theorem dropTrailingSpace_scale (t1 : Int) (l : List (Bool × Int)) :
    dropTrailingSpace (scaleRuns t1 l) = scaleRuns t1 (dropTrailingSpace l) := by
  induction l with
  | nil => rfl
  | cons e rest ih =>
    cases rest with
    | nil =>
      obtain ⟨p, w⟩ := e
      cases p <;> simp [scaleRuns, dropTrailingSpace]
    | cons e2 es =>
      have h1 : scaleRuns t1 (e :: e2 :: es) =
          (e.1, e.2 * t1) :: (e2.1, e2.2 * t1) :: scaleRuns t1 es := rfl
      have h2 : scaleRuns t1 (e2 :: es) = (e2.1, e2.2 * t1) :: scaleRuns t1 es := rfl
      rw [h1, dropTrailingSpace, ← h2, ih, dropTrailingSpace]
      rfl

theorem mergePulses_cons_ne (p : Bool) (w : Int) (q : Bool) (v : Int) (tl rest : List (Bool × Int))
    (h : mergePulses rest = (q, v) :: tl) (hpq : p ≠ q) :
    mergePulses ((p, w) :: rest) = (p, w) :: (q, v) :: tl := by
  simp [mergePulses, h, hpq]

theorem mergePulses_cons_eq (p : Bool) (w : Int) (v : Int) (tl rest : List (Bool × Int))
    (h : mergePulses rest = (p, v) :: tl) :
    mergePulses ((p, w) :: rest) = (p, w + v) :: tl := by
  simp [mergePulses, h]

theorem replicate_toNat_add (a b : Int) (ha : 0 ≤ a) (hb : 0 ≤ b) (p : Bool) :
    List.replicate (a + b).toNat p = List.replicate a.toNat p ++ List.replicate b.toNat p := by
  rw [Int.toNat_add ha hb, List.replicate_add]

theorem preRuns_single (p q : Bool) (k : Int) :
    PreRuns p [(q, k)] ↔ q = p ∧ p = false ∧ 0 ≤ k := Iff.rfl

theorem preRuns_cons (p q : Bool) (k : Int) (r : Bool × Int) (rs : List (Bool × Int)) :
    PreRuns p ((q, k) :: r :: rs) ↔ q = p ∧ 1 ≤ k ∧ k ≤ 3 ∧ PreRuns (!p) (r :: rs) := Iff.rfl

/-- The merged runs of a Manchester emission closed by a zero-length space. -/
theorem merge_manchester (ps : List (Bool × Int)) (hok : okPairs ps) :
    (ps = [] → mergePulses (manchester ps ++ [(false, 0)]) = [(false, 0)]) ∧
    (∀ x k rest, ps = (x, k) :: rest →
      (∃ tl, mergePulses (manchester ps ++ [(false, 0)]) = (x, k) :: tl) ∧
        PreRuns x (mergePulses (manchester ps ++ [(false, 0)])) ∧
        expandRuns (mergePulses (manchester ps ++ [(false, 0)])) = expandRuns (manchester ps)) := by
  induction ps with
  | nil =>
    refine ⟨fun _ => by simp [manchester, mergePulses], fun x k rest h => ?_⟩
    cases h
  | cons e rest ih =>
    obtain ⟨x, k⟩ := e
    refine ⟨fun h => (by cases h), fun x' k' rest' h => ?_⟩
    obtain ⟨hx, hrest⟩ := List.cons.inj h
    obtain ⟨rfl, rfl⟩ := Prod.mk.inj hx
    subst hrest
    have hman : manchester ((x, k) :: rest) ++ [(false, 0)] =
        (x, k) :: (!x, k) :: (manchester rest ++ [(false, 0)]) := rfl
    rw [hman]
    cases rest with
    | nil =>
      have hk : 1 ≤ k ∧ k ≤ 2 := hok
      have hbase : mergePulses (manchester [] ++ [(false, 0)]) = [(false, 0)] := by
        simp [manchester, mergePulses]
      cases x with
      | true =>
        have h1 := mergePulses_cons_eq false k 0 [] _ hbase
        have h2 := mergePulses_cons_ne true k false (k + 0) [] _ h1 (by decide)
        simp only [Bool.not_true] at *
        rw [h2]
        refine ⟨⟨_, rfl⟩, ?_, ?_⟩
        · exact (preRuns_cons _ _ _ _ _).2 ⟨rfl, hk.1, by omega,
            (preRuns_single _ _ _).2 ⟨rfl, rfl, by omega⟩⟩
        · simp [expandRuns, manchester]
      | false =>
        have h1 := mergePulses_cons_ne true k false 0 [] _ hbase (by decide)
        have h2 := mergePulses_cons_ne false k true k [(false, 0)] _ h1 (by decide)
        simp only [Bool.not_false] at *
        rw [h2]
        refine ⟨⟨_, rfl⟩, ?_, ?_⟩
        · exact (preRuns_cons _ _ _ _ _).2 ⟨rfl, hk.1, by omega,
            (preRuns_cons _ _ _ _ _).2 ⟨rfl, hk.1, by omega,
              (preRuns_single _ _ _).2 ⟨rfl, rfl, by omega⟩⟩⟩
        · simp [expandRuns, manchester]
    | cons e2 rest2 =>
      obtain ⟨y, k2⟩ := e2
      have hok' : 1 ≤ k ∧ k ≤ 2 ∧ k + k2 ≤ 3 ∧ okPairs ((y, k2) :: rest2) := hok
      obtain ⟨hk1, hk2, hk3, hokr⟩ := hok'
      obtain ⟨-, ih⟩ := ih hokr
      obtain ⟨⟨tl, htl⟩, hpre, hexp⟩ := ih y k2 rest2 rfl
      rw [htl] at hpre hexp
      have hk2pos : 1 ≤ k2 := by
        cases rest2 with
        | nil => exact (show 1 ≤ k2 ∧ k2 ≤ 2 from hokr).1
        | cons e3 r3 =>
          obtain ⟨z, k3⟩ := e3
          exact (show 1 ≤ k2 ∧ k2 ≤ 2 ∧ k2 + k3 ≤ 3 ∧ okPairs ((z, k3) :: r3) from hokr).1
      have hexpand : expandRuns (manchester ((x, k) :: (y, k2) :: rest2)) =
          List.replicate k.toNat x ++ (List.replicate k.toNat (!x) ++
            expandRuns ((y, k2) :: tl)) := by
        rw [hexp]
        simp [manchester, expandRuns]
      by_cases hxy : (!x) = y
      · subst hxy
        have h1 := mergePulses_cons_eq (!x) k k2 tl _ htl
        have h2 := mergePulses_cons_ne x k (!x) (k + k2) tl _ h1 (by cases x <;> decide)
        rw [h2]
        refine ⟨⟨_, rfl⟩, ?_, ?_⟩
        · cases tl with
          | nil =>
            have hp : (!x) = (!x) ∧ (!x) = false ∧ 0 ≤ k2 := hpre
            exact (preRuns_cons _ _ _ _ _).2 ⟨rfl, hk1, by omega,
              (preRuns_single _ _ _).2 ⟨rfl, hp.2.1, by omega⟩⟩
          | cons r rs =>
            have hp : (!x) = (!x) ∧ 1 ≤ k2 ∧ k2 ≤ 3 ∧ PreRuns (!(!x)) (r :: rs) := hpre
            exact (preRuns_cons _ _ _ _ _).2 ⟨rfl, hk1, by omega,
              (preRuns_cons _ _ _ _ _).2 ⟨rfl, by omega, by omega, hp.2.2.2⟩⟩
        · rw [hexpand]
          simp only [expandRuns]
          rw [replicate_toNat_add k k2 (by omega) (by omega)]
          simp only [List.append_assoc]
      · have hyx : y = x := by cases x <;> cases y <;> simp_all
        subst hyx
        have h1 := mergePulses_cons_ne (!y) k y k2 tl _ htl hxy
        have h2 := mergePulses_cons_ne y k (!y) k ((y, k2) :: tl) _ h1 (by cases y <;> decide)
        rw [h2]
        refine ⟨⟨_, rfl⟩, ?_, ?_⟩
        · have hpre2 : PreRuns (!(!y)) ((y, k2) :: tl) := by
            rw [Bool.not_not]
            exact hpre
          exact (preRuns_cons _ _ _ _ _).2 ⟨rfl, hk1, by omega,
            (preRuns_cons _ _ _ _ _).2 ⟨rfl, hk1, by omega, hpre2⟩⟩
        · rw [hexpand]
          simp [expandRuns]

/-- Dropping the trailing space of pre-runs leaves runs that end with a mark, and
removes only space units. -/
theorem dropTrailingSpace_preRuns (rs : List (Bool × Int)) :
    ∀ p, PreRuns p rs →
      RunsAlt p (dropTrailingSpace rs) ∧
        ∃ m, expandRuns rs = expandRuns (dropTrailingSpace rs) ++ List.replicate m false := by
  induction rs with
  | nil => intro p h; exact absurd h (by simp [PreRuns])
  | cons e rest ih =>
    intro p h
    obtain ⟨q, k⟩ := e
    cases rest with
    | nil =>
      have hp : q = p ∧ p = false ∧ 0 ≤ k := h
      obtain ⟨rfl, hq, hk⟩ := hp
      subst hq
      refine ⟨?_, k.toNat, ?_⟩
      · simp [dropTrailingSpace, RunsAlt]
      · simp [dropTrailingSpace, expandRuns]
    | cons r rs =>
      have hp : q = p ∧ 1 ≤ k ∧ k ≤ 3 ∧ PreRuns (!p) (r :: rs) := h
      obtain ⟨rfl, hk1, hk3, hrest⟩ := hp
      obtain ⟨hra, m, hm⟩ := ih (!q) hrest
      refine ⟨?_, m, ?_⟩
      · rw [dropTrailingSpace]
        exact ⟨rfl, hk1, hk3, hra⟩
      · rw [dropTrailingSpace]
        simp only [expandRuns] at hm ⊢
        rw [hm]
        simp

/-! ## The quantizer on a buffer of runs -/

theorem tracks_past_end (env : Env) (results : decode_results) (t1 : Int) (c : Cursor)
    (h : results.rawlen ≤ c.offset) :
    ∀ m, Tracks env results t1 c (List.replicate m false) := by
  intro m
  induction m with
  | zero => exact h
  | succ m ih =>
    rw [List.replicate_succ]
    refine ⟨?_, ?_, ?_⟩
    · constructor
      · intro h'
        omega
      · intro h'
        simp at h'
    · rw [getRClevel_past_end env results c t1 h]
      rfl
    · rw [getRClevel_past_end env results c t1 h]
      exact ih

theorem runsAlt_true_mem (rs : List (Bool × Int)) (h : RunsAlt true rs) :
    true ∈ expandRuns rs := by
  cases rs with
  | nil => exact absurd h (by simp [RunsAlt])
  | cons e rest =>
    obtain ⟨q, k⟩ := e
    have hp : q = true ∧ 1 ≤ k ∧ k ≤ 3 ∧ RunsAlt (!true) rest := h
    obtain ⟨rfl, hk1, -, -⟩ := hp
    simp only [expandRuns, List.mem_append, List.mem_replicate]
    left
    refine ⟨?_, trivial⟩
    omega

theorem tracks_run (env : Env) (results : decode_results) (t1 : Int) (o : Nat) (k : Int)
    (q : Bool) (rest : List Bool) (hoff : o < results.rawlen)
    (hav : getRClevel_avail env (results.rawbuf o) t1 (getRClevel_correction env o) = some k)
    (hq : getRClevel_val env o = levelOf env q)
    (hmem : q = true ∨ true ∈ rest)
    (hrest : Tracks env results t1 ⟨o + 1, 0⟩ rest) :
    ∀ (j u : Nat), 1 ≤ j → (u : Int) + j = k →
      Tracks env results t1 ⟨o, (u : Int)⟩ (List.replicate j q ++ rest) := by
  intro j
  induction j with
  | zero => intro u h; omega
  | succ j ih =>
    intro u _ hk
    have hstep := getRClevel_of_avail env results ⟨o, (u : Int)⟩ t1 k hoff hav
    rw [List.replicate_succ, List.cons_append]
    have hmem' : true ∈ q :: (List.replicate j q ++ rest) := by
      rcases hmem with h | h
      · simp [h]
      · simp [h]
    refine ⟨⟨fun _ => hmem', fun _ => hoff⟩, ?_, ?_⟩
    · rw [hstep]
      exact hq
    · rw [hstep]
      by_cases hj : j = 0
      · subst hj
        have hge : (u : Int) + 1 ≥ k := by push_cast at hk; omega
        simp only [hge, if_true, List.replicate_zero, List.nil_append]
        exact hrest
      · have hlt : ¬ ((u : Int) + 1 ≥ k) := by push_cast at hk; omega
        simp only [hlt, if_false]
        have := ih (u + 1) (by omega) (by push_cast at hk ⊢; omega)
        simpa using this

theorem avail_of_match (env : Env) (w t1 corr k : Int) (ht1 : 0 < t1) (hk1 : 1 ≤ k)
    (hk3 : k ≤ 3) (hm : env.MATCH w (k * t1 + corr) = true)
    (hu1 : (decide (k * t1 ≤ t1) || !env.MATCH w (t1 + corr)) = true)
    (hu2 : (decide (k * t1 ≤ 2 * t1) || !env.MATCH w (2 * t1 + corr)) = true) :
    getRClevel_avail env w t1 corr = some k := by
  unfold getRClevel_avail
  have hk : k = 1 ∨ k = 2 ∨ k = 3 := by omega
  rcases hk with rfl | rfl | rfl
  · have : env.MATCH w (t1 + corr) = true := by simpa using hm
    simp [this]
  · have hn : ¬ (2 * t1 ≤ t1) := by omega
    have h1 : env.MATCH w (t1 + corr) = false := by simpa [hn] using hu1
    simp [h1, hm]
  · have hn1 : ¬ (3 * t1 ≤ t1) := by omega
    have hn2 : ¬ (3 * t1 ≤ 2 * t1) := by omega
    have h1 : env.MATCH w (t1 + corr) = false := by simpa [hn1] using hu1
    have h2 : env.MATCH w (2 * t1 + corr) = false := by simpa [hn2] using hu2
    simp [h1, h2, hm]

/-- A buffer whose entries from `o` on match unambiguously a list of runs is read
by the quantizer as the unit symbols of the runs, followed by spaces. -/
theorem tracks_of_runs (env : Env) (results : decode_results) (t1 : Int)
    (hMS : env.MARK ≠ env.SPACE) (ht1 : 0 < t1) (rs : List (Bool × Int)) :
    ∀ (o : Nat) (p : Bool), RunsAlt p rs → p = decide (o % 2 = 1) →
      results.rawlen = o + rs.length →
      entriesMatch env results.rawbuf o (scaleRuns t1 rs) = true →
      entriesUnambiguous env t1 results.rawbuf o (scaleRuns t1 rs) = true →
      ∀ m, Tracks env results t1 ⟨o, 0⟩ (expandRuns rs ++ List.replicate m false) := by
  induction rs with
  | nil =>
    intro o p _ _ hlen _ _ m
    simp only [expandRuns, List.nil_append]
    exact tracks_past_end env results t1 ⟨o, 0⟩ (by simp at hlen; simp [hlen]) m
  | cons e rest ih =>
    intro o p hra hp hlen hmatch hunamb m
    obtain ⟨q, k⟩ := e
    have hra' : q = p ∧ 1 ≤ k ∧ k ≤ 3 ∧ RunsAlt (!p) rest := hra
    obtain ⟨hqp, hk1, hk3, hrest⟩ := hra'
    subst hqp
    have hoff : o < results.rawlen := by simp at hlen; omega
    simp only [scaleRuns, List.map_cons, entriesMatch, entriesUnambiguous, Bool.and_eq_true]
      at hmatch hunamb
    obtain ⟨hm0, hmrest⟩ := hmatch
    obtain ⟨⟨hu1, hu2⟩, hurest⟩ := hunamb
    have hcorr : getRClevel_correction env o =
        (if q = true then env.MARK_EXCESS else - env.MARK_EXCESS) := by
      rw [getRClevel_correction_eq env hMS, hp]
      simp
    have hav : getRClevel_avail env (results.rawbuf o) t1 (getRClevel_correction env o)
        = some k := by
      rw [hcorr]
      exact avail_of_match env _ t1 _ k ht1 hk1 hk3 hm0 hu1 hu2
    have hval : getRClevel_val env o = levelOf env q := by
      rw [getRClevel_val_eq, hp]
      simp [levelOf]
    have ihr := ih (o + 1) (!q) hrest
      (by rw [hp]; rcases Nat.mod_two_eq_zero_or_one o with h | h <;> simp [h, Nat.add_mod])
      (by simp at hlen ⊢; omega) hmrest hurest m
    have hmem : q = true ∨ true ∈ expandRuns rest ++ List.replicate m false := by
      cases q with
      | true => exact Or.inl rfl
      | false =>
        right
        exact List.mem_append_left _ (runsAlt_true_mem rest hrest)
    have := tracks_run env results t1 o k q _ hoff hav hval hmem ihr k.toNat 0
      (by omega) (by simp; omega)
    simpa [expandRuns, List.append_assoc] using this

/-! ## The decode loops on a tracked unit sequence -/

theorem tracks_cons (env : Env) (results : decode_results) (t1 : Int) (c : Cursor) (u : Bool)
    (us : List Bool) :
    Tracks env results t1 c (u :: us) ↔
      (c.offset < results.rawlen ↔ true ∈ u :: us) ∧
        (getRClevel env results c t1).1 = levelOf env u ∧
        Tracks env results t1 (getRClevel env results c t1).2 us := Iff.rfl

theorem expand_manchester_one (x : Bool) (ps : List (Bool × Int)) :
    expandRuns (manchester ((x, 1) :: ps)) = x :: (!x) :: expandRuns (manchester ps) := by
  simp [manchester, expandRuns]

theorem expand_manchester_two (x : Bool) (ps : List (Bool × Int)) :
    expandRuns (manchester ((x, 2) :: ps)) =
      x :: x :: (!x) :: (!x) :: expandRuns (manchester ps) := by
  simp [manchester, expandRuns, List.replicate]

theorem decodeRC5_loop_tracks (env : Env) (results : decode_results)
    (hMS : env.MARK ≠ env.SPACE) (bs : List Bool) :
    ∀ (fuel nb data : Nat) (c : Cursor), bs.length < fuel →
      Tracks env results RC5_T1 c (expandRuns (manchester (rc5Pairs bs))) →
      ∃ log, decodeRC5_loop env results.rawlen results fuel nb data c =
        some (some (nb + bs.length, bitsValue data bs), log) := by
  induction bs with
  | nil =>
    intro fuel nb data c hfuel htr
    obtain ⟨f, rfl⟩ : ∃ f, fuel = f + 1 := ⟨fuel - 1, by simp at hfuel; omega⟩
    have hend : results.rawlen ≤ c.offset := htr
    rw [decodeRC5_loop, if_neg (by omega)]
    exact ⟨[], rfl⟩
  | cons b bs ih =>
    intro fuel nb data c hfuel htr
    obtain ⟨f, rfl⟩ : ∃ f, fuel = f + 1 := ⟨fuel - 1, by simp at hfuel; omega⟩
    have hunits : expandRuns (manchester (rc5Pairs (b :: bs))) =
        (!b) :: (!(!b)) :: expandRuns (manchester (rc5Pairs bs)) :=
      expand_manchester_one (!b) (rc5Pairs bs)
    rw [hunits, tracks_cons] at htr
    obtain ⟨hoff, hA, htr⟩ := htr
    rw [tracks_cons] at htr
    obtain ⟨-, hB, htr⟩ := htr
    have hin : c.offset < results.rawlen := hoff.2 (by cases b <;> simp)
    obtain ⟨log, hlog⟩ := ih f (nb + 1) (bitsValue data [b]) _ (by simp at hfuel; omega) htr
    rw [decodeRC5_loop, if_pos hin]
    simp only [hA, hB]
    cases b with
    | true =>
      have hc : levelOf env (!true) = env.SPACE ∧ levelOf env (!(!true)) = env.MARK := by
        simp [levelOf]
      rw [if_pos hc]
      simp only [bitsValue, if_true] at hlog
      rw [hlog]
      refine ⟨Event.quantize c :: Event.quantize (getRClevel env results c RC5_T1).2 :: log, ?_⟩
      simp only [Option.map_some', bitsValue, if_true, List.length_cons]
      rw [show nb + 1 + bs.length = nb + (bs.length + 1) by omega]
    | false =>
      have hc : ¬ (levelOf env (!false) = env.SPACE ∧ levelOf env (!(!false)) = env.MARK) := by
        simp [levelOf, hMS]
      have hc2 : levelOf env (!false) = env.MARK ∧ levelOf env (!(!false)) = env.SPACE := by
        simp [levelOf]
      rw [if_neg hc, if_pos hc2]
      simp only [bitsValue, Bool.false_eq_true, if_false] at hlog
      rw [hlog]
      refine ⟨Event.quantize c :: Event.quantize (getRClevel env results c RC5_T1).2 :: log, ?_⟩
      simp only [Option.map_some', bitsValue, Bool.false_eq_true, if_false, List.length_cons]
      rw [show nb + 1 + bs.length = nb + (bs.length + 1) by omega]

/-- One iteration of the RC6 loop on the units of a Manchester pair. -/
theorem decodeRC6_body_tracks (env : Env) (results : decode_results)
    (hMS : env.MARK ≠ env.SPACE) (nb data : Nat) (c : Cursor) (b : Bool)
    (ps : List (Bool × Int))
    (htr : Tracks env results RC6_T1 c
      (expandRuns (manchester ((b, if nb = 3 then 2 else 1) :: ps)))) :
    c.offset < results.rawlen ∧
      (decodeRC6_body env results nb data c).1 = some (bitsValue data [b]) ∧
      Tracks env results RC6_T1 (decodeRC6_body env results nb data c).2.1
        (expandRuns (manchester ps)) := by
  have hT : levelOf env true = env.MARK ∧ levelOf env (!true) = env.SPACE := by
    simp [levelOf]
  have hF : ¬ (levelOf env false = env.MARK ∧ levelOf env (!false) = env.SPACE) := by
    simp [levelOf, Ne.symm hMS]
  have hF2 : levelOf env false = env.SPACE ∧ levelOf env (!false) = env.MARK := by
    simp [levelOf]
  by_cases h3 : nb = 3
  · subst h3
    simp only [if_true] at htr
    rw [expand_manchester_two, tracks_cons] at htr
    obtain ⟨hoff, hA1, htr⟩ := htr
    rw [tracks_cons] at htr
    obtain ⟨-, hA2, htr⟩ := htr
    rw [tracks_cons] at htr
    obtain ⟨-, hB1, htr⟩ := htr
    rw [tracks_cons] at htr
    obtain ⟨-, hB2, htr⟩ := htr
    refine ⟨hoff.2 (by cases b <;> simp), ?_⟩
    cases b with
    | true =>
      simp only [decodeRC6_body, if_true, hA1, hA2, hB1, hB2, ne_eq, not_true_eq_false,
        and_false, if_false, if_pos hT]
      exact ⟨by simp [bitsValue], htr⟩
    | false =>
      simp only [decodeRC6_body, if_true, hA1, hA2, hB1, hB2, ne_eq, not_true_eq_false,
        and_false, if_false, if_neg hF, if_pos hF2]
      exact ⟨by simp [bitsValue], htr⟩
  · simp only [h3, if_false] at htr
    rw [expand_manchester_one, tracks_cons] at htr
    obtain ⟨hoff, hA1, htr⟩ := htr
    rw [tracks_cons] at htr
    obtain ⟨-, hB1, htr⟩ := htr
    refine ⟨hoff.2 (by cases b <;> simp), ?_⟩
    cases b with
    | true =>
      simp only [decodeRC6_body, h3, if_false, hA1, hB1, false_and, if_pos hT]
      exact ⟨by simp [bitsValue], htr⟩
    | false =>
      simp only [decodeRC6_body, h3, if_false, hA1, hB1, false_and, if_neg hF, if_pos hF2]
      exact ⟨by simp [bitsValue], htr⟩

theorem decodeRC6_loop_tracks (env : Env) (results : decode_results)
    (hMS : env.MARK ≠ env.SPACE) (bs : List Bool) :
    ∀ (fuel nb data : Nat) (c : Cursor), bs.length < fuel →
      Tracks env results RC6_T1 c (expandRuns (manchester (rc6Pairs nb bs))) →
      ∃ log, decodeRC6_loop env results fuel nb data c =
        some (some (nb + bs.length, bitsValue data bs), log) := by
  induction bs with
  | nil =>
    intro fuel nb data c hfuel htr
    obtain ⟨f, rfl⟩ : ∃ f, fuel = f + 1 := ⟨fuel - 1, by simp at hfuel; omega⟩
    have hend : results.rawlen ≤ c.offset := htr
    rw [decodeRC6_loop, if_neg (by omega)]
    exact ⟨[], rfl⟩
  | cons b bs ih =>
    intro fuel nb data c hfuel htr
    obtain ⟨f, rfl⟩ : ∃ f, fuel = f + 1 := ⟨fuel - 1, by simp at hfuel; omega⟩
    have htr' : Tracks env results RC6_T1 c
        (expandRuns (manchester ((b, if nb = 3 then 2 else 1) :: rc6Pairs (nb + 1) bs))) := htr
    obtain ⟨hin, hb1, hb2⟩ := decodeRC6_body_tracks env results hMS nb data c b _ htr'
    rw [decodeRC6_loop, if_pos hin]
    generalize decodeRC6_body env results nb data c = r at hb1 hb2
    obtain ⟨d, c2, blog⟩ := r
    simp only at hb1 hb2
    subst hb1
    obtain ⟨log, hlog⟩ := ih f (nb + 1) (bitsValue data [b]) c2 (by simp at hfuel; omega) hb2
    simp only [hlog, Option.map_some']
    refine ⟨blog ++ log, ?_⟩
    simp only [List.length_cons]
    rw [show nb + 1 + bs.length = nb + (bs.length + 1) by omega]
    rfl

/-! ## The encoders as bit emitters -/

theorem and_two_pow_ne_zero (data n : Nat) : data &&& 2 ^ n ≠ 0 ↔ data.testBit n = true := by
  constructor
  · intro h
    obtain ⟨i, hi⟩ := Nat.ne_zero_implies_bit_true h
    rw [Nat.testBit_and, Nat.testBit_two_pow] at hi
    simp only [Bool.and_eq_true, decide_eq_true_eq] at hi
    obtain ⟨h1, rfl⟩ := hi
    exact h1
  · intro h hz
    have : (data &&& 2 ^ n).testBit n = true := by
      rw [Nat.testBit_and, Nat.testBit_two_pow_self, h]
      rfl
    rw [hz] at this
    simp at this

theorem sendRC5_loop_zero (data : Nat) : sendRC5_loop data 0 = [] := by
  rw [sendRC5_loop]
  simp

theorem sendRC5_loop_step (data n : Nat) :
    sendRC5_loop data (2 ^ n) =
      (if data.testBit n then [IRcall.space RC5_T1, IRcall.mark RC5_T1]
        else [IRcall.mark RC5_T1, IRcall.space RC5_T1]) ++ sendRC5_loop data (2 ^ n >>> 1) := by
  rw [sendRC5_loop]
  have hpos : 2 ^ n ≠ 0 := by positivity
  rw [dif_neg hpos]
  by_cases hb : data.testBit n = true
  · rw [if_pos ((and_two_pow_ne_zero data n).2 hb), if_pos hb]
  · rw [if_neg (fun h => hb ((and_two_pow_ne_zero data n).1 h)), if_neg hb]

theorem two_pow_succ_shiftRight (n : Nat) : 2 ^ (n + 1) >>> 1 = 2 ^ n := by
  rw [Nat.shiftRight_eq_div_pow, pow_succ]
  simp

theorem sendRC5_loop_pow (data : Nat) :
    ∀ n, sendRC5_loop data (2 ^ n) = emitRC5 (bitsMSB data (n + 1)) := by
  intro n
  induction n with
  | zero =>
    rw [sendRC5_loop_step]
    have : (2 ^ 0 >>> 1 : Nat) = 0 := by decide
    rw [this, sendRC5_loop_zero]
    rfl
  | succ n ih =>
    rw [sendRC5_loop_step, two_pow_succ_shiftRight, ih]
    rfl

theorem sendRC6_loop_zero (data i : Nat) : sendRC6_loop data i 0 = [] := by
  rw [sendRC6_loop]
  simp

theorem sendRC6_loop_step (data i n : Nat) :
    sendRC6_loop data i (2 ^ n) =
      (if data.testBit n then [IRcall.mark (if i = 4 then RC6_T1 * 2 else RC6_T1),
          IRcall.space (if i = 4 then RC6_T1 * 2 else RC6_T1)]
        else [IRcall.space (if i = 4 then RC6_T1 * 2 else RC6_T1),
          IRcall.mark (if i = 4 then RC6_T1 * 2 else RC6_T1)])
        ++ sendRC6_loop data (i + 1) (2 ^ n >>> 1) := by
  rw [sendRC6_loop]
  have hpos : 2 ^ n ≠ 0 := by positivity
  rw [dif_neg hpos]
  by_cases hb : data.testBit n = true
  · simp only [if_pos ((and_two_pow_ne_zero data n).2 hb), if_pos hb]
  · simp only [if_neg (fun h => hb ((and_two_pow_ne_zero data n).1 h)), if_neg hb]

theorem sendRC6_loop_pow (data : Nat) :
    ∀ n i, sendRC6_loop data i (2 ^ n) = emitRC6 i (bitsMSB data (n + 1)) := by
  intro n
  induction n with
  | zero =>
    intro i
    rw [sendRC6_loop_step]
    have : (2 ^ 0 >>> 1 : Nat) = 0 := by decide
    rw [this, sendRC6_loop_zero]
    rfl
  | succ n ih =>
    intro i
    rw [sendRC6_loop_step, two_pow_succ_shiftRight, ih]
    rfl

theorem initial_mask (nbits : Nat) (h1 : 1 ≤ nbits) (h32 : nbits ≤ 32) :
    (1 <<< (nbits - 1)) % 2 ^ 32 = 2 ^ (nbits - 1) := by
  rw [Nat.one_shiftLeft]
  apply Nat.mod_eq_of_lt
  apply Nat.pow_lt_pow_right (by decide)
  omega

/-- The encoder `sendRC5` emits the start condition, the bits of `data` from bit `nbits - 1`
down to bit 0, and the closing zero-length space. -/
theorem sendRC5_eq (data nbits : Nat) (h1 : 1 ≤ nbits) (h32 : nbits ≤ 32) :
    sendRC5 data nbits =
      [IRcall.enableIROut 36, IRcall.mark RC5_T1, IRcall.space RC5_T1, IRcall.mark RC5_T1]
        ++ emitRC5 (bitsMSB data nbits) ++ [IRcall.space 0] := by
  unfold sendRC5
  rw [initial_mask nbits h1 h32, sendRC5_loop_pow]
  rw [show nbits - 1 + 1 = nbits by omega]

/-- The encoder `sendRC6` emits the header, the start bit, the bits of `data` from bit
`nbits - 1` down to bit 0, and the closing zero-length space. -/
theorem sendRC6_eq (data nbits : Nat) (h1 : 1 ≤ nbits) (h32 : nbits ≤ 32) :
    sendRC6 data nbits =
      [IRcall.enableIROut 36, IRcall.mark RC6_HDR_MARK, IRcall.space RC6_HDR_SPACE,
        IRcall.mark RC6_T1, IRcall.space RC6_T1]
        ++ emitRC6 1 (bitsMSB data nbits) ++ [IRcall.space 0] := by
  unfold sendRC6
  rw [initial_mask nbits h1 h32, sendRC6_loop_pow]
  rw [show nbits - 1 + 1 = nbits by omega]

theorem bitsMSB_length (data : Nat) : ∀ n, (bitsMSB data n).length = n := by
  intro n
  induction n with
  | zero => rfl
  | succ n ih => simp [bitsMSB, ih]

theorem shift_or_one (acc : Nat) : (acc <<< 1) ||| 1 = 2 * acc + 1 := by
  rw [Nat.shiftLeft_eq, pow_one, Nat.mul_comm]
  have := Nat.mul_add_lt_is_or (show 1 < 2 ^ 1 by decide) acc
  rw [pow_one] at this
  exact this.symm

/-- Reading the bits of `data` most significant first rebuilds `data`. -/
theorem bitsValue_bitsMSB (data : Nat) :
    ∀ (n acc : Nat), acc * 2 ^ n + data % 2 ^ n < 2 ^ 32 →
      bitsValue acc (bitsMSB data n) = acc * 2 ^ n + data % 2 ^ n := by
  intro n
  induction n with
  | zero => intro acc _; simp [bitsMSB, bitsValue, Nat.mod_one]
  | succ n ih =>
    intro acc hlt
    have hmod : data % 2 ^ (n + 1) = data % 2 ^ n + 2 ^ n * (data / 2 ^ n % 2) :=
      Nat.mod_pow_succ
    have hbit : data.testBit n = decide (data / 2 ^ n % 2 = 1) := Nat.testBit_to_div_mod
    have hpow : 0 < 2 ^ n := by positivity
    rw [hmod, pow_succ] at hlt
    rw [hmod, pow_succ]
    simp only [bitsMSB, bitsValue]
    have hle : 2 * acc ≤ acc * (2 ^ n * 2) := by
      calc 2 * acc = acc * (1 * 2) := by ring
        _ ≤ acc * (2 ^ n * 2) := Nat.mul_le_mul_left _ (Nat.mul_le_mul_right _ hpow)
    rcases Nat.mod_two_eq_zero_or_one (data / 2 ^ n) with h | h
    · have hb : data.testBit n = false := by rw [hbit, h]; rfl
      rw [h] at hlt ⊢
      simp only [hb, Bool.false_eq_true, if_false]
      have hih : 2 * acc * 2 ^ n + data % 2 ^ n < 2 ^ 32 := by
        have e : 2 * acc * 2 ^ n + data % 2 ^ n =
            acc * (2 ^ n * 2) + (data % 2 ^ n + 2 ^ n * 0) := by ring
        rw [e]
        exact hlt
      have hacc : (acc <<< 1) % 2 ^ 32 = 2 * acc := by
        rw [Nat.shiftLeft_eq, pow_one, Nat.mul_comm]
        apply Nat.mod_eq_of_lt
        generalize (2 : Nat) ^ 32 = B at *
        generalize acc * (2 ^ n * 2) = X at *
        omega
      rw [hacc, ih (2 * acc) hih]
      ring
    · have hb : data.testBit n = true := by rw [hbit, h]; rfl
      rw [h] at hlt ⊢
      simp only [hb, if_true]
      have hih : (2 * acc + 1) * 2 ^ n + data % 2 ^ n < 2 ^ 32 := by
        have e : (2 * acc + 1) * 2 ^ n + data % 2 ^ n =
            acc * (2 ^ n * 2) + (data % 2 ^ n + 2 ^ n * 1) := by ring
        rw [e]
        exact hlt
      have hacc : ((acc <<< 1) ||| 1) % 2 ^ 32 = 2 * acc + 1 := by
        rw [shift_or_one]
        apply Nat.mod_eq_of_lt
        rw [Nat.mul_one] at hlt
        generalize (2 : Nat) ^ 32 = B at *
        generalize acc * (2 ^ n * 2) = X at *
        generalize (2 : Nat) ^ n = P at *
        omega
      rw [hacc, ih (2 * acc + 1) hih]
      ring

theorem bitsValue_roundtrip (data nbits : Nat) (h32 : nbits ≤ 32) (hdata : data < 2 ^ nbits) :
    bitsValue 0 (bitsMSB data nbits) = data := by
  have hle : 2 ^ nbits ≤ 2 ^ 32 := Nat.pow_le_pow_right (by decide) h32
  rw [bitsValue_bitsMSB data nbits 0 (by rw [Nat.mod_eq_of_lt hdata]; omega)]
  rw [Nat.mod_eq_of_lt hdata]
  simp

/-! ## Captures of the encoders are tracked by the quantizer -/

theorem okPairs_cons (x y : Bool) (k k2 : Int) (rest : List (Bool × Int)) :
    okPairs ((x, k) :: (y, k2) :: rest) ↔
      1 ≤ k ∧ k ≤ 2 ∧ k + k2 ≤ 3 ∧ okPairs ((y, k2) :: rest) := Iff.rfl

theorem okPairs_single (x : Bool) (k : Int) : okPairs [(x, k)] ↔ 1 ≤ k ∧ k ≤ 2 := Iff.rfl

theorem okPairs_rc5 (bs : List Bool) : ∀ x : Bool, okPairs ((x, 1) :: rc5Pairs bs) := by
  induction bs with
  | nil => intro x; exact (okPairs_single x 1).2 ⟨by decide, by decide⟩
  | cons b bs ih =>
    intro x
    exact (okPairs_cons x (!b) 1 1 (rc5Pairs bs)).2 ⟨by decide, by decide, by decide, ih (!b)⟩

theorem okPairs_rc6 (bs : List Bool) :
    ∀ (j : Nat) (x : Bool) (k : Int), 1 ≤ k → k ≤ 2 → (k = 2 → j ≠ 3) →
      okPairs ((x, k) :: rc6Pairs j bs) := by
  induction bs with
  | nil => intro j x k h1 h2 _; exact (okPairs_single x k).2 ⟨h1, h2⟩
  | cons b bs ih =>
    intro j x k h1 h2 hk
    refine (okPairs_cons x b k (if j = 3 then 2 else 1) (rc6Pairs (j + 1) bs)).2
      ⟨h1, h2, ?_, ih (j + 1) b _ ?_ ?_ ?_⟩
    · by_cases hj : j = 3
      · have : k ≠ 2 := fun h => hk h hj
        simp only [hj, if_true]
        omega
      · simp only [hj, if_false]
        omega
    · split <;> decide
    · split <;> decide
    · intro h
      by_cases hj : j = 3
      · omega
      · simp [hj] at h

/-- The runs of a Manchester emission: after merging and dropping the trailing
space they alternate, are one to three units long, end with a mark, and expand to
the emitted unit symbols up to trailing spaces. -/
theorem runs_of_manchester (x : Bool) (k : Int) (rest : List (Bool × Int))
    (hok : okPairs ((x, k) :: rest)) :
    (∃ tl, mergePulses (manchester ((x, k) :: rest) ++ [(false, 0)]) = (x, k) :: tl) ∧
      RunsAlt x (dropTrailingSpace (mergePulses (manchester ((x, k) :: rest) ++ [(false, 0)]))) ∧
      ∃ m, expandRuns (manchester ((x, k) :: rest)) =
        expandRuns (dropTrailingSpace (mergePulses (manchester ((x, k) :: rest) ++ [(false, 0)])))
          ++ List.replicate m false := by
  obtain ⟨htl, hpre, hexp⟩ := (merge_manchester _ hok).2 x k rest rfl
  obtain ⟨hra, m, hm⟩ := dropTrailingSpace_preRuns _ x hpre
  exact ⟨htl, hra, m, by rw [← hexp, hm]⟩

theorem pulses_emitRC5 (bs : List Bool) :
    pulses (emitRC5 bs) = scaleRuns RC5_T1 (manchester (rc5Pairs bs)) := by
  induction bs with
  | nil => rfl
  | cons b bs ih =>
    cases b <;> simp [emitRC5, rc5Pairs, manchester, scaleRuns, pulses, pulses_append] <;>
      simpa [rc5Pairs, scaleRuns] using ih

theorem pulses_emitRC6 (bs : List Bool) :
    ∀ j, pulses (emitRC6 (j + 1) bs) = scaleRuns RC6_T1 (manchester (rc6Pairs j bs)) := by
  induction bs with
  | nil => intro j; rfl
  | cons b bs ih =>
    intro j
    have hw : (if j + 1 = 4 then RC6_T1 * 2 else RC6_T1) =
        (if j = 3 then (2 : Int) else 1) * RC6_T1 := by
      by_cases hj : j = 3
      · simp [hj, mul_comm]
      · have : ¬ (j + 1 = 4) := by omega
        simp [hj, this]
    have ih' := ih (j + 1)
    simp only [emitRC6, rc6Pairs, manchester, scaleRuns, List.map_cons, hw] at ih' ⊢
    cases b <;> simp [pulses, pulses_append] <;> simpa [scaleRuns] using ih'

/-- The nominal capture entries of `sendRC5`. -/
theorem captureEntries_sendRC5 (data nbits : Nat) (h1 : 1 ≤ nbits) (h32 : nbits ≤ 32) :
    captureEntries (sendRC5 data nbits) =
      scaleRuns RC5_T1 ((true, 1) :: dropTrailingSpace
        (mergePulses (manchester ((false, 1) :: rc5Pairs (bitsMSB data nbits)) ++ [(false, 0)]))) := by
  obtain ⟨⟨tl, htl⟩, -, -⟩ :=
    runs_of_manchester false 1 (rc5Pairs (bitsMSB data nbits)) (okPairs_rc5 _ false)
  have hp : pulses (sendRC5 data nbits) =
      scaleRuns RC5_T1 ((true, 1) ::
        (manchester ((false, 1) :: rc5Pairs (bitsMSB data nbits)) ++ [(false, 0)])) := by
    rw [sendRC5_eq data nbits h1 h32, pulses_append, pulses_append, pulses_emitRC5]
    simp [pulses, scaleRuns, manchester]
  unfold captureEntries
  rw [hp, mergePulses_scale, dropTrailingSpace_scale,
    mergePulses_cons_ne true 1 false 1 tl _ htl (by decide), ← htl, htl, dropTrailingSpace, ← htl]

/-- The nominal capture entries of `sendRC6`. -/
theorem captureEntries_sendRC6 (data nbits : Nat) (h1 : 1 ≤ nbits) (h32 : nbits ≤ 32) :
    captureEntries (sendRC6 data nbits) =
      (true, RC6_HDR_MARK) :: (false, RC6_HDR_SPACE) ::
        scaleRuns RC6_T1 (dropTrailingSpace
          (mergePulses (manchester ((true, 1) :: rc6Pairs 0 (bitsMSB data nbits))
            ++ [(false, 0)]))) := by
  obtain ⟨⟨tl, htl⟩, -, -⟩ :=
    runs_of_manchester true 1 (rc6Pairs 0 (bitsMSB data nbits))
      (okPairs_rc6 _ 0 true 1 (by decide) (by decide) (by decide))
  have hp : pulses (sendRC6 data nbits) =
      (true, RC6_HDR_MARK) :: (false, RC6_HDR_SPACE) ::
        scaleRuns RC6_T1 (manchester ((true, 1) :: rc6Pairs 0 (bitsMSB data nbits))
          ++ [(false, 0)]) := by
    rw [sendRC6_eq data nbits h1 h32, pulses_append, pulses_append, pulses_emitRC6]
    simp [pulses, scaleRuns, manchester]
  have hm : mergePulses (scaleRuns RC6_T1
      (manchester ((true, 1) :: rc6Pairs 0 (bitsMSB data nbits)) ++ [(false, 0)])) =
      (true, 1 * RC6_T1) :: scaleRuns RC6_T1 tl := by
    rw [mergePulses_scale, htl]
    rfl
  unfold captureEntries
  rw [hp, mergePulses_cons_ne true RC6_HDR_MARK false RC6_HDR_SPACE
    ((true, 1 * RC6_T1) :: scaleRuns RC6_T1 tl) _
    (mergePulses_cons_ne false RC6_HDR_SPACE true (1 * RC6_T1) (scaleRuns RC6_T1 tl) _ hm
      (by decide)) (by decide)]
  rw [dropTrailingSpace, dropTrailingSpace, ← hm, mergePulses_scale, dropTrailingSpace_scale]

/-! ## Round trips -/

/-- The quantizer reads a capture of `sendRC5` as the start condition followed by
the Manchester units of the data bits. -/
theorem rc5_capture_tracks (env : Env) (results : decode_results) (data nbits : Nat)
    (hMS : env.MARK ≠ env.SPACE) (h1 : 1 ≤ nbits) (h32 : nbits ≤ 32)
    (hcap : IsCapture env (sendRC5 data nbits) results)
    (hun : entriesUnambiguous env RC5_T1 results.rawbuf 1
      (captureEntries (sendRC5 data nbits)) = true) :
    Tracks env results RC5_T1 ⟨1, 0⟩
      (true :: false :: true :: expandRuns (manchester (rc5Pairs (bitsMSB data nbits)))) := by
  obtain ⟨hlen, hmatch⟩ := hcap
  rw [captureEntries_sendRC5 data nbits h1 h32] at hlen hmatch hun
  obtain ⟨-, hra, m, hm⟩ :=
    runs_of_manchester false 1 (rc5Pairs (bitsMSB data nbits)) (okPairs_rc5 _ false)
  have hra' : RunsAlt true ((true, 1) :: dropTrailingSpace
      (mergePulses (manchester ((false, 1) :: rc5Pairs (bitsMSB data nbits)) ++ [(false, 0)]))) :=
    ⟨rfl, by decide, by decide, hra⟩
  have htr := tracks_of_runs env results RC5_T1 hMS (by decide) _ 1 true hra' (by decide)
    (by rw [hlen]; simp [scaleRuns]) hmatch hun m
  have hunits : expandRuns ((true, 1) :: dropTrailingSpace
      (mergePulses (manchester ((false, 1) :: rc5Pairs (bitsMSB data nbits)) ++ [(false, 0)])))
        ++ List.replicate m false =
      true :: false :: true :: expandRuns (manchester (rc5Pairs (bitsMSB data nbits))) := by
    have e1 := expand_manchester_one false (rc5Pairs (bitsMSB data nbits))
    rw [hm] at e1
    simp only [expandRuns, List.append_assoc]
    rw [e1]
    simp
  rw [hunits] at htr
  exact htr

/-- Round trip of RC5 on captures long enough for the length guard. -/
theorem rc5_roundtrip (env : Env) (fuel : Nat) (results : decode_results) (data nbits : Nat)
    (hMS : env.MARK ≠ env.SPACE) (h1 : 1 ≤ nbits) (h32 : nbits ≤ 32) (hdata : data < 2 ^ nbits)
    (hcap : IsCapture env (sendRC5 data nbits) results)
    (hun : entriesUnambiguous env RC5_T1 results.rawbuf 1
      (captureEntries (sendRC5 data nbits)) = true)
    (hlen : 13 ≤ results.rawlen) (hfuel : nbits < fuel) :
    ∃ log, decodeRC5 env fuel results.rawlen results =
      some ⟨true,
        { results with bits := nbits, value := data, decode_type := decode_type_t.RC5 }, log⟩ := by
  have htr := rc5_capture_tracks env results data nbits hMS h1 h32 hcap hun
  rw [tracks_cons] at htr
  obtain ⟨-, hA, htr⟩ := htr
  rw [tracks_cons] at htr
  obtain ⟨-, hB, htr⟩ := htr
  rw [tracks_cons] at htr
  obtain ⟨-, hC, htr⟩ := htr
  obtain ⟨log, hlog⟩ := decodeRC5_loop_tracks env results hMS (bitsMSB data nbits) fuel 0 0 _
    (by rw [bitsMSB_length]; exact hfuel) htr
  rw [bitsMSB_length, bitsValue_roundtrip data nbits h32 hdata, Nat.zero_add] at hlog
  unfold decodeRC5
  rw [if_neg (by unfold MIN_RC5_SAMPLES; omega)]
  simp only [hA, hB, hC, levelOf, if_true, Bool.false_eq_true, if_false, ne_eq,
    not_true_eq_false, hlog]
  exact ⟨_, rfl⟩

/-- The quantizer reads a capture of `sendRC6`, after the header, as the start bit
followed by the Manchester units of the data bits. -/
theorem rc6_capture_tracks (env : Env) (results : decode_results) (data nbits : Nat)
    (hMS : env.MARK ≠ env.SPACE) (h1 : 1 ≤ nbits) (h32 : nbits ≤ 32)
    (hcap : IsCapture env (sendRC6 data nbits) results)
    (hun : entriesUnambiguous env RC6_T1 results.rawbuf 3
      ((captureEntries (sendRC6 data nbits)).drop 2) = true) :
    env.MATCH (results.rawbuf 1) (RC6_HDR_MARK + env.MARK_EXCESS) = true ∧
      env.MATCH (results.rawbuf 2) (RC6_HDR_SPACE + - env.MARK_EXCESS) = true ∧
      Tracks env results RC6_T1 ⟨3, 0⟩
        (true :: false :: expandRuns (manchester (rc6Pairs 0 (bitsMSB data nbits)))) := by
  obtain ⟨hlen, hmatch⟩ := hcap
  rw [captureEntries_sendRC6 data nbits h1 h32] at hlen hmatch hun
  obtain ⟨-, hra, m, hm⟩ :=
    runs_of_manchester true 1 (rc6Pairs 0 (bitsMSB data nbits))
      (okPairs_rc6 _ 0 true 1 (by decide) (by decide) (by decide))
  simp only [entriesMatch, Bool.and_eq_true, if_true, Bool.false_eq_true, if_false] at hmatch
  obtain ⟨hm1, hm2, hmrest⟩ := hmatch
  simp only [List.drop_succ_cons, List.drop_zero] at hun
  have htr := tracks_of_runs env results RC6_T1 hMS (by decide) _ 3 true hra (by decide)
    (by rw [hlen]; simp [scaleRuns]; omega) hmrest hun m
  rw [← hm, expand_manchester_one] at htr
  exact ⟨hm1, hm2, htr⟩

/-- Round trip of RC6 on unambiguous captures. -/
theorem rc6_roundtrip (env : Env) (fuel : Nat) (results : decode_results) (data nbits : Nat)
    (hMS : env.MARK ≠ env.SPACE)
    (hMM : ∀ m d, env.MATCH_MARK m d = env.MATCH m (d + env.MARK_EXCESS))
    (hSS : ∀ m d, env.MATCH_SPACE m d = env.MATCH m (d - env.MARK_EXCESS))
    (h1 : 1 ≤ nbits) (h32 : nbits ≤ 32) (hdata : data < 2 ^ nbits)
    (hcap : IsCapture env (sendRC6 data nbits) results)
    (hun : entriesUnambiguous env RC6_T1 results.rawbuf 3
      ((captureEntries (sendRC6 data nbits)).drop 2) = true)
    (hfuel : nbits < fuel) :
    ∃ log, decodeRC6 env fuel results =
      some ⟨true,
        { results with bits := nbits, value := data, decode_type := decode_type_t.RC6 }, log⟩ := by
  have hlen : 1 ≤ results.rawlen := by rw [hcap.1]; omega
  obtain ⟨hm1, hm2, htr⟩ := rc6_capture_tracks env results data nbits hMS h1 h32 hcap hun
  rw [tracks_cons] at htr
  obtain ⟨-, hA, htr⟩ := htr
  rw [tracks_cons] at htr
  obtain ⟨-, hB, htr⟩ := htr
  obtain ⟨log, hlog⟩ := decodeRC6_loop_tracks env results hMS (bitsMSB data nbits) fuel 0 0 _
    (by rw [bitsMSB_length]; exact hfuel) htr
  rw [bitsMSB_length, bitsValue_roundtrip data nbits h32 hdata, Nat.zero_add] at hlog
  have hmm : env.MATCH_MARK (results.rawbuf 1) RC6_HDR_MARK = true := by rw [hMM]; exact hm1
  have hss : env.MATCH_SPACE (results.rawbuf 2) RC6_HDR_SPACE = true := by
    rw [hSS, sub_eq_add_neg]; exact hm2
  unfold decodeRC6
  rw [if_neg (by unfold MIN_RC6_SAMPLES; omega)]
  simp only [hmm, hss, hA, hB, levelOf, if_true, Bool.false_eq_true, if_false, ne_eq,
    not_true_eq_false, hlog]
  exact ⟨_, rfl⟩

/-! ## Guards, fuel and the library window -/

/-- The length guard of `decodeRC5`: fewer than `MIN_RC5_SAMPLES + 2 = 13` samples
are rejected before any quantizer call. -/
theorem decodeRC5_length_guard (env : Env) (fuel irparams_rawlen : Nat)
    (results : decode_results) (h : irparams_rawlen < 13) :
    decodeRC5 env fuel irparams_rawlen results = some ⟨false, results, []⟩ := by
  unfold decodeRC5
  rw [if_pos (by unfold MIN_RC5_SAMPLES; omega)]

/-- Past the length guard, every outcome of `decodeRC5` has the quantizer call of
the start-condition check at offset 1 as the first entry of its log. -/
theorem decodeRC5_reaches_start (env : Env) (fuel irparams_rawlen : Nat)
    (results : decode_results) (h : 13 ≤ irparams_rawlen) (out : Outcome)
    (hout : decodeRC5 env fuel irparams_rawlen results = some out) :
    ∃ tl, out.log = Event.quantize ⟨1, 0⟩ :: tl := by
  unfold decodeRC5 at hout
  rw [if_neg (by unfold MIN_RC5_SAMPLES; omega)] at hout
  simp only at hout
  split at hout
  · cases hout; exact ⟨_, rfl⟩
  · split at hout
    · cases hout; exact ⟨_, rfl⟩
    · split at hout
      · cases hout; exact ⟨_, rfl⟩
      · split at hout
        · cases hout
        · cases hout; exact ⟨_, rfl⟩
        · cases hout; exact ⟨_, rfl⟩

theorem decodeRC6_loop_mono (env : Env) (results : decode_results) :
    ∀ (fuel nb data : Nat) (c : Cursor) (r : Option (Nat × Nat) × List Event),
      decodeRC6_loop env results fuel nb data c = some r →
      decodeRC6_loop env results (fuel + 1) nb data c = some r := by
  intro fuel
  induction fuel with
  | zero => intro nb data c r h; simp [decodeRC6_loop] at h
  | succ f ih =>
    intro nb data c r h
    rw [decodeRC6_loop] at h ⊢
    by_cases hoff : c.offset < results.rawlen
    · rw [if_pos hoff] at h ⊢
      generalize decodeRC6_body env results nb data c = body at h ⊢
      obtain ⟨d, c1, log⟩ := body
      cases d with
      | none => exact h
      | some d1 =>
        simp only [Option.map_eq_some'] at h ⊢
        obtain ⟨r', hr', hr⟩ := h
        exact ⟨r', ih _ _ _ _ hr', hr⟩
    · rw [if_neg hoff] at h ⊢
      exact h

theorem decodeRC6_mono (env : Env) (results : decode_results) (fuel : Nat) (out : Outcome)
    (h : decodeRC6 env fuel results = some out) :
    ∀ k, decodeRC6 env (fuel + k) results = some out := by
  intro k
  induction k with
  | zero => exact h
  | succ k ih =>
    unfold decodeRC6 at ih ⊢
    split
    · rename_i h1; rw [if_pos h1] at ih; exact ih
    · rename_i h1
      rw [if_neg h1] at ih
      split
      · rename_i h2; rw [if_pos h2] at ih; exact ih
      · rename_i h2
        rw [if_neg h2] at ih
        split
        · rename_i h3; rw [if_pos h3] at ih; exact ih
        · rename_i h3
          rw [if_neg h3] at ih
          simp only at ih ⊢
          split
          · rename_i h4; rw [if_pos h4] at ih; exact ih
          · rename_i h4
            rw [if_neg h4] at ih
            split
            · rename_i h5; rw [if_pos h5] at ih; exact ih
            · rename_i h5
              rw [if_neg h5] at ih
              cases hl : decodeRC6_loop env results (fuel + k) 0 0
                  (getRClevel env results (getRClevel env results ⟨3, 0⟩ RC6_T1).2 RC6_T1).2 with
              | none => rw [hl] at ih; cases ih
              | some r =>
                rw [hl] at ih
                rw [show fuel + (k + 1) = fuel + k + 1 by omega,
                  decodeRC6_loop_mono env results _ _ _ _ r hl]
                exact ih

/-- Under the 25 % tick window a width that matches two RC5 units does not match
one: every capture made of one-unit and two-unit entries is unambiguous. -/
theorem rc5_unambiguous_libEnv (rawbuf : Nat → Int) (es : List (Bool × Int)) :
    ∀ i, (∀ e ∈ es, e.2 = 889 ∨ e.2 = 1778) → entriesMatch libEnv rawbuf i es = true →
      entriesUnambiguous libEnv RC5_T1 rawbuf i es = true := by
  induction es with
  | nil => intro i _ _; rfl
  | cons e rest ih =>
    intro i hw hm
    obtain ⟨p, w⟩ := e
    simp only [entriesMatch, Bool.and_eq_true] at hm
    obtain ⟨hm0, hmrest⟩ := hm
    have hrest := ih (i + 1) (fun e he => hw e (List.mem_cons_of_mem _ he)) hmrest
    simp only [entriesUnambiguous, Bool.and_eq_true, hrest, and_true]
    rcases hw (p, w) (List.mem_cons_self _ _) with h | h
    · simp only at h
      subst h
      have h1 : decide ((889 : Int) ≤ RC5_T1) = true := by decide
      have h2 : decide ((889 : Int) ≤ 2 * RC5_T1) = true := by decide
      simp only [h1, h2, Bool.true_or, and_self]
    · simp only at h
      subst h
      have h2 : decide ((1778 : Int) ≤ 2 * RC5_T1) = true := by decide
      simp only [h2, Bool.true_or, and_true]
      cases p
      · simp only [libEnv, ticksMATCH, RC5_T1, Bool.false_eq_true, if_false,
          Bool.and_eq_true, decide_eq_true_eq, Bool.or_eq_true, Bool.not_eq_true',
          Bool.and_eq_false_iff, decide_eq_false_iff_not] at hm0 ⊢
        norm_num at hm0 ⊢
        omega
      · simp only [libEnv, ticksMATCH, RC5_T1, if_true,
          Bool.and_eq_true, decide_eq_true_eq, Bool.or_eq_true, Bool.not_eq_true',
          Bool.and_eq_false_iff, decide_eq_false_iff_not] at hm0 ⊢
        norm_num at hm0 ⊢
        omega

/-! ## The initial mask and the width of `int` -/

/-- With a 32-bit `int` the mask is the shift kept to 32 bits. -/
theorem intShiftMask_32 (nbits : Nat) : intShiftMask 32 nbits = (1 <<< (nbits - 1)) % 2 ^ 32 := by
  unfold intShiftMask
  have hlt : (1 <<< (nbits - 1)) % 2 ^ 32 < 2 ^ 32 := Nat.mod_lt _ (by positivity)
  simp only
  split
  · exact Nat.mod_eq_of_lt hlt
  · rw [Nat.add_sub_cancel]
    exact Nat.mod_eq_of_lt hlt

/-- While `nbits` is below the width of `int` the shift does not overflow: the mask is
`2 ^ (nbits - 1)`. -/
theorem intShiftMask_of_lt (intBits nbits : Nat) (h1 : 1 ≤ nbits) (hint : nbits < intBits)
    (h32 : nbits ≤ 32) : intShiftMask intBits nbits = 2 ^ (nbits - 1) := by
  unfold intShiftMask
  have hv : (1 <<< (nbits - 1)) % 2 ^ intBits = 2 ^ (nbits - 1) := by
    rw [Nat.one_shiftLeft]
    exact Nat.mod_eq_of_lt (Nat.pow_lt_pow_right (by decide) (by omega))
  have hs : 2 ^ (nbits - 1) < 2 ^ (intBits - 1) :=
    Nat.pow_lt_pow_right (by decide) (by omega)
  have h2 : 2 ^ (nbits - 1) < 2 ^ 32 := Nat.pow_lt_pow_right (by decide) (by omega)
  simp only [hv, if_pos hs]
  exact Nat.mod_eq_of_lt h2

/-- With a 16-bit `int` the shift for `nbits = 16` sets the sign bit, which the conversion to
`unsigned long` extends; for `17 ≤ nbits ≤ 24` the mask is 0. -/
theorem intShiftMask_16 :
    intShiftMask 16 16 = 0xFFFF8000 ∧
      ∀ nbits, 17 ≤ nbits → intShiftMask 16 nbits = 0 := by
  refine ⟨by decide, fun nbits h => ?_⟩
  unfold intShiftMask
  have hv : (1 <<< (nbits - 1)) % 2 ^ 16 = 0 := by
    rw [Nat.one_shiftLeft, show nbits - 1 = 16 + (nbits - 17) by omega, pow_add]
    exact Nat.mul_mod_right _ _
  simp only [hv]
  decide

theorem sendRC5_int_32 (data nbits : Nat) : sendRC5_int 32 data nbits = sendRC5 data nbits := by
  unfold sendRC5_int sendRC5
  rw [intShiftMask_32]

theorem sendRC6_int_32 (data nbits : Nat) : sendRC6_int 32 data nbits = sendRC6 data nbits := by
  unfold sendRC6_int sendRC6
  rw [intShiftMask_32]

/-- Below the width of `int` the emission does not depend on that width. -/
theorem sendRC5_int_eq_sendRC5 (intBits data nbits : Nat) (h1 : 1 ≤ nbits)
    (hint : nbits < intBits) (h32 : nbits ≤ 32) :
    sendRC5_int intBits data nbits = sendRC5 data nbits := by
  unfold sendRC5_int sendRC5
  rw [intShiftMask_of_lt intBits nbits h1 hint h32, initial_mask nbits h1 h32]

/-- Below the width of `int` the emission does not depend on that width. -/
theorem sendRC6_int_eq_sendRC6 (intBits data nbits : Nat) (h1 : 1 ≤ nbits)
    (hint : nbits < intBits) (h32 : nbits ≤ 32) :
    sendRC6_int intBits data nbits = sendRC6 data nbits := by
  unfold sendRC6_int sendRC6
  rw [intShiftMask_of_lt intBits nbits h1 hint h32, initial_mask nbits h1 h32]

theorem sendRC5_loop_eq_loopN (data : Nat) :
    ∀ n mask, mask < 2 ^ n → sendRC5_loop data mask = sendRC5_loopN data n mask := by
  intro n
  induction n with
  | zero =>
    intro mask h
    have h0 : mask = 0 := by simpa using h
    subst h0
    rw [sendRC5_loop_zero]
    rfl
  | succ n ih =>
    intro mask h
    rw [sendRC5_loop, sendRC5_loopN]
    by_cases h0 : mask = 0
    · rw [dif_pos h0, if_pos h0]
    · rw [dif_neg h0, if_neg h0, ih (mask >>> 1)]
      rw [Nat.shiftRight_eq_div_pow, pow_one]
      rw [pow_succ] at h
      omega

theorem sendRC6_loop_eq_loopN (data : Nat) :
    ∀ n i mask, mask < 2 ^ n → sendRC6_loop data i mask = sendRC6_loopN data n i mask := by
  intro n
  induction n with
  | zero =>
    intro i mask h
    have h0 : mask = 0 := by simpa using h
    subst h0
    rw [sendRC6_loop_zero]
    rfl
  | succ n ih =>
    intro i mask h
    rw [sendRC6_loop, sendRC6_loopN]
    by_cases h0 : mask = 0
    · rw [dif_pos h0, if_pos h0]
    · rw [dif_neg h0, if_neg h0, ih (i + 1) (mask >>> 1)]
      rw [Nat.shiftRight_eq_div_pow, pow_one]
      rw [pow_succ] at h
      omega

/-- With a 16-bit `int`, `sendRC5 (0, 16)` performs 32 data pairs. -/
theorem sendRC5_int16_0_16 :
    sendRC5_int 16 0 16 =
      [IRcall.enableIROut 36, IRcall.mark 889, IRcall.space 889, IRcall.mark 889] ++
        (List.range 32).flatMap (fun _ => [IRcall.mark 889, IRcall.space 889]) ++
        [IRcall.space 0] := by
  unfold sendRC5_int
  rw [intShiftMask_16.1, sendRC5_loop_eq_loopN 0 32 _ (by decide)]
  decide

/-- With a 16-bit `int`, `sendRC6 (0, 16)` performs 32 data pairs. -/
theorem sendRC6_int16_0_16 :
    sendRC6_int 16 0 16 =
      [IRcall.enableIROut 36, IRcall.mark 2666, IRcall.space 889, IRcall.mark 444,
        IRcall.space 444] ++
        (List.range 32).flatMap (fun p =>
          [IRcall.space (if p = 3 then 888 else 444), IRcall.mark (if p = 3 then 888 else 444)])
        ++ [IRcall.space 0] := by
  unfold sendRC6_int
  rw [intShiftMask_16.1, sendRC6_loop_eq_loopN 0 32 1 _ (by decide)]
  decide

theorem captureEntries_sendRC5_int16_0_16 :
    captureEntries (sendRC5_int 16 0 16) =
      [(true, 889), (false, 889), (true, 1778)] ++
        (List.range 62).map (fun i => (decide (i % 2 = 1), (889 : Int))) := by
  rw [sendRC5_int16_0_16]
  decide

theorem captureEntries_sendRC6_int16_0_16 :
    captureEntries (sendRC6_int 16 0 16) =
      [(true, 2666), (false, 889), (true, 444), (false, 888), (true, 444), (false, 444),
        (true, 444), (false, 444), (true, 444), (false, 888), (true, 888)] ++
        (List.range 56).map (fun i => (decide (i % 2 = 1), (444 : Int))) := by
  rw [sendRC6_int16_0_16]
  decide

/-- With a 16-bit `int`, `sendRC6 (value, 17)` emits no data bit. -/
theorem sendRC6_int16_17 (value : Nat) :
    sendRC6_int 16 value 17 =
      [IRcall.enableIROut 36, IRcall.mark 2666, IRcall.space 889, IRcall.mark 444,
        IRcall.space 444, IRcall.space 0] := by
  unfold sendRC6_int
  rw [intShiftMask_16.2 17 (by decide), sendRC6_loop_zero]
  rfl

theorem decodeRC5_loop_mono (env : Env) (irparams_rawlen : Nat) (results : decode_results) :
    ∀ (fuel nb data : Nat) (c : Cursor) (r : Option (Nat × Nat) × List Event),
      decodeRC5_loop env irparams_rawlen results fuel nb data c = some r →
      decodeRC5_loop env irparams_rawlen results (fuel + 1) nb data c = some r := by
  intro fuel
  induction fuel with
  | zero => intro nb data c r h; simp [decodeRC5_loop] at h
  | succ f ih =>
    intro nb data c r h
    rw [decodeRC5_loop] at h ⊢
    by_cases hoff : c.offset < irparams_rawlen
    · rw [if_pos hoff] at h ⊢
      simp only at h ⊢
      split
      · rename_i h1
        rw [if_pos h1] at h
        simp only [Option.map_eq_some'] at h ⊢
        obtain ⟨r', hr', hr⟩ := h
        exact ⟨r', ih _ _ _ _ hr', hr⟩
      · rename_i h1
        rw [if_neg h1] at h
        split
        · rename_i h2
          rw [if_pos h2] at h
          simp only [Option.map_eq_some'] at h ⊢
          obtain ⟨r', hr', hr⟩ := h
          exact ⟨r', ih _ _ _ _ hr', hr⟩
        · rename_i h2
          rw [if_neg h2] at h
          exact h
    · rw [if_neg hoff] at h ⊢
      exact h

theorem decodeRC5_mono (env : Env) (irparams_rawlen : Nat) (results : decode_results)
    (fuel : Nat) (out : Outcome)
    (h : decodeRC5 env fuel irparams_rawlen results = some out) :
    ∀ k, decodeRC5 env (fuel + k) irparams_rawlen results = some out := by
  intro k
  induction k with
  | zero => exact h
  | succ k ih =>
    unfold decodeRC5 at ih ⊢
    split
    · rename_i h1; rw [if_pos h1] at ih; exact ih
    · rename_i h1
      rw [if_neg h1] at ih
      simp only at ih ⊢
      split
      · rename_i h2; rw [if_pos h2] at ih; exact ih
      · rename_i h2
        rw [if_neg h2] at ih
        split
        · rename_i h3; rw [if_pos h3] at ih; exact ih
        · rename_i h3
          rw [if_neg h3] at ih
          split
          · rename_i h4; rw [if_pos h4] at ih; exact ih
          · rename_i h4
            rw [if_neg h4] at ih
            cases hl : decodeRC5_loop env irparams_rawlen results (fuel + k) 0 0
                (getRClevel env results (getRClevel env results
                  (getRClevel env results ⟨1, 0⟩ RC5_T1).2 RC5_T1).2 RC5_T1).2 with
            | none => rw [hl] at ih; cases ih
            | some r =>
              rw [hl] at ih
              rw [show fuel + (k + 1) = fuel + k + 1 by omega,
                decodeRC5_loop_mono env irparams_rawlen results _ _ _ _ r hl]
              exact ih

/-! ## Claims on the round trips and on the length requirement -/

theorem captureEntries_sendRC5_1_1 :
    captureEntries (sendRC5 1 1) =
      [(true, 889), (false, 889), (true, 889), (false, 889), (true, 889)] := by
  unfold captureEntries
  rw [sendRC5_eq 1 1 (by decide) (by decide)]
  decide

theorem captureEntries_sendRC5_0_5 :
    captureEntries (sendRC5 0 5) =
      [(true, 889), (false, 889), (true, 1778), (false, 889), (true, 889), (false, 889),
        (true, 889), (false, 889), (true, 889), (false, 889), (true, 889)] := by
  unfold captureEntries
  rw [sendRC5_eq 0 5 (by decide) (by decide)]
  decide

theorem captureEntries_sendRC5_0_6 :
    captureEntries (sendRC5 0 6) =
      [(true, 889), (false, 889), (true, 1778), (false, 889), (true, 889), (false, 889),
        (true, 889), (false, 889), (true, 889), (false, 889), (true, 889), (false, 889),
        (true, 889)] := by
  unfold captureEntries
  rw [sendRC5_eq 0 6 (by decide) (by decide)]
  decide

theorem captureEntries_sendRC5_0x2C5_10 :
    captureEntries (sendRC5 0x2C5 10) =
      [(true, 889), (false, 889), (true, 889), (false, 889), (true, 1778), (false, 1778),
        (true, 889), (false, 889), (true, 1778), (false, 889), (true, 889), (false, 889),
        (true, 889), (false, 1778), (true, 1778), (false, 1778), (true, 889)] := by
  unfold captureEntries
  rw [sendRC5_eq 0x2C5 10 (by decide) (by decide)]
  decide

theorem captureEntries_sendRC5_0x1F_12 :
    captureEntries (sendRC5 0x1F 12) =
      [(true, 889), (false, 889), (true, 1778), (false, 889), (true, 889), (false, 889),
        (true, 889), (false, 889), (true, 889), (false, 889), (true, 889), (false, 889),
        (true, 889), (false, 889), (true, 889), (false, 1778), (true, 889), (false, 889),
        (true, 889), (false, 889), (true, 889), (false, 889), (true, 889), (false, 889),
        (true, 889)] := by
  unfold captureEntries
  rw [sendRC5_eq 0x1F 12 (by decide) (by decide)]
  decide

theorem captureEntries_sendRC6_0xA5_8 :
    captureEntries (sendRC6 0xA5 8) =
      [(true, 2666), (false, 889), (true, 444), (false, 444), (true, 444), (false, 888),
        (true, 888), (false, 1332), (true, 888), (false, 444), (true, 888), (false, 888),
        (true, 888)] := by
  unfold captureEntries
  rw [sendRC6_eq 0xA5 8 (by decide) (by decide)]
  decide

/-- C1, counterexample. (i) The nominal capture of `sendRC5 (1, 1)` (the same emission for
every width of `int`) has 6 samples; it is a capture in the sense of the claim (and
unambiguous), yet `decodeRC5` rejects it at the length guard, whatever the fuel.
(ii) With a 16-bit `int` the mask of `sendRC5 (0, 16)` starts at `0xFFFF8000` and 32 pairs
are sent: the nominal capture has 66 samples and is unambiguous, and `decodeRC5` succeeds on
it with `bits = 32`, not 16. -/
theorem sendRC5_short_capture_rejected :
    (IsCapture libEnv (sendRC5 1 1) captureRC5_1_1 ∧
      entriesUnambiguous libEnv RC5_T1 captureRC5_1_1.rawbuf 1
        (captureEntries (sendRC5 1 1)) = true ∧
      ∀ fuel, decodeRC5 libEnv fuel captureRC5_1_1.rawlen captureRC5_1_1 =
        some ⟨false, captureRC5_1_1, []⟩) ∧
    (IsCapture libEnv (sendRC5_int 16 0 16) captureRC5_int16_0_16 ∧
      entriesUnambiguous libEnv RC5_T1 captureRC5_int16_0_16.rawbuf 1
        (captureEntries (sendRC5_int 16 0 16)) = true ∧
      captureRC5_int16_0_16.rawlen = 66 ∧
      (decodeRC5 libEnv 33 66 captureRC5_int16_0_16).map
        (fun o => (o.ret, o.results.bits, o.results.value)) = some (true, 32, 0) ∧
      ∀ fuel out, decodeRC5 libEnv fuel 66 captureRC5_int16_0_16 = some out →
        out.ret = true ∧ out.results.bits = 32) := by
  have h2 : (decodeRC5 libEnv 33 66 captureRC5_int16_0_16).map
      (fun o => (o.ret, o.results.bits, o.results.value)) = some (true, 32, 0) := by
    decide
  refine ⟨⟨?_, ?_, fun fuel => decodeRC5_length_guard libEnv fuel _ _ (by decide)⟩,
    ?_, ?_, rfl, h2, ?_⟩
  · unfold IsCapture
    rw [captureEntries_sendRC5_1_1]
    decide
  · rw [captureEntries_sendRC5_1_1]
    decide
  · unfold IsCapture
    rw [captureEntries_sendRC5_int16_0_16]
    decide
  · rw [captureEntries_sendRC5_int16_0_16]
    decide
  · intro fuel out hout
    have h1 := decodeRC5_mono libEnv 66 captureRC5_int16_0_16 fuel out hout 33
    cases h3 : decodeRC5 libEnv 33 66 captureRC5_int16_0_16 with
    | none => rw [h3] at h2; cases h2
    | some o =>
      rw [h3] at h2
      have h4 := decodeRC5_mono libEnv 66 captureRC5_int16_0_16 33 o h3 fuel
      rw [show 33 + fuel = fuel + 33 by omega, h1] at h4
      cases h4
      simp only [Option.map_some', Option.some.injEq, Prod.mk.injEq] at h2
      exact ⟨h2.1, h2.2.1⟩

/-- C1, amended: RC5 round trip. For every `nbits` in `[1, 20]` that is smaller than the
number `intBits` of bits of `int` (the initial mask `1 << (nbits - 1)` is an `int` shift:
all of `[1, 20]` with a 32-bit `int`, `[1, 15]` with a 16-bit `int`) and every
`value < 2 ^ nbits`, `decodeRC5` applied to a capture of `sendRC5 (value, nbits)`
(leading gap, merged durations, trailing space dropped, every entry matching its
nominal width with the `MARK_EXCESS` correction) that has at least 13 samples and
in which no entry also matches a smaller multiple of the unit, succeeds with
`bits = nbits`, `value = value` and `decode_type = RC5`. -/
theorem sendRC5_decodeRC5_roundtrip (env : Env) (fuel : Nat) (results : decode_results)
    (intBits value nbits : Nat) (hMS : env.MARK ≠ env.SPACE) (h1 : 1 ≤ nbits)
    (h20 : nbits ≤ 20) (hint : nbits < intBits) (hvalue : value < 2 ^ nbits)
    (hcap : IsCapture env (sendRC5_int intBits value nbits) results)
    (hun : entriesUnambiguous env RC5_T1 results.rawbuf 1
      (captureEntries (sendRC5_int intBits value nbits)) = true)
    (hlen : 13 ≤ results.rawlen) (hfuel : nbits < fuel) :
    ∃ log, decodeRC5 env fuel results.rawlen results =
      some ⟨true,
        { results with bits := nbits, value := value, decode_type := decode_type_t.RC5 }, log⟩ := by
  rw [sendRC5_int_eq_sendRC5 intBits value nbits h1 hint (by omega)] at hcap hun
  exact rc5_roundtrip env fuel results value nbits hMS h1 (by omega) hvalue hcap hun hlen hfuel

/-- Witness of C1: the 18-sample capture of `sendRC5 (0x2C5, 10)`, sent with a 16-bit
`int`. -/
theorem sendRC5_decodeRC5_roundtrip_witness :
    IsCapture libEnv (sendRC5_int 16 0x2C5 10) captureRC5_0x2C5_10 ∧
      13 ≤ captureRC5_0x2C5_10.rawlen ∧
      ∃ log, decodeRC5 libEnv 11 captureRC5_0x2C5_10.rawlen captureRC5_0x2C5_10 =
        some ⟨true, { captureRC5_0x2C5_10 with
          bits := 10, value := 0x2C5, decode_type := decode_type_t.RC5 }, log⟩ :=
  have he : sendRC5_int 16 0x2C5 10 = sendRC5 0x2C5 10 :=
    sendRC5_int_eq_sendRC5 16 0x2C5 10 (by decide) (by decide) (by decide)
  have hcap : IsCapture libEnv (sendRC5_int 16 0x2C5 10) captureRC5_0x2C5_10 := by
    unfold IsCapture; rw [he, captureEntries_sendRC5_0x2C5_10]; decide
  ⟨hcap, by decide,
    sendRC5_decodeRC5_roundtrip libEnv 11 captureRC5_0x2C5_10 16 0x2C5 10 (by decide)
      (by decide) (by decide) (by decide) (by decide) hcap
      (by rw [he, captureEntries_sendRC5_0x2C5_10]; decide)
      (by decide) (by decide)⟩

/-- C2, counterexample. (i) A capture of `sendRC6 (0xA5, 8)` (the same emission for every
width of `int`) in which every entry matches its nominal width, the three-unit space being
measured as 19 ticks, is rejected by `decodeRC6`, whatever the fuel. (ii) With a 16-bit
`int` the mask of `sendRC6 (0, 16)` starts at `0xFFFF8000` and 32 pairs are sent: on the
nominal capture, which is unambiguous, `decodeRC6` succeeds with `bits = 32`, not 16.
(iii) With a 16-bit `int` the mask of `sendRC6 (0x1A5A5, 17)` is 0 and no data bit is sent:
on the nominal capture `decodeRC6` succeeds with `bits = 0` and `value = 0`. -/
theorem sendRC6_ambiguous_capture_rejected :
    (IsCapture libEnv (sendRC6 0xA5 8) ambiguousRC6_0xA5_8 ∧
      ∀ fuel out, decodeRC6 libEnv fuel ambiguousRC6_0xA5_8 = some out → out.ret = false) ∧
    (IsCapture libEnv (sendRC6_int 16 0 16) captureRC6_int16_0_16 ∧
      entriesUnambiguous libEnv RC6_T1 captureRC6_int16_0_16.rawbuf 3
        ((captureEntries (sendRC6_int 16 0 16)).drop 2) = true ∧
      (decodeRC6 libEnv 33 captureRC6_int16_0_16).map
        (fun o => (o.ret, o.results.bits, o.results.value)) = some (true, 32, 0) ∧
      ∀ fuel out, decodeRC6 libEnv fuel captureRC6_int16_0_16 = some out →
        out.ret = true ∧ out.results.bits = 32) ∧
    (IsCapture libEnv (sendRC6_int 16 0x1A5A5 17) captureRC6_int16_0x1A5A5_17 ∧
      entriesUnambiguous libEnv RC6_T1 captureRC6_int16_0x1A5A5_17.rawbuf 3
        ((captureEntries (sendRC6_int 16 0x1A5A5 17)).drop 2) = true ∧
      (decodeRC6 libEnv 1 captureRC6_int16_0x1A5A5_17).map
        (fun o => (o.ret, o.results.bits, o.results.value)) = some (true, 0, 0) ∧
      ∀ fuel out, decodeRC6 libEnv fuel captureRC6_int16_0x1A5A5_17 = some out →
        out.ret = true ∧ out.results.bits = 0 ∧ out.results.value = 0) := by
  have hb : (decodeRC6 libEnv 33 captureRC6_int16_0_16).map
      (fun o => (o.ret, o.results.bits, o.results.value)) = some (true, 32, 0) := by
    decide
  have hc : (decodeRC6 libEnv 1 captureRC6_int16_0x1A5A5_17).map
      (fun o => (o.ret, o.results.bits, o.results.value)) = some (true, 0, 0) := by
    decide
  refine ⟨⟨?_, ?_⟩, ⟨?_, ?_, hb, ?_⟩, ⟨?_, ?_, hc, ?_⟩⟩
  · unfold IsCapture
    rw [captureEntries_sendRC6_0xA5_8]
    decide
  · intro fuel out hout
    have h1 := decodeRC6_mono libEnv ambiguousRC6_0xA5_8 fuel out hout 20
    have h2 : (decodeRC6 libEnv 20 ambiguousRC6_0xA5_8).map (fun o => o.ret) = some false := by
      decide
    cases h3 : decodeRC6 libEnv 20 ambiguousRC6_0xA5_8 with
    | none => rw [h3] at h2; cases h2
    | some o =>
      rw [h3] at h2
      have h4 := decodeRC6_mono libEnv ambiguousRC6_0xA5_8 20 o h3 fuel
      rw [show 20 + fuel = fuel + 20 by omega, h1] at h4
      cases h4
      simpa using h2
  · unfold IsCapture
    rw [captureEntries_sendRC6_int16_0_16]
    decide
  · rw [captureEntries_sendRC6_int16_0_16]
    decide
  · intro fuel out hout
    have h1 := decodeRC6_mono libEnv captureRC6_int16_0_16 fuel out hout 33
    cases h3 : decodeRC6 libEnv 33 captureRC6_int16_0_16 with
    | none => rw [h3] at hb; cases hb
    | some o =>
      rw [h3] at hb
      have h4 := decodeRC6_mono libEnv captureRC6_int16_0_16 33 o h3 fuel
      rw [show 33 + fuel = fuel + 33 by omega, h1] at h4
      cases h4
      simp only [Option.map_some', Option.some.injEq, Prod.mk.injEq] at hb
      exact ⟨hb.1, hb.2.1⟩
  · unfold IsCapture
    rw [sendRC6_int16_17]
    decide
  · rw [sendRC6_int16_17]
    decide
  · intro fuel out hout
    have h1 := decodeRC6_mono libEnv captureRC6_int16_0x1A5A5_17 fuel out hout 1
    cases h3 : decodeRC6 libEnv 1 captureRC6_int16_0x1A5A5_17 with
    | none => rw [h3] at hc; cases hc
    | some o =>
      rw [h3] at hc
      have h4 := decodeRC6_mono libEnv captureRC6_int16_0x1A5A5_17 1 o h3 fuel
      rw [show 1 + fuel = fuel + 1 by omega, h1] at h4
      cases h4
      simp only [Option.map_some', Option.some.injEq, Prod.mk.injEq] at hc
      exact ⟨hc.1, hc.2.1, hc.2.2⟩

/-- C2, amended: RC6 round trip. For every `nbits` in `[1, 24]` that is smaller than the
number `intBits` of bits of `int` (the initial mask `1 << (nbits - 1)` is an `int` shift:
all of `[1, 24]` with a 32-bit `int`, `[1, 15]` with a 16-bit `int`) and every
`value < 2 ^ nbits`, `decodeRC6` applied to a capture of `sendRC6 (value, nbits)`
(leading gap, merged durations, trailing space dropped, every entry matching its
nominal width with the `MARK_EXCESS` correction) in which no entry after the header
also matches a smaller multiple of the unit, succeeds with `bits = nbits`,
`value = value` and `decode_type = RC6`; the double-width bit at index 3 is one
bit of the result. `MATCH_MARK` and `MATCH_SPACE` are `MATCH` with the correction
added, respectively subtracted. -/
theorem sendRC6_decodeRC6_roundtrip (env : Env) (fuel : Nat) (results : decode_results)
    (intBits value nbits : Nat) (hMS : env.MARK ≠ env.SPACE)
    (hMM : ∀ m d, env.MATCH_MARK m d = env.MATCH m (d + env.MARK_EXCESS))
    (hSS : ∀ m d, env.MATCH_SPACE m d = env.MATCH m (d - env.MARK_EXCESS))
    (h1 : 1 ≤ nbits) (h24 : nbits ≤ 24) (hint : nbits < intBits) (hvalue : value < 2 ^ nbits)
    (hcap : IsCapture env (sendRC6_int intBits value nbits) results)
    (hun : entriesUnambiguous env RC6_T1 results.rawbuf 3
      ((captureEntries (sendRC6_int intBits value nbits)).drop 2) = true)
    (hfuel : nbits < fuel) :
    ∃ log, decodeRC6 env fuel results =
      some ⟨true,
        { results with bits := nbits, value := value, decode_type := decode_type_t.RC6 }, log⟩ := by
  rw [sendRC6_int_eq_sendRC6 intBits value nbits h1 hint (by omega)] at hcap hun
  exact rc6_roundtrip env fuel results value nbits hMS hMM hSS h1 (by omega) hvalue hcap hun hfuel

/-- Witness of C2: the example of the specification, `value = 0xA5`, `nbits = 8`, sent with
a 16-bit `int`. -/
theorem sendRC6_decodeRC6_roundtrip_witness :
    IsCapture libEnv (sendRC6_int 16 0xA5 8) captureRC6_0xA5_8 ∧
      ∃ log, decodeRC6 libEnv 9 captureRC6_0xA5_8 =
        some ⟨true, { captureRC6_0xA5_8 with
          bits := 8, value := 0xA5, decode_type := decode_type_t.RC6 }, log⟩ :=
  have he : sendRC6_int 16 0xA5 8 = sendRC6 0xA5 8 :=
    sendRC6_int_eq_sendRC6 16 0xA5 8 (by decide) (by decide) (by decide)
  have hcap : IsCapture libEnv (sendRC6_int 16 0xA5 8) captureRC6_0xA5_8 := by
    unfold IsCapture; rw [he, captureEntries_sendRC6_0xA5_8]; decide
  ⟨hcap,
    sendRC6_decodeRC6_roundtrip libEnv 9 captureRC6_0xA5_8 16 0xA5 8 (by decide)
      (fun _ _ => rfl) (fun _ _ => rfl) (by decide) (by decide) (by decide) (by decide) hcap
      (by rw [he, captureEntries_sendRC6_0xA5_8]; decide) (by decide)⟩

/-- C3: the RC5 example of the specification. `decodeRC5` applied to a capture of
`sendRC5 (0x1F, 12)` (leading gap, merged durations, trailing space dropped, every
entry read as its nominal width) succeeds and yields `bits = 12`, `value = 0x1F`,
`decode_type = RC5`. -/
theorem sendRC5_decodeRC5_example (env : Env) (fuel : Nat) (results : decode_results)
    (hMS : env.MARK ≠ env.SPACE)
    (hcap : IsCapture env (sendRC5 0x1F 12) results)
    (hun : entriesUnambiguous env RC5_T1 results.rawbuf 1
      (captureEntries (sendRC5 0x1F 12)) = true)
    (hfuel : 12 < fuel) :
    ∃ log, decodeRC5 env fuel results.rawlen results =
      some ⟨true,
        { results with bits := 12, value := 0x1F, decode_type := decode_type_t.RC5 }, log⟩ := by
  have hlen : 13 ≤ results.rawlen := by
    rw [hcap.1, captureEntries_sendRC5_0x1F_12]
    decide
  exact rc5_roundtrip env fuel results 0x1F 12 hMS (by decide) (by decide) (by decide) hcap hun
    hlen hfuel

/-- Witness of C3: the 26-sample nominal capture under the 25 % tick window; its
unambiguity follows from the window. -/
theorem sendRC5_decodeRC5_example_witness :
    IsCapture libEnv (sendRC5 0x1F 12) captureRC5_0x1F_12 ∧
      ∃ log, decodeRC5 libEnv 13 captureRC5_0x1F_12.rawlen captureRC5_0x1F_12 =
        some ⟨true, { captureRC5_0x1F_12 with
          bits := 12, value := 0x1F, decode_type := decode_type_t.RC5 }, log⟩ :=
  have hcap : IsCapture libEnv (sendRC5 0x1F 12) captureRC5_0x1F_12 := by
    unfold IsCapture; rw [captureEntries_sendRC5_0x1F_12]; decide
  ⟨hcap,
    sendRC5_decodeRC5_example libEnv 13 captureRC5_0x1F_12 (by decide) hcap
      (rc5_unambiguous_libEnv _ _ 1
        (by rw [captureEntries_sendRC5_0x1F_12]; decide) hcap.2)
      (by decide)⟩

/-- C10, counterexample: the 12-sample capture of `sendRC5 (0, 5)` is well formed
(a capture, unambiguous) and `decodeRC5` rejects it at the length guard. -/
theorem decodeRC5_rejects_twelve_samples :
    IsCapture libEnv (sendRC5 0 5) captureRC5_0_5 ∧
      entriesUnambiguous libEnv RC5_T1 captureRC5_0_5.rawbuf 1
        (captureEntries (sendRC5 0 5)) = true ∧
      captureRC5_0_5.rawlen = 12 ∧
      ∀ fuel, decodeRC5 libEnv fuel 12 captureRC5_0_5 = some ⟨false, captureRC5_0_5, []⟩ := by
  refine ⟨?_, ?_, rfl, fun fuel => decodeRC5_length_guard libEnv fuel _ _ (by decide)⟩
  · unfold IsCapture
    rw [captureEntries_sendRC5_0_5]
    decide
  · rw [captureEntries_sendRC5_0_5]
    decide

/-- C10, amended: the RC5 length requirement is 13 samples
(`MIN_RC5_SAMPLES + 2`). `decodeRC5` rejects a buffer for insufficient data (false,
no quantizer call) exactly when it has fewer than 13 samples; every outcome on a
buffer of at least 13 samples has made the first call of the start-condition check;
and every unambiguous capture of `sendRC5 (0, 6)`, which has 14 samples, decodes
successfully. -/
theorem decodeRC5_length_requirement :
    (∀ (env : Env) (fuel irparams_rawlen : Nat) (results : decode_results),
      decodeRC5 env fuel irparams_rawlen results = some ⟨false, results, []⟩ ↔
        irparams_rawlen < 13) ∧
    (∀ (env : Env) (fuel irparams_rawlen : Nat) (results : decode_results) (out : Outcome),
      13 ≤ irparams_rawlen → decodeRC5 env fuel irparams_rawlen results = some out →
        ∃ tl, out.log = Event.quantize ⟨1, 0⟩ :: tl) ∧
    (∀ (env : Env) (fuel : Nat) (results : decode_results), env.MARK ≠ env.SPACE →
      IsCapture env (sendRC5 0 6) results →
      entriesUnambiguous env RC5_T1 results.rawbuf 1 (captureEntries (sendRC5 0 6)) = true →
      6 < fuel →
      results.rawlen = 14 ∧
        ∃ log, decodeRC5 env fuel results.rawlen results =
          some ⟨true,
            { results with bits := 6, value := 0, decode_type := decode_type_t.RC5 }, log⟩) := by
  refine ⟨fun env fuel n results => ⟨fun h => ?_, decodeRC5_length_guard env fuel n results⟩,
    fun env fuel n results out h hout => decodeRC5_reaches_start env fuel n results h out hout,
    fun env fuel results hMS hcap hun hfuel => ?_⟩
  · by_contra hn
    obtain ⟨tl, htl⟩ := decodeRC5_reaches_start env fuel n results (by omega) _ h
    cases htl
  · have hlen : results.rawlen = 14 := by
      rw [hcap.1, captureEntries_sendRC5_0_6]
      rfl
    exact ⟨hlen, rc5_roundtrip env fuel results 0 6 hMS (by decide) (by decide) (by decide)
      hcap hun (by omega) hfuel⟩

/-- Witness of C10: 12 samples are rejected, the 14-sample capture of
`sendRC5 (0, 6)` is decoded. -/
theorem decodeRC5_length_requirement_witness :
    decodeRC5 libEnv 7 12 captureRC5_0_5 = some ⟨false, captureRC5_0_5, []⟩ ∧
      captureRC5_0_6.rawlen = 14 ∧
      ∃ log, decodeRC5 libEnv 7 captureRC5_0_6.rawlen captureRC5_0_6 =
        some ⟨true, { captureRC5_0_6 with
          bits := 6, value := 0, decode_type := decode_type_t.RC5 }, log⟩ :=
  ⟨(decodeRC5_length_requirement.1 libEnv 7 12 captureRC5_0_5).2 (by decide),
    decodeRC5_length_requirement.2.2 libEnv 7 captureRC5_0_6 (by decide)
      (by unfold IsCapture; rw [captureEntries_sendRC5_0_6]; decide)
      (by rw [captureEntries_sendRC5_0_6]; decide) (by decide)⟩

/-! ## Claims on the results, the encoders' output and the inputs read -/

theorem decodeRC5_results (env : Env) (fuel irparams_rawlen : Nat) (results : decode_results)
    (out : Outcome) (hout : decodeRC5 env fuel irparams_rawlen results = some out) :
    (out.ret = false ∧ out.results = results) ∨
      (out.ret = true ∧ ∃ n d, out.results =
        { results with bits := n, value := d, decode_type := decode_type_t.RC5 }) := by
  unfold decodeRC5 at hout
  split at hout
  · cases hout; exact Or.inl ⟨rfl, rfl⟩
  · simp only at hout
    split at hout
    · cases hout; exact Or.inl ⟨rfl, rfl⟩
    · split at hout
      · cases hout; exact Or.inl ⟨rfl, rfl⟩
      · split at hout
        · cases hout; exact Or.inl ⟨rfl, rfl⟩
        · split at hout
          · cases hout
          · cases hout; exact Or.inl ⟨rfl, rfl⟩
          · cases hout; exact Or.inr ⟨rfl, _, _, rfl⟩

theorem decodeRC6_results (env : Env) (fuel : Nat) (results : decode_results)
    (out : Outcome) (hout : decodeRC6 env fuel results = some out) :
    (out.ret = false ∧ out.results = results) ∨
      (out.ret = true ∧ ∃ n d, out.results =
        { results with bits := n, value := d, decode_type := decode_type_t.RC6 }) := by
  unfold decodeRC6 at hout
  split at hout
  · cases hout; exact Or.inl ⟨rfl, rfl⟩
  · split at hout
    · cases hout; exact Or.inl ⟨rfl, rfl⟩
    · split at hout
      · cases hout; exact Or.inl ⟨rfl, rfl⟩
      · simp only at hout
        split at hout
        · cases hout; exact Or.inl ⟨rfl, rfl⟩
        · split at hout
          · cases hout; exact Or.inl ⟨rfl, rfl⟩
          · split at hout
            · cases hout
            · cases hout; exact Or.inl ⟨rfl, rfl⟩
            · cases hout; exact Or.inr ⟨rfl, _, _, rfl⟩

/-- C11: results are written on success only. Whenever `decodeRC5` or `decodeRC6` returns false, the
`decode_results` it leaves is the one it was given (`bits`, `value` and
`decode_type` untouched); when it returns true, `bits`, `value` and `decode_type`
are written together (with the tag of the decoder) and nothing else changes. -/
theorem decoders_write_results_on_success_only (env : Env) (fuel irparams_rawlen : Nat)
    (results : decode_results) (out : Outcome) :
    (decodeRC5 env fuel irparams_rawlen results = some out →
      (out.ret = false → out.results = results) ∧
      (out.ret = true → ∃ n d, out.results =
        { results with bits := n, value := d, decode_type := decode_type_t.RC5 })) ∧
    (decodeRC6 env fuel results = some out →
      (out.ret = false → out.results = results) ∧
      (out.ret = true → ∃ n d, out.results =
        { results with bits := n, value := d, decode_type := decode_type_t.RC6 })) := by
  constructor
  · intro h
    rcases decodeRC5_results env fuel irparams_rawlen results out h with ⟨h1, h2⟩ | ⟨h1, h2⟩
    · exact ⟨fun _ => h2, fun h3 => (by rw [h1] at h3; cases h3)⟩
    · exact ⟨fun h3 => (by rw [h1] at h3; cases h3), fun _ => h2⟩
  · intro h
    rcases decodeRC6_results env fuel results out h with ⟨h1, h2⟩ | ⟨h1, h2⟩
    · exact ⟨fun _ => h2, fun h3 => (by rw [h1] at h3; cases h3)⟩
    · exact ⟨fun h3 => (by rw [h1] at h3; cases h3), fun _ => h2⟩

/-- Witness of C11: the rejected 12-sample RC5 buffer keeps its results. -/
theorem decoders_write_results_on_success_only_witness :
    decodeRC5 libEnv 7 12 captureRC5_0_5 = some ⟨false, captureRC5_0_5, []⟩ ∧
      (⟨false, captureRC5_0_5, []⟩ : Outcome).results = captureRC5_0_5 :=
  ⟨decodeRC5_length_guard libEnv 7 12 captureRC5_0_5 (by decide),
    ((decoders_write_results_on_success_only libEnv 7 12 captureRC5_0_5 ⟨false, captureRC5_0_5, []⟩).1
      (decodeRC5_length_guard libEnv 7 12 captureRC5_0_5 (by decide))).1 rfl⟩

/-- C14, the code at the failing input: with one recorded sample (`rawlen = 1`)
and stale durations behind it, `decodeRC6` passes its length check and reads
`rawbuf[1]` and `rawbuf[2]`, both at or past `rawlen`, before returning false; with
two recorded samples (`rawlen = 2`) it still reads `rawbuf[2]`. -/
theorem decodeRC6_reads_past_rawlen :
    staleRC6.rawlen = 1 ∧
      (∀ fuel, ∃ out, decodeRC6 libEnv fuel staleRC6 = some out ∧ out.ret = false ∧
        logReads staleRC6 out.log = [1, 2]) ∧
      (∀ fuel, ∃ out, decodeRC6 libEnv fuel { staleRC6 with rawlen := 2 } = some out ∧
        out.ret = false ∧ logReads { staleRC6 with rawlen := 2 } out.log = [1, 2]) := by
  refine ⟨rfl, fun fuel => ⟨⟨false, staleRC6, [Event.read 1, Event.read 2,
    Event.quantize ⟨3, 0⟩]⟩, ?_, rfl, by decide⟩,
    fun fuel => ⟨⟨false, { staleRC6 with rawlen := 2 }, [Event.read 1, Event.read 2,
    Event.quantize ⟨3, 0⟩]⟩, ?_, rfl, by decide⟩⟩
  · unfold decodeRC6
    rw [if_neg (by decide), if_neg (by decide), if_neg (by decide)]
    simp only
    rw [if_pos (by decide)]
    rfl
  · unfold decodeRC6
    rw [if_neg (by decide), if_neg (by decide), if_neg (by decide)]
    simp only
    rw [if_pos (by decide)]
    rfl

/-- C18, the code at the failing input: on one and the same `decode_results` (the
14-sample capture of `sendRC5 (0, 6)`), `decodeRC5` returns true with `bits = 6`,
`value = 0` when `irparams.rawlen` is 14, and false when it is 12 or 20. -/
theorem decodeRC5_depends_on_irparams :
    (∃ log, decodeRC5 libEnv 7 14 captureRC5_0_6 =
      some ⟨true, { captureRC5_0_6 with
        bits := 6, value := 0, decode_type := decode_type_t.RC5 }, log⟩) ∧
    (∀ fuel, decodeRC5 libEnv fuel 12 captureRC5_0_6 = some ⟨false, captureRC5_0_6, []⟩) ∧
    (decodeRC5 libEnv 7 20 captureRC5_0_6).map (fun o => o.ret) = some false := by
  refine ⟨?_, fun fuel => decodeRC5_length_guard libEnv fuel 12 captureRC5_0_6 (by decide),
    by decide⟩
  exact rc5_roundtrip libEnv 7 captureRC5_0_6 0 6 (by decide) (by decide) (by decide) (by decide)
    (by unfold IsCapture; rw [captureEntries_sendRC5_0_6]; decide)
    (by rw [captureEntries_sendRC5_0_6]; decide) (by decide) (by decide)

theorem shift_or_one_le (data : Nat) : ((data <<< 1) ||| 1) % 2 ^ 32 ≤ 2 * data + 1 := by
  rw [shift_or_one]
  exact Nat.mod_le _ _

theorem shift_le (data : Nat) : (data <<< 1) % 2 ^ 32 ≤ 2 * data := by
  rw [Nat.shiftLeft_eq, pow_one, Nat.mul_comm]
  exact Nat.mod_le _ _

theorem decodeRC5_loop_value_lt (env : Env) (irparams_rawlen : Nat) (results : decode_results) :
    ∀ (fuel nb data : Nat) (c : Cursor) (n d : Nat) (log : List Event), data < 2 ^ nb →
      decodeRC5_loop env irparams_rawlen results fuel nb data c = some (some (n, d), log) →
      d < 2 ^ n := by
  intro fuel
  induction fuel with
  | zero => intro nb data c n d log _ h; simp [decodeRC5_loop] at h
  | succ f ih =>
    intro nb data c n d log hd h
    rw [decodeRC5_loop] at h
    have hp : 2 ^ (nb + 1) = 2 * 2 ^ nb := by rw [pow_succ]; omega
    split at h
    · simp only at h
      split at h
      · simp only [Option.map_eq_some'] at h
        obtain ⟨r, hr, hr2⟩ := h
        obtain ⟨r1, r2⟩ := r
        simp only [Prod.mk.injEq] at hr2
        obtain ⟨rfl, -⟩ := hr2
        exact ih _ _ _ _ _ _ (by have := shift_or_one_le data; omega) hr
      · split at h
        · simp only [Option.map_eq_some'] at h
          obtain ⟨r, hr, hr2⟩ := h
          obtain ⟨r1, r2⟩ := r
          simp only [Prod.mk.injEq] at hr2
          obtain ⟨rfl, -⟩ := hr2
          exact ih _ _ _ _ _ _ (by have := shift_le data; omega) hr
        · simp at h
    · simp only [Option.some.injEq, Prod.mk.injEq] at h
      obtain ⟨⟨rfl, rfl⟩, -⟩ := h
      exact hd

theorem decodeRC6_body_value_le (env : Env) (results : decode_results) (nb data : Nat)
    (c : Cursor) (d : Nat) (h : (decodeRC6_body env results nb data c).1 = some d) :
    d ≤ 2 * data + 1 := by
  unfold decodeRC6_body at h
  simp only [-Nat.reducePow] at h
  repeat' split at h
  all_goals first
    | (simp only [reduceCtorEq] at h; done)
    | (simp only [Option.some.injEq] at h
       subst h
       first
         | exact shift_or_one_le data
         | exact Nat.le_succ_of_le (shift_le data))

theorem decodeRC6_loop_value_lt (env : Env) (results : decode_results) :
    ∀ (fuel nb data : Nat) (c : Cursor) (n d : Nat) (log : List Event), data < 2 ^ nb →
      decodeRC6_loop env results fuel nb data c = some (some (n, d), log) →
      d < 2 ^ n := by
  intro fuel
  induction fuel with
  | zero => intro nb data c n d log _ h; simp [decodeRC6_loop] at h
  | succ f ih =>
    intro nb data c n d log hd h
    rw [decodeRC6_loop] at h
    have hp : 2 ^ (nb + 1) = 2 * 2 ^ nb := by rw [pow_succ]; omega
    split at h
    · have hb := decodeRC6_body_value_le env results nb data c
      generalize decodeRC6_body env results nb data c = body at h hb
      obtain ⟨d1, c1, blog⟩ := body
      cases d1 with
      | none => simp at h
      | some d1 =>
        simp only [Option.map_eq_some'] at h
        obtain ⟨r, hr, hr2⟩ := h
        obtain ⟨r1, r2⟩ := r
        simp only [Prod.mk.injEq] at hr2
        obtain ⟨rfl, -⟩ := hr2
        have := hb d1 rfl
        exact ih _ _ _ _ _ _ (by omega) hr
    · simp only [Option.some.injEq, Prod.mk.injEq] at h
      obtain ⟨⟨rfl, rfl⟩, -⟩ := h
      exact hd

/-- C19: the decoded value fits its bit count. Whenever `decodeRC5` or `decodeRC6`
succeeds, the value written is below `2 ^ bits` (each iteration shifts the
accumulator by one and adds 0 or 1, starting from 0); this holds for every bit
count, in particular for `bits ≤ 31`, where the 32-bit accumulator cannot wrap. -/
theorem decoded_value_lt_two_pow_bits (env : Env) (fuel irparams_rawlen : Nat)
    (results : decode_results) (out : Outcome) :
    (decodeRC5 env fuel irparams_rawlen results = some out → out.ret = true →
      out.results.value < 2 ^ out.results.bits) ∧
    (decodeRC6 env fuel results = some out → out.ret = true →
      out.results.value < 2 ^ out.results.bits) := by
  constructor
  · intro hout hret
    unfold decodeRC5 at hout
    split at hout
    · cases hout; cases hret
    · simp only at hout
      split at hout
      · cases hout; cases hret
      · split at hout
        · cases hout; cases hret
        · split at hout
          · cases hout; cases hret
          · split at hout
            · cases hout
            · cases hout; cases hret
            · rename_i hl
              cases hout
              exact decodeRC5_loop_value_lt env irparams_rawlen results fuel 0 0 _ _ _ _
                (by decide) hl
  · intro hout hret
    unfold decodeRC6 at hout
    split at hout
    · cases hout; cases hret
    · split at hout
      · cases hout; cases hret
      · split at hout
        · cases hout; cases hret
        · simp only at hout
          split at hout
          · cases hout; cases hret
          · split at hout
            · cases hout; cases hret
            · split at hout
              · cases hout
              · cases hout; cases hret
              · rename_i hl
                cases hout
                exact decodeRC6_loop_value_lt env results fuel 0 0 _ _ _ _ (by decide) hl

/-- Witness of C19: the 14-sample capture of `sendRC5 (0, 6)` decodes to a value
below `2 ^ bits`. -/
theorem decoded_value_lt_two_pow_bits_witness :
    ∃ out, decodeRC5 libEnv 7 14 captureRC5_0_6 = some out ∧ out.ret = true ∧
      out.results.value < 2 ^ out.results.bits := by
  obtain ⟨log, h⟩ := rc5_roundtrip libEnv 7 captureRC5_0_6 0 6 (by decide) (by decide)
    (by decide) (by decide)
    (by unfold IsCapture; rw [captureEntries_sendRC5_0_6]; decide)
    (by rw [captureEntries_sendRC5_0_6]; decide) (by decide) (by decide)
  exact ⟨_, h, rfl, (decoded_value_lt_two_pow_bits libEnv 7 14 captureRC5_0_6 _).1 h rfl⟩

/-! ## Cursor invariant and termination -/

theorem getRClevel_avail_range (env : Env) (w t1 corr k : Int)
    (h : getRClevel_avail env w t1 corr = some k) : 1 ≤ k ∧ k ≤ 3 := by
  unfold getRClevel_avail at h
  repeat' split at h
  all_goals first
    | (simp only [Option.some.injEq] at h
       omega)
    | simp only [reduceCtorEq] at h

/-- What one call of `getRClevel` does to a cursor that satisfies the invariant. -/
theorem getRClevel_step (env : Env) (results : decode_results) (t1 : Int) (c : Cursor)
    (hc : CursorOk env results t1 c) :
    (results.rawlen ≤ c.offset ∧ getRClevel env results c t1 = (env.SPACE, c)) ∨
    (c.offset < results.rawlen ∧ getRClevel env results c t1 = (-1, c)) ∨
    (c.offset < results.rawlen ∧
      (getRClevel env results c t1).1 = getRClevel_val env c.offset ∧
      0 ≤ c.used ∧ c.used ≤ 2 ∧
      ((getRClevel env results c t1).2 = ⟨c.offset, c.used + 1⟩ ∨
        (getRClevel env results c t1).2 = ⟨c.offset + 1, 0⟩) ∧
      CursorOk env results t1 (getRClevel env results c t1).2) := by
  by_cases hoff : results.rawlen ≤ c.offset
  · exact Or.inl ⟨hoff, getRClevel_past_end env results c t1 hoff⟩
  · have hlt : c.offset < results.rawlen := by omega
    right
    cases hav : getRClevel_avail env (results.rawbuf c.offset) t1
        (getRClevel_correction env c.offset) with
    | none => exact Or.inl ⟨hlt, getRClevel_of_no_avail env results c t1 hlt hav⟩
    | some k =>
      right
      have hk := getRClevel_avail_range env _ _ _ k hav
      have hstep := getRClevel_of_avail env results c t1 k hlt hav
      have hused : 0 ≤ c.used ∧ c.used < k := by
        rcases hc with h0 | ⟨-, k', hk', h1, h2⟩
        · rw [h0]; omega
        · rw [hav] at hk'
          cases hk'
          exact ⟨h1, h2⟩
      refine ⟨hlt, by rw [hstep], hused.1, by omega, ?_, ?_⟩
      · rw [hstep]
        by_cases hge : c.used + 1 ≥ k
        · right; simp only [hge, if_true]
        · left; simp only [hge, if_false]
      · rw [hstep]
        by_cases hge : c.used + 1 ≥ k
        · simp only [hge, if_true]
          exact Or.inl rfl
        · simp only [hge, if_false]
          exact Or.inr ⟨hlt, k, hav, by show 0 ≤ c.used + 1; omega,
            by show c.used + 1 < k; omega⟩

theorem getRClevel_cursorOk (env : Env) (results : decode_results) (t1 : Int) (c : Cursor)
    (hc : CursorOk env results t1 c) :
    CursorOk env results t1 (getRClevel env results c t1).2 := by
  rcases getRClevel_step env results t1 c hc with ⟨-, h⟩ | ⟨-, h⟩ | ⟨-, -, -, -, -, h⟩
  · rw [h]; exact hc
  · rw [h]; exact hc
  · exact h

theorem getRClevel_measure_le (env : Env) (results : decode_results) (t1 : Int) (c : Cursor)
    (hc : CursorOk env results t1 c) :
    cursorMeasure results (getRClevel env results c t1).2 ≤ cursorMeasure results c := by
  rcases getRClevel_step env results t1 c hc with ⟨-, h⟩ | ⟨-, h⟩ | ⟨-, -, h0, h2, h, -⟩
  · rw [h]
  · rw [h]
  · rcases h with h | h <;> rw [h] <;> simp only [cursorMeasure] <;> push_cast <;> omega

/-- A call that returns MARK consumed one unit: the measure drops, and it was at
least 1 before the call. -/
theorem getRClevel_mark_decreases (env : Env) (results : decode_results) (t1 : Int)
    (c : Cursor) (hMS : env.MARK ≠ env.SPACE) (hM : env.MARK ≠ -1)
    (hc : CursorOk env results t1 c) (hmark : (getRClevel env results c t1).1 = env.MARK) :
    cursorMeasure results (getRClevel env results c t1).2 < cursorMeasure results c ∧
      1 ≤ cursorMeasure results c := by
  rcases getRClevel_step env results t1 c hc with ⟨-, h⟩ | ⟨-, h⟩ | ⟨hlt, -, h0, h2, h, -⟩
  · rw [h] at hmark; exact absurd hmark.symm hMS
  · rw [h] at hmark; exact absurd hmark.symm hM
  · rcases h with h | h <;> rw [h] <;> simp only [cursorMeasure] <;> push_cast <;> omega

/-- A call inside the buffer either fails with `-1`, leaving the cursor, or
advances the cursor by one unit, which lowers the measure. -/
theorem getRClevel_fails_or_advances (env : Env) (results : decode_results) (t1 : Int)
    (c : Cursor) (hc : CursorOk env results t1 c) (hoff : c.offset < results.rawlen) :
    getRClevel env results c t1 = (-1, c) ∨
      cursorMeasure results (getRClevel env results c t1).2 < cursorMeasure results c := by
  rcases getRClevel_step env results t1 c hc with ⟨h, -⟩ | ⟨-, h⟩ | ⟨hlt, -, h0, h2, h, -⟩
  · omega
  · exact Or.inl h
  · right
    rcases h with h | h <;> rw [h] <;> simp only [cursorMeasure] <;> push_cast <;> omega

/-- An iteration of the RC5 loop that reads a valid pair lowers the measure. -/
theorem rc5_iteration_decreases (env : Env) (results : decode_results) (c : Cursor)
    (hMS : env.MARK ≠ env.SPACE) (hM : env.MARK ≠ -1)
    (hc : CursorOk env results RC5_T1 c)
    (hpair :
      ((getRClevel env results c RC5_T1).1 = env.SPACE ∧
        (getRClevel env results (getRClevel env results c RC5_T1).2 RC5_T1).1 = env.MARK) ∨
      ((getRClevel env results c RC5_T1).1 = env.MARK ∧
        (getRClevel env results (getRClevel env results c RC5_T1).2 RC5_T1).1 = env.SPACE)) :
    cursorMeasure results
        (getRClevel env results (getRClevel env results c RC5_T1).2 RC5_T1).2
      < cursorMeasure results c ∧ 1 ≤ cursorMeasure results c := by
  have hc1 := getRClevel_cursorOk env results RC5_T1 c hc
  have hle1 := getRClevel_measure_le env results RC5_T1 c hc
  have hle2 := getRClevel_measure_le env results RC5_T1 _ hc1
  rcases hpair with ⟨-, hB⟩ | ⟨hA, -⟩
  · have := getRClevel_mark_decreases env results RC5_T1 _ hMS hM hc1 hB
    omega
  · have := getRClevel_mark_decreases env results RC5_T1 _ hMS hM hc hA
    omega

theorem decodeRC5_loop_terminates (env : Env) (irparams_rawlen : Nat) (results : decode_results)
    (hMS : env.MARK ≠ env.SPACE) (hM : env.MARK ≠ -1) :
    ∀ (fuel nb data : Nat) (c : Cursor), CursorOk env results RC5_T1 c →
      cursorMeasure results c < fuel → 0 < fuel →
      ∃ r, decodeRC5_loop env irparams_rawlen results fuel nb data c = some r := by
  intro fuel
  induction fuel with
  | zero => intro nb data c _ _ h; omega
  | succ f ih =>
    intro nb data c hc hm _
    rw [decodeRC5_loop]
    split
    · simp only
      have hc2 := getRClevel_cursorOk env results RC5_T1 _
        (getRClevel_cursorOk env results RC5_T1 c hc)
      split
      · rename_i hp
        have hd := rc5_iteration_decreases env results c hMS hM hc (Or.inl hp)
        obtain ⟨r, hr⟩ := ih (nb + 1) (((data <<< 1) ||| 1) % 2 ^ 32) _ hc2
          (by push_cast at hm ⊢; omega) (by push_cast at hm; omega)
        exact ⟨_, by rw [hr]; rfl⟩
      · split
        · rename_i hp
          have hd := rc5_iteration_decreases env results c hMS hM hc (Or.inr hp)
          obtain ⟨r, hr⟩ := ih (nb + 1) ((data <<< 1) % 2 ^ 32) _ hc2
            (by push_cast at hm ⊢; omega) (by push_cast at hm; omega)
          exact ⟨_, by rw [hr]; rfl⟩
        · exact ⟨_, rfl⟩
    · exact ⟨_, rfl⟩

theorem decodeRC5_loop_bits_le (env : Env) (irparams_rawlen : Nat) (results : decode_results)
    (hMS : env.MARK ≠ env.SPACE) (hM : env.MARK ≠ -1) :
    ∀ (fuel nb data : Nat) (c : Cursor) (n d : Nat) (log : List Event),
      CursorOk env results RC5_T1 c →
      decodeRC5_loop env irparams_rawlen results fuel nb data c = some (some (n, d), log) →
      (n : Int) ≤ nb + max 0 (cursorMeasure results c) := by
  intro fuel
  induction fuel with
  | zero => intro nb data c n d log _ h; simp [decodeRC5_loop] at h
  | succ f ih =>
    intro nb data c n d log hc h
    rw [decodeRC5_loop] at h
    have hc2 := getRClevel_cursorOk env results RC5_T1 _
      (getRClevel_cursorOk env results RC5_T1 c hc)
    split at h
    · simp only at h
      split at h
      · rename_i hp
        have hd := rc5_iteration_decreases env results c hMS hM hc (Or.inl hp)
        simp only [Option.map_eq_some'] at h
        obtain ⟨r, hr, hr2⟩ := h
        obtain ⟨r1, r2⟩ := r
        simp only [Prod.mk.injEq] at hr2
        obtain ⟨rfl, -⟩ := hr2
        have := ih _ _ _ _ _ _ hc2 hr
        push_cast at this
        omega
      · split at h
        · rename_i hp
          have hd := rc5_iteration_decreases env results c hMS hM hc (Or.inr hp)
          simp only [Option.map_eq_some'] at h
          obtain ⟨r, hr, hr2⟩ := h
          obtain ⟨r1, r2⟩ := r
          simp only [Prod.mk.injEq] at hr2
          obtain ⟨rfl, -⟩ := hr2
          have := ih _ _ _ _ _ _ hc2 hr
          push_cast at this
          omega
        · simp at h
    · simp only [Option.some.injEq, Prod.mk.injEq] at h
      obtain ⟨⟨rfl, rfl⟩, -⟩ := h
      omega

/-- An iteration of the RC6 loop keeps the cursor invariant, at each of its calls
and at its end. -/
theorem decodeRC6_body_cursorOk (env : Env) (results : decode_results) (nb data : Nat)
    (c : Cursor) (hc : CursorOk env results RC6_T1 c) :
    CursorOk env results RC6_T1 (decodeRC6_body env results nb data c).2.1 ∧
    (∀ c1, Event.quantize c1 ∈ (decodeRC6_body env results nb data c).2.2 →
      CursorOk env results RC6_T1 c1) := by
  have hc1 := getRClevel_cursorOk env results RC6_T1 c hc
  have hc2 := getRClevel_cursorOk env results RC6_T1 _ hc1
  have hc3 := getRClevel_cursorOk env results RC6_T1 _ hc2
  have hc4 := getRClevel_cursorOk env results RC6_T1 _ hc3
  have hmem : ∀ (l : List Event), (∀ e ∈ l, ∃ c1, e = Event.quantize c1 ∧
      CursorOk env results RC6_T1 c1) →
      ∀ c1, Event.quantize c1 ∈ l → CursorOk env results RC6_T1 c1 := by
    intro l hl c1 h1
    obtain ⟨c2, h2, h3⟩ := hl _ h1
    cases h2
    exact h3
  by_cases h3 : nb = 3
  · subst h3
    simp only [decodeRC6_body, if_true, true_and, -Nat.reducePow]
    split_ifs with hA hB hp1 hp2
    · refine ⟨hc2, hmem _ ?_⟩
      simp only [List.mem_cons, List.mem_singleton, List.not_mem_nil, or_false, forall_eq_or_imp,
        forall_eq]
      exact ⟨⟨_, rfl, hc⟩, ⟨_, rfl, hc1⟩⟩
    all_goals refine ⟨hc4, hmem _ ?_⟩
    all_goals
      simp only [List.mem_cons, List.mem_singleton, List.not_mem_nil, or_false,
        forall_eq_or_imp, forall_eq, List.cons_append, List.nil_append]
      exact ⟨⟨_, rfl, hc⟩, ⟨_, rfl, hc1⟩, ⟨_, rfl, hc2⟩, ⟨_, rfl, hc3⟩⟩
  · simp only [decodeRC6_body, h3, if_false, false_and, -Nat.reducePow]
    split_ifs with hp1 hp2
    all_goals refine ⟨hc2, hmem _ ?_⟩
    all_goals
      simp only [List.mem_cons, List.mem_singleton, List.not_mem_nil, or_false,
        forall_eq_or_imp, forall_eq, List.cons_append, List.nil_append]
      exact ⟨⟨_, rfl, hc⟩, ⟨_, rfl, hc1⟩⟩

/-- An iteration of the RC6 loop that reads a valid pair lowers the measure. -/
theorem decodeRC6_body_decreases (env : Env) (results : decode_results) (nb data : Nat)
    (c : Cursor) (hMS : env.MARK ≠ env.SPACE) (hM : env.MARK ≠ -1)
    (hc : CursorOk env results RC6_T1 c) (d : Nat)
    (hd : (decodeRC6_body env results nb data c).1 = some d) :
    cursorMeasure results (decodeRC6_body env results nb data c).2.1 < cursorMeasure results c ∧
      1 ≤ cursorMeasure results c := by
  have hc1 := getRClevel_cursorOk env results RC6_T1 c hc
  have hc2 := getRClevel_cursorOk env results RC6_T1 _ hc1
  have hc3 := getRClevel_cursorOk env results RC6_T1 _ hc2
  have hl1 := getRClevel_measure_le env results RC6_T1 c hc
  have hl2 := getRClevel_measure_le env results RC6_T1 _ hc1
  have hl3 := getRClevel_measure_le env results RC6_T1 _ hc2
  have hl4 := getRClevel_measure_le env results RC6_T1 _ hc3
  revert hd
  by_cases h3 : nb = 3
  · subst h3
    simp only [decodeRC6_body, if_true, true_and, -Nat.reducePow]
    split_ifs with hA hB hp1 hp2
    all_goals intro hd
    all_goals first
      | (cases hd; done)
      | skip
    · dsimp only
      have := getRClevel_mark_decreases env results RC6_T1 _ hMS hM hc hp1.1
      omega
    · dsimp only
      have := getRClevel_mark_decreases env results RC6_T1 _ hMS hM hc2 hp2.2
      omega
  · simp only [decodeRC6_body, h3, if_false, false_and, -Nat.reducePow]
    split_ifs with hp1 hp2
    all_goals intro hd
    all_goals first
      | (cases hd; done)
      | skip
    · dsimp only
      have := getRClevel_mark_decreases env results RC6_T1 _ hMS hM hc hp1.1
      omega
    · dsimp only
      have := getRClevel_mark_decreases env results RC6_T1 _ hMS hM hc1 hp2.2
      omega

theorem decodeRC6_loop_terminates (env : Env) (results : decode_results)
    (hMS : env.MARK ≠ env.SPACE) (hM : env.MARK ≠ -1) :
    ∀ (fuel nb data : Nat) (c : Cursor), CursorOk env results RC6_T1 c →
      cursorMeasure results c < fuel → 0 < fuel →
      ∃ r, decodeRC6_loop env results fuel nb data c = some r := by
  intro fuel
  induction fuel with
  | zero => intro nb data c _ _ h; omega
  | succ f ih =>
    intro nb data c hc hm _
    rw [decodeRC6_loop]
    split
    · obtain ⟨hb1, -⟩ := decodeRC6_body_cursorOk env results nb data c hc
      have hb3 := decodeRC6_body_decreases env results nb data c hMS hM hc
      generalize decodeRC6_body env results nb data c = body at hb1 hb3
      obtain ⟨d1, c1, blog⟩ := body
      cases d1 with
      | none => exact ⟨_, rfl⟩
      | some d1 =>
        have hd := hb3 d1 rfl
        simp only at hd hb1
        obtain ⟨r, hr⟩ := ih (nb + 1) d1 c1 hb1 (by push_cast at hm ⊢; omega)
          (by push_cast at hm; omega)
        exact ⟨_, by simp only [hr]; rfl⟩
    · exact ⟨_, rfl⟩

theorem decodeRC6_loop_bits_le (env : Env) (results : decode_results)
    (hMS : env.MARK ≠ env.SPACE) (hM : env.MARK ≠ -1) :
    ∀ (fuel nb data : Nat) (c : Cursor) (n d : Nat) (log : List Event),
      CursorOk env results RC6_T1 c →
      decodeRC6_loop env results fuel nb data c = some (some (n, d), log) →
      (n : Int) ≤ nb + max 0 (cursorMeasure results c) := by
  intro fuel
  induction fuel with
  | zero => intro nb data c n d log _ h; simp [decodeRC6_loop] at h
  | succ f ih =>
    intro nb data c n d log hc h
    rw [decodeRC6_loop] at h
    split at h
    · obtain ⟨hb1, -⟩ := decodeRC6_body_cursorOk env results nb data c hc
      have hb3 := decodeRC6_body_decreases env results nb data c hMS hM hc
      generalize decodeRC6_body env results nb data c = body at h hb1 hb3
      obtain ⟨d1, c1, blog⟩ := body
      cases d1 with
      | none => simp at h
      | some d1 =>
        have hd := hb3 d1 rfl
        simp only at hd hb1
        simp only [Option.map_eq_some'] at h
        obtain ⟨r, hr, hr2⟩ := h
        obtain ⟨r1, r2⟩ := r
        simp only [Prod.mk.injEq] at hr2
        obtain ⟨rfl, -⟩ := hr2
        have := ih _ _ _ _ _ _ hb1 hr
        push_cast at this
        omega
    · simp only [Option.some.injEq, Prod.mk.injEq] at h
      obtain ⟨⟨rfl, rfl⟩, -⟩ := h
      omega

theorem decodeRC5_loop_log_ok (env : Env) (irparams_rawlen : Nat) (results : decode_results) :
    ∀ (fuel nb data : Nat) (c : Cursor) (r : Option (Nat × Nat)) (log : List Event),
      CursorOk env results RC5_T1 c →
      decodeRC5_loop env irparams_rawlen results fuel nb data c = some (r, log) →
      ∀ c1, Event.quantize c1 ∈ log → CursorOk env results RC5_T1 c1 := by
  intro fuel
  induction fuel with
  | zero => intro nb data c r log _ h; simp [decodeRC5_loop] at h
  | succ f ih =>
    intro nb data c r log hc h c1 hmem
    have hc1 := getRClevel_cursorOk env results RC5_T1 c hc
    have hc2 := getRClevel_cursorOk env results RC5_T1 _ hc1
    rw [decodeRC5_loop] at h
    split at h
    · simp only at h
      split at h
      · simp only [Option.map_eq_some'] at h
        obtain ⟨r', hr, hr2⟩ := h
        obtain ⟨r1, r2⟩ := r'
        simp only [Prod.mk.injEq] at hr2
        obtain ⟨-, rfl⟩ := hr2
        simp only [List.mem_cons, Event.quantize.injEq] at hmem
        rcases hmem with rfl | rfl | hmem
        · exact hc
        · exact hc1
        · exact ih _ _ _ _ _ hc2 hr c1 hmem
      · split at h
        · simp only [Option.map_eq_some'] at h
          obtain ⟨r', hr, hr2⟩ := h
          obtain ⟨r1, r2⟩ := r'
          simp only [Prod.mk.injEq] at hr2
          obtain ⟨-, rfl⟩ := hr2
          simp only [List.mem_cons, Event.quantize.injEq] at hmem
          rcases hmem with rfl | rfl | hmem
          · exact hc
          · exact hc1
          · exact ih _ _ _ _ _ hc2 hr c1 hmem
        · simp only [Option.some.injEq, Prod.mk.injEq] at h
          obtain ⟨-, rfl⟩ := h
          simp only [List.mem_cons, Event.quantize.injEq, List.not_mem_nil, or_false] at hmem
          rcases hmem with rfl | rfl
          · exact hc
          · exact hc1
    · simp only [Option.some.injEq, Prod.mk.injEq] at h
      obtain ⟨-, rfl⟩ := h
      simp at hmem

theorem decodeRC6_loop_log_ok (env : Env) (results : decode_results) :
    ∀ (fuel nb data : Nat) (c : Cursor) (r : Option (Nat × Nat)) (log : List Event),
      CursorOk env results RC6_T1 c →
      decodeRC6_loop env results fuel nb data c = some (r, log) →
      ∀ c1, Event.quantize c1 ∈ log → CursorOk env results RC6_T1 c1 := by
  intro fuel
  induction fuel with
  | zero => intro nb data c r log _ h; simp [decodeRC6_loop] at h
  | succ f ih =>
    intro nb data c r log hc h c1 hmem
    rw [decodeRC6_loop] at h
    split at h
    · obtain ⟨hb1, hb2⟩ := decodeRC6_body_cursorOk env results nb data c hc
      generalize decodeRC6_body env results nb data c = body at h hb1 hb2
      obtain ⟨d1, c2, blog⟩ := body
      simp only at hb1 hb2
      cases d1 with
      | none =>
        simp only [Option.some.injEq, Prod.mk.injEq] at h
        obtain ⟨-, rfl⟩ := h
        exact hb2 c1 hmem
      | some d1 =>
        simp only [Option.map_eq_some'] at h
        obtain ⟨r', hr, hr2⟩ := h
        obtain ⟨r1, r2⟩ := r'
        simp only [Prod.mk.injEq] at hr2
        obtain ⟨-, rfl⟩ := hr2
        rcases List.mem_append.1 hmem with hm | hm
        · exact hb2 c1 hm
        · exact ih _ _ _ _ _ hb1 hr c1 hm
    · simp only [Option.some.injEq, Prod.mk.injEq] at h
      obtain ⟨-, rfl⟩ := h
      simp at hmem

theorem cursorOk_start (env : Env) (results : decode_results) (t1 : Int) (o : Nat) :
    CursorOk env results t1 ⟨o, 0⟩ := Or.inl rfl

theorem decodeRC5_log_ok (env : Env) (fuel irparams_rawlen : Nat) (results : decode_results)
    (out : Outcome) (hout : decodeRC5 env fuel irparams_rawlen results = some out) :
    ∀ c1, Event.quantize c1 ∈ out.log → CursorOk env results RC5_T1 c1 := by
  have hc0 := cursorOk_start env results RC5_T1 1
  have hc1 := getRClevel_cursorOk env results RC5_T1 _ hc0
  have hc2 := getRClevel_cursorOk env results RC5_T1 _ hc1
  have hc3 := getRClevel_cursorOk env results RC5_T1 _ hc2
  intro c1 hmem
  unfold decodeRC5 at hout
  split at hout
  · cases hout; simp at hmem
  · simp only at hout
    split at hout
    · cases hout
      simp only [List.mem_singleton, Event.quantize.injEq] at hmem
      subst hmem; exact hc0
    · split at hout
      · cases hout
        simp only [List.mem_cons, Event.quantize.injEq, List.not_mem_nil, or_false] at hmem
        rcases hmem with rfl | rfl
        · exact hc0
        · exact hc1
      · split at hout
        · cases hout
          simp only [List.mem_cons, Event.quantize.injEq, List.not_mem_nil, or_false] at hmem
          rcases hmem with rfl | rfl | rfl
          · exact hc0
          · exact hc1
          · exact hc2
        · split at hout
          · cases hout
          all_goals
            rename_i hl
            cases hout
            simp only [List.cons_append, List.nil_append, List.mem_cons,
              Event.quantize.injEq] at hmem
            rcases hmem with rfl | rfl | rfl | hmem
            · exact hc0
            · exact hc1
            · exact hc2
            · exact decodeRC5_loop_log_ok env irparams_rawlen results _ _ _ _ _ _ hc3 hl c1 hmem

theorem decodeRC6_log_ok (env : Env) (fuel : Nat) (results : decode_results)
    (out : Outcome) (hout : decodeRC6 env fuel results = some out) :
    ∀ c1, Event.quantize c1 ∈ out.log → CursorOk env results RC6_T1 c1 := by
  have hc0 := cursorOk_start env results RC6_T1 3
  have hc1 := getRClevel_cursorOk env results RC6_T1 _ hc0
  have hc2 := getRClevel_cursorOk env results RC6_T1 _ hc1
  intro c1 hmem
  unfold decodeRC6 at hout
  split at hout
  · cases hout; simp at hmem
  · split at hout
    · cases hout; simp at hmem
    · split at hout
      · cases hout; simp at hmem
      · simp only at hout
        split at hout
        · cases hout
          simp only [List.cons_append, List.nil_append, List.mem_cons, reduceCtorEq,
            Event.quantize.injEq, List.not_mem_nil, or_false, false_or] at hmem
          subst hmem; exact hc0
        · split at hout
          · cases hout
            simp only [List.cons_append, List.nil_append, List.mem_cons, reduceCtorEq,
              Event.quantize.injEq, List.not_mem_nil, or_false, false_or] at hmem
            rcases hmem with rfl | rfl
            · exact hc0
            · exact hc1
          · split at hout
            · cases hout
            all_goals
              rename_i hl
              cases hout
              simp only [List.cons_append, List.nil_append, List.mem_cons, reduceCtorEq,
                Event.quantize.injEq, false_or] at hmem
              rcases hmem with rfl | rfl | hmem
              · exact hc0
              · exact hc1
              · exact decodeRC6_loop_log_ok env results _ _ _ _ _ _ hc2 hl c1 hmem

/-- What the cursor invariant says about a call of `getRClevel`. -/
theorem cursorOk_facts (env : Env) (results : decode_results) (t1 : Int) (c : Cursor)
    (hc : CursorOk env results t1 c) :
    0 ≤ c.used ∧ c.used ≤ 2 ∧
    0 ≤ (getRClevel env results c t1).2.used ∧ (getRClevel env results c t1).2.used ≤ 2 ∧
    (c.offset < results.rawlen →
      ∀ k, getRClevel_avail env (results.rawbuf c.offset) t1
          (getRClevel_correction env c.offset) = some k →
        c.used < k ∧
          ((getRClevel env results c t1).2 = ⟨c.offset, c.used + 1⟩ ∨
            (getRClevel env results c t1).2 = ⟨c.offset + 1, 0⟩)) := by
  have hrange : ∀ c', CursorOk env results t1 c' → 0 ≤ c'.used ∧ c'.used ≤ 2 := by
    intro c' h
    rcases h with h0 | ⟨-, k, hk, h1, h2⟩
    · rw [h0]; omega
    · have := getRClevel_avail_range env _ _ _ k hk
      omega
  have h1 := hrange c hc
  have h2 := hrange _ (getRClevel_cursorOk env results t1 c hc)
  refine ⟨h1.1, h1.2, h2.1, h2.2, fun hoff k hk => ?_⟩
  have hstep := getRClevel_of_avail env results c t1 k hoff hk
  have hkr := getRClevel_avail_range env _ _ _ k hk
  constructor
  · rcases hc with h0 | ⟨-, k', hk', -, h4⟩
    · rw [h0]; omega
    · rw [hk] at hk'
      cases hk'
      exact h4
  · rw [hstep]
    by_cases hge : c.used + 1 ≥ k
    · right; simp only [hge, if_true]
    · left; simp only [hge, if_false]

/-- C15: cursor invariant. In every run of `decodeRC5` and `decodeRC6`, at the
entry of every call of `getRClevel` (the cursors `c` of the log) `0 ≤ used ≤ 2`,
also after the call; and when `offset < rawlen` and the element matches a multiple
`avail`, `used < avail` holds at entry and the call either keeps `offset` and
raises `used` by one, or resets `used` to 0 and raises `offset` by one. -/
theorem cursor_invariant (env : Env) (fuel irparams_rawlen : Nat) (results : decode_results)
    (out : Outcome) :
    (decodeRC5 env fuel irparams_rawlen results = some out →
      ∀ c, Event.quantize c ∈ out.log →
        0 ≤ c.used ∧ c.used ≤ 2 ∧
        0 ≤ (getRClevel env results c RC5_T1).2.used ∧
        (getRClevel env results c RC5_T1).2.used ≤ 2 ∧
        (c.offset < results.rawlen →
          ∀ avail, getRClevel_avail env (results.rawbuf c.offset) RC5_T1
              (getRClevel_correction env c.offset) = some avail →
            c.used < avail ∧
              ((getRClevel env results c RC5_T1).2 = ⟨c.offset, c.used + 1⟩ ∨
                (getRClevel env results c RC5_T1).2 = ⟨c.offset + 1, 0⟩))) ∧
    (decodeRC6 env fuel results = some out →
      ∀ c, Event.quantize c ∈ out.log →
        0 ≤ c.used ∧ c.used ≤ 2 ∧
        0 ≤ (getRClevel env results c RC6_T1).2.used ∧
        (getRClevel env results c RC6_T1).2.used ≤ 2 ∧
        (c.offset < results.rawlen →
          ∀ avail, getRClevel_avail env (results.rawbuf c.offset) RC6_T1
              (getRClevel_correction env c.offset) = some avail →
            c.used < avail ∧
              ((getRClevel env results c RC6_T1).2 = ⟨c.offset, c.used + 1⟩ ∨
                (getRClevel env results c RC6_T1).2 = ⟨c.offset + 1, 0⟩))) :=
  ⟨fun h c hc => cursorOk_facts env results RC5_T1 c
      (decodeRC5_log_ok env fuel irparams_rawlen results out h c hc),
    fun h c hc => cursorOk_facts env results RC6_T1 c
      (decodeRC6_log_ok env fuel results out h c hc)⟩

theorem decodeRC5_doubleMark :
    decodeRC5 libEnv 50 14 doubleMarkRC5 =
      some ⟨false, doubleMarkRC5, [Event.quantize ⟨1, 0⟩, Event.quantize ⟨1, 1⟩]⟩ := by
  unfold decodeRC5
  rw [if_neg (by decide)]
  simp only
  rw [if_neg (by decide), if_pos (by decide)]
  rfl

/-- Witness of C15: the second start call of `decodeRC5` on a buffer that begins
with a two-unit mark is made at `(offset, used) = (1, 1)`, with `avail = 2`. -/
theorem cursor_invariant_witness :
    decodeRC5 libEnv 50 14 doubleMarkRC5 =
      some ⟨false, doubleMarkRC5, [Event.quantize ⟨1, 0⟩, Event.quantize ⟨1, 1⟩]⟩ ∧
    ((1 : Int) < 2 ∧
      ((getRClevel libEnv doubleMarkRC5 ⟨1, 1⟩ RC5_T1).2 = ⟨1, 1 + 1⟩ ∨
        (getRClevel libEnv doubleMarkRC5 ⟨1, 1⟩ RC5_T1).2 = ⟨1 + 1, 0⟩)) :=
  ⟨decodeRC5_doubleMark,
    ((cursor_invariant libEnv 50 14 doubleMarkRC5
      ⟨false, doubleMarkRC5, [Event.quantize ⟨1, 0⟩, Event.quantize ⟨1, 1⟩]⟩).1
      decodeRC5_doubleMark ⟨1, 1⟩ (by decide)).2.2.2.2 (by decide) 2 (by decide)⟩

theorem decodeRC5_terminates (env : Env) (fuel irparams_rawlen : Nat) (results : decode_results)
    (hMS : env.MARK ≠ env.SPACE) (hM : env.MARK ≠ -1)
    (hfuel : 3 * (results.rawlen - 1) < fuel) :
    ∃ out, decodeRC5 env fuel irparams_rawlen results = some out ∧
      (out.ret = true → out.results.bits ≤ 3 * (results.rawlen - 1)) := by
  have hc0 := cursorOk_start env results RC5_T1 1
  have hc1 := getRClevel_cursorOk env results RC5_T1 _ hc0
  have hc2 := getRClevel_cursorOk env results RC5_T1 _ hc1
  have hc3 := getRClevel_cursorOk env results RC5_T1 _ hc2
  have hl1 := getRClevel_measure_le env results RC5_T1 _ hc0
  have hl2 := getRClevel_measure_le env results RC5_T1 _ hc1
  have hl3 := getRClevel_measure_le env results RC5_T1 _ hc2
  have hm0 : cursorMeasure results ⟨1, 0⟩ = 3 * ((results.rawlen : Int) - 1) := by
    simp [cursorMeasure]
  obtain ⟨r, hr⟩ := decodeRC5_loop_terminates env irparams_rawlen results hMS hM fuel 0 0 _ hc3
    (by omega) (by omega)
  unfold decodeRC5
  split
  · exact ⟨_, rfl, fun h => by cases h⟩
  · simp only
    split
    · exact ⟨_, rfl, fun h => by cases h⟩
    · split
      · exact ⟨_, rfl, fun h => by cases h⟩
      · split
        · exact ⟨_, rfl, fun h => by cases h⟩
        · rw [hr]
          obtain ⟨r1, log⟩ := r
          cases r1 with
          | none => exact ⟨_, rfl, fun h => by cases h⟩
          | some nd =>
            obtain ⟨n, d⟩ := nd
            refine ⟨_, rfl, fun _ => ?_⟩
            have := decodeRC5_loop_bits_le env irparams_rawlen results hMS hM _ _ _ _ _ _ _ hc3 hr
            show n ≤ 3 * (results.rawlen - 1)
            push_cast at this
            omega

theorem decodeRC6_terminates (env : Env) (fuel : Nat) (results : decode_results)
    (hMS : env.MARK ≠ env.SPACE) (hM : env.MARK ≠ -1)
    (hfuel : 3 * (results.rawlen - 1) < fuel) :
    ∃ out, decodeRC6 env fuel results = some out ∧
      (out.ret = true → out.results.bits ≤ 3 * (results.rawlen - 1)) := by
  have hc0 := cursorOk_start env results RC6_T1 3
  have hc1 := getRClevel_cursorOk env results RC6_T1 _ hc0
  have hc2 := getRClevel_cursorOk env results RC6_T1 _ hc1
  have hl1 := getRClevel_measure_le env results RC6_T1 _ hc0
  have hl2 := getRClevel_measure_le env results RC6_T1 _ hc1
  have hm0 : cursorMeasure results ⟨3, 0⟩ = 3 * ((results.rawlen : Int) - 3) := by
    simp [cursorMeasure]
  obtain ⟨r, hr⟩ := decodeRC6_loop_terminates env results hMS hM fuel 0 0 _ hc2
    (by omega) (by omega)
  unfold decodeRC6
  split
  · exact ⟨_, rfl, fun h => by cases h⟩
  · split
    · exact ⟨_, rfl, fun h => by cases h⟩
    · split
      · exact ⟨_, rfl, fun h => by cases h⟩
      · simp only
        split
        · exact ⟨_, rfl, fun h => by cases h⟩
        · split
          · exact ⟨_, rfl, fun h => by cases h⟩
          · rw [hr]
            obtain ⟨r1, log⟩ := r
            cases r1 with
            | none => exact ⟨_, rfl, fun h => by cases h⟩
            | some nd =>
              obtain ⟨n, d⟩ := nd
              refine ⟨_, rfl, fun _ => ?_⟩
              have := decodeRC6_loop_bits_le env results hMS hM _ _ _ _ _ _ _ hc2 hr
              show n ≤ 3 * (results.rawlen - 1)
              push_cast at this
              omega

/-- C17: both decode loops terminate. With MARK distinct from SPACE and `-1`: a call of
`getRClevel` inside the buffer either returns `-1` without moving the cursor or
lowers the measure `3 * (rawlen - offset) - used`; an iteration of either loop
that reads a valid pair (does not return false) strictly lowers the measure; hence
with fuel above `3 * (rawlen - 1)` both decoders return, and the resulting `bits`
is at most `3 * (rawlen - 1)`. -/
theorem decode_loops_terminate (env : Env) (fuel irparams_rawlen : Nat)
    (results : decode_results)
    (hMS : env.MARK ≠ env.SPACE) (hM : env.MARK ≠ -1)
    (hfuel : 3 * (results.rawlen - 1) < fuel) :
    (∃ out, decodeRC5 env fuel irparams_rawlen results = some out ∧
      (out.ret = true → out.results.bits ≤ 3 * (results.rawlen - 1))) ∧
    (∃ out, decodeRC6 env fuel results = some out ∧
      (out.ret = true → out.results.bits ≤ 3 * (results.rawlen - 1))) ∧
    (∀ (t1 : Int) (c : Cursor), CursorOk env results t1 c → c.offset < results.rawlen →
      getRClevel env results c t1 = (-1, c) ∨
        cursorMeasure results (getRClevel env results c t1).2 < cursorMeasure results c) ∧
    (∀ c : Cursor, CursorOk env results RC5_T1 c →
      ((getRClevel env results c RC5_T1).1 = env.SPACE ∧
          (getRClevel env results (getRClevel env results c RC5_T1).2 RC5_T1).1 = env.MARK) ∨
        ((getRClevel env results c RC5_T1).1 = env.MARK ∧
          (getRClevel env results (getRClevel env results c RC5_T1).2 RC5_T1).1 = env.SPACE) →
      cursorMeasure results
          (getRClevel env results (getRClevel env results c RC5_T1).2 RC5_T1).2
        < cursorMeasure results c) ∧
    (∀ (nbits data : Nat) (c : Cursor) (d : Nat), CursorOk env results RC6_T1 c →
      (decodeRC6_body env results nbits data c).1 = some d →
      cursorMeasure results (decodeRC6_body env results nbits data c).2.1
        < cursorMeasure results c) :=
  ⟨decodeRC5_terminates env fuel irparams_rawlen results hMS hM hfuel,
    decodeRC6_terminates env fuel results hMS hM hfuel,
    fun t1 c hc hoff => getRClevel_fails_or_advances env results t1 c hc hoff,
    fun c hc hp => (rc5_iteration_decreases env results c hMS hM hc hp).1,
    fun nbits data c d hc hd =>
      (decodeRC6_body_decreases env results nbits data c hMS hM hc d hd).1⟩

/-- Witness of C17: the 14-sample capture of `sendRC5 (0, 6)` with fuel 40. -/
theorem decode_loops_terminate_witness :
    3 * (captureRC5_0_6.rawlen - 1) < 40 ∧
      ∃ out, decodeRC5 libEnv 40 14 captureRC5_0_6 = some out ∧
        (out.ret = true → out.results.bits ≤ 3 * (captureRC5_0_6.rawlen - 1)) :=
  ⟨by decide,
    (decode_loops_terminate libEnv 40 14 captureRC5_0_6 (by decide) (by decide) (by decide)).1⟩

/-! ## The decoder over the flat unit-symbol sequence -/

theorem reads_cons (env : Env) (results : decode_results) (t1 : Int) (bad : Bool) (c : Cursor)
    (u : Bool) (us : List Bool) :
    Reads env results t1 bad c (u :: us) ↔
      c.offset < results.rawlen ∧ (getRClevel env results c t1).1 = levelOf env u ∧
        Reads env results t1 bad (getRClevel env results c t1).2 us := Iff.rfl

theorem reads_nil_end (env : Env) (results : decode_results) (t1 : Int) (c : Cursor) :
    Reads env results t1 false c [] ↔ results.rawlen ≤ c.offset := by
  simp [Reads]

theorem reads_nil_bad (env : Env) (results : decode_results) (t1 : Int) (c : Cursor) :
    Reads env results t1 true c [] ↔
      c.offset < results.rawlen ∧ getRClevel env results c t1 = (-1, c) := by
  simp [Reads]

theorem reads_run (env : Env) (results : decode_results) (t1 : Int) (bad : Bool) (o : Nat)
    (k : Int) (q : Bool) (rest : List Bool) (hoff : o < results.rawlen)
    (hav : getRClevel_avail env (results.rawbuf o) t1 (getRClevel_correction env o) = some k)
    (hq : getRClevel_val env o = levelOf env q)
    (hrest : Reads env results t1 bad ⟨o + 1, 0⟩ rest) :
    ∀ (j u : Nat), 1 ≤ j → (u : Int) + j = k →
      Reads env results t1 bad ⟨o, (u : Int)⟩ (List.replicate j q ++ rest) := by
  intro j
  induction j with
  | zero => intro u h; omega
  | succ j ih =>
    intro u _ hk
    have hstep := getRClevel_of_avail env results ⟨o, (u : Int)⟩ t1 k hoff hav
    rw [List.replicate_succ, List.cons_append, reads_cons]
    refine ⟨hoff, ?_, ?_⟩
    · rw [hstep]
      exact hq
    · rw [hstep]
      by_cases hj : j = 0
      · subst hj
        have hge : (u : Int) + 1 ≥ k := by push_cast at hk; omega
        simp only [hge, if_true, List.replicate_zero, List.nil_append]
        exact hrest
      · have hlt : ¬ ((u : Int) + 1 ≥ k) := by push_cast at hk; omega
        simp only [hlt, if_false]
        have := ih (u + 1) (by omega) (by push_cast at hk ⊢; omega)
        simpa using this

theorem getRClevel_val_levelOf (env : Env) (o : Nat) :
    getRClevel_val env o = levelOf env (decide (o % 2 = 1)) := by
  rw [getRClevel_val_eq]
  rcases Nat.mod_two_eq_zero_or_one o with h | h <;> simp [h, levelOf]

/-- The quantizer reads the flat unit sequence of a buffer, or an initial part of it up to
the first element that matches no multiple. -/
theorem reads_of_units (env : Env) (results : decode_results) (t1 : Int) :
    ∀ (n o : Nat), results.rawlen = o + n →
      (∀ U, unitsFrom env results t1 n o = some U →
        Reads env results t1 false ⟨o, 0⟩ U ∧ U.length ≤ 3 * n) ∧
      (unitsFrom env results t1 n o = none →
        ∃ U, Reads env results t1 true ⟨o, 0⟩ U ∧ U.length ≤ 3 * n) := by
  intro n
  induction n with
  | zero =>
    intro o hlen
    refine ⟨fun U hU => ?_, fun h => by simp [unitsFrom] at h⟩
    simp only [unitsFrom, Option.some.injEq] at hU
    subst hU
    exact ⟨(reads_nil_end env results t1 _).2 (by simp at hlen ⊢; omega), by simp⟩
  | succ n ih =>
    intro o hlen
    have hoff : o < results.rawlen := by omega
    obtain ⟨ih1, ih2⟩ := ih (o + 1) (by omega)
    cases hav : getRClevel_avail env (results.rawbuf o) t1 (getRClevel_correction env o) with
    | none =>
      refine ⟨fun U hU => by simp [unitsFrom, hav] at hU, fun _ => ⟨[], ?_, by simp⟩⟩
      exact (reads_nil_bad env results t1 _).2
        ⟨hoff, getRClevel_of_no_avail env results ⟨o, 0⟩ t1 hoff hav⟩
    | some k =>
      have hk := getRClevel_avail_range env _ _ _ k hav
      have hrun : ∀ bad rest, Reads env results t1 bad ⟨o + 1, 0⟩ rest →
          Reads env results t1 bad ⟨o, 0⟩
            (List.replicate k.toNat (decide (o % 2 = 1)) ++ rest) := by
        intro bad rest hrest
        have := reads_run env results t1 bad o k (decide (o % 2 = 1)) rest hoff hav
          (getRClevel_val_levelOf env o) hrest k.toNat 0 (by omega) (by simp; omega)
        simpa using this
      constructor
      · intro U hU
        simp only [unitsFrom, hav, Option.map_eq_some'] at hU
        obtain ⟨U', hU', rfl⟩ := hU
        obtain ⟨hr, hl⟩ := ih1 U' hU'
        refine ⟨hrun false U' hr, ?_⟩
        simp only [List.length_append, List.length_replicate]
        omega
      · intro hnone
        simp only [unitsFrom, hav, Option.map_eq_none'] at hnone
        obtain ⟨U', hr, hl⟩ := ih2 hnone
        refine ⟨_, hrun true U' hr, ?_⟩
        simp only [List.length_append, List.length_replicate]
        omega

theorem getRClevel_offset_le (env : Env) (results : decode_results) (c : Cursor) (t1 : Int) :
    (getRClevel env results c t1).2.offset ≤ c.offset + 1 := by
  unfold getRClevel
  split
  · simp
  · simp only
    split
    · simp
    · split <;> simp

/-- One iteration of the RC5 loop on two known levels. -/
theorem decodeRC5_loop_pair (env : Env) (irparams_rawlen : Nat) (results : decode_results)
    (hMS : env.MARK ≠ env.SPACE) (f nb data : Nat) (c : Cursor) (a b : Bool)
    (hoff : c.offset < irparams_rawlen)
    (hA : (getRClevel env results c RC5_T1).1 = levelOf env a)
    (hB : (getRClevel env results (getRClevel env results c RC5_T1).2 RC5_T1).1 = levelOf env b) :
    decodeRC5_loop env irparams_rawlen results (f + 1) nb data c =
      if a = false ∧ b = true then
        (decodeRC5_loop env irparams_rawlen results f (nb + 1) (bitsValue data [true])
          (getRClevel env results (getRClevel env results c RC5_T1).2 RC5_T1).2).map
          (fun r => (r.1, Event.quantize c ::
            Event.quantize (getRClevel env results c RC5_T1).2 :: r.2))
      else if a = true ∧ b = false then
        (decodeRC5_loop env irparams_rawlen results f (nb + 1) (bitsValue data [false])
          (getRClevel env results (getRClevel env results c RC5_T1).2 RC5_T1).2).map
          (fun r => (r.1, Event.quantize c ::
            Event.quantize (getRClevel env results c RC5_T1).2 :: r.2))
      else some (none, [Event.quantize c, Event.quantize (getRClevel env results c RC5_T1).2])
    := by
  rw [decodeRC5_loop, if_pos hoff]
  simp only [hA, hB]
  cases a <;> cases b <;> simp [levelOf, hMS, Ne.symm hMS, bitsValue]

theorem padSpace_nil : padSpace [] = [] := rfl

theorem padSpace_single (a : Bool) : padSpace [a] = [a, false] := rfl

theorem padSpace_cons_cons (a b : Bool) (us : List Bool) :
    padSpace (a :: b :: us) = a :: b :: padSpace us := by
  unfold padSpace
  have h : (a :: b :: us).length % 2 = us.length % 2 := by
    simp only [List.length_cons]
    omega
  rw [h]
  split <;> rfl

theorem pairBits_map_result (nb data : Nat) (bit : Bool) (r : Option (List Bool)) :
    (r.map (fun bs => bit :: bs)).map (fun bs => (nb + bs.length, bitsValue data bs)) =
      r.map (fun bs => (nb + 1 + bs.length, bitsValue (bitsValue data [bit]) bs)) := by
  cases r with
  | none => rfl
  | some bs =>
    simp only [Option.map_some', List.length_cons, Option.some.injEq, Prod.mk.injEq]
    exact ⟨by omega, rfl⟩

/-- The RC5 loop on two known levels followed by a sequence it decodes. -/
theorem decodeRC5_loop_pair_end (env : Env) (results : decode_results)
    (hMS : env.MARK ≠ env.SPACE) (f nb data : Nat) (c : Cursor) (a b : Bool) (us : List Bool)
    (hoff : c.offset < results.rawlen)
    (hA : (getRClevel env results c RC5_T1).1 = levelOf env a)
    (hB : (getRClevel env results (getRClevel env results c RC5_T1).2 RC5_T1).1 = levelOf env b)
    (ih : ∀ nb1 data1, ∃ log, decodeRC5_loop env results.rawlen results f nb1 data1
        (getRClevel env results (getRClevel env results c RC5_T1).2 RC5_T1).2 =
      some ((pairBits (padSpace us)).map (fun bs => (nb1 + bs.length, bitsValue data1 bs)), log)) :
    ∃ log, decodeRC5_loop env results.rawlen results (f + 1) nb data c =
      some ((pairBits (a :: b :: padSpace us)).map
        (fun bs => (nb + bs.length, bitsValue data bs)), log) := by
  rw [decodeRC5_loop_pair env results.rawlen results hMS f nb data c a b hoff hA hB]
  by_cases h1 : a = false ∧ b = true
  · obtain ⟨log, hl⟩ := ih (nb + 1) (bitsValue data [true])
    rw [if_pos h1, hl, pairBits, if_pos h1, pairBits_map_result]
    exact ⟨_, rfl⟩
  · by_cases h2 : a = true ∧ b = false
    · obtain ⟨log, hl⟩ := ih (nb + 1) (bitsValue data [false])
      rw [if_neg h1, if_pos h2, hl, pairBits, if_neg h1, if_pos h2, pairBits_map_result]
      exact ⟨_, rfl⟩
    · rw [if_neg h1, if_neg h2, pairBits, if_neg h1, if_neg h2]
      exact ⟨_, rfl⟩

/-- On a buffer read to its end the RC5 loop computes the pairs of the padded
unit sequence. -/
theorem reads_loop_end (env : Env) (results : decode_results) (hMS : env.MARK ≠ env.SPACE) :
    ∀ (n : Nat) (U : List Bool), U.length ≤ n →
      ∀ (fuel nb data : Nat) (c : Cursor), Reads env results RC5_T1 false c U →
        U.length < fuel →
        ∃ log, decodeRC5_loop env results.rawlen results fuel nb data c =
          some ((pairBits (padSpace U)).map (fun bs => (nb + bs.length, bitsValue data bs)), log)
    := by
  have hnil : ∀ (fuel nb data : Nat) (c : Cursor), Reads env results RC5_T1 false c [] →
      0 < fuel →
      ∃ log, decodeRC5_loop env results.rawlen results fuel nb data c =
        some ((pairBits (padSpace [])).map (fun bs => (nb + bs.length, bitsValue data bs)), log)
      := by
    intro fuel nb data c hr hf
    obtain ⟨f, rfl⟩ : ∃ f, fuel = f + 1 := ⟨fuel - 1, by omega⟩
    have hend := (reads_nil_end env results RC5_T1 c).1 hr
    rw [decodeRC5_loop, if_neg (by omega)]
    exact ⟨[], rfl⟩
  intro n
  induction n using Nat.strong_induction_on with
  | _ n ih =>
    intro U hU fuel nb data c hr hf
    match U, hU, hr, hf with
    | [], _, hr, hf => exact hnil fuel nb data c hr (by simp at hf; omega)
    | [a], hU, hr, hf =>
      obtain ⟨f, rfl⟩ : ∃ f, fuel = f + 1 := ⟨fuel - 1, by simp at hf; omega⟩
      rw [reads_cons] at hr
      obtain ⟨hoff, hA, hr1⟩ := hr
      have hend := (reads_nil_end env results RC5_T1 _).1 hr1
      have hpast := getRClevel_past_end env results _ RC5_T1 hend
      rw [padSpace_single, ← padSpace_nil]
      refine decodeRC5_loop_pair_end env results hMS f nb data c a false [] hoff hA
        (by rw [hpast]; rfl) (fun nb1 data1 => ?_)
      rw [hpast]
      exact hnil f nb1 data1 _ hr1 (by simp at hf; omega)
    | a :: b :: us, hU, hr, hf =>
      obtain ⟨f, rfl⟩ : ∃ f, fuel = f + 1 := ⟨fuel - 1, by simp at hf; omega⟩
      rw [reads_cons] at hr
      obtain ⟨hoff, hA, hr1⟩ := hr
      rw [reads_cons] at hr1
      obtain ⟨-, hB, hr2⟩ := hr1
      rw [padSpace_cons_cons]
      simp only [List.length_cons] at hU hf
      exact decodeRC5_loop_pair_end env results hMS f nb data c a b us hoff hA hB
        (fun nb1 data1 => ih us.length (by omega) us le_rfl f nb1 data1 _ hr2 (by omega))

/-- On a buffer with an element that matches no multiple the RC5 loop returns
false. -/
theorem reads_loop_bad (env : Env) (results : decode_results) (hMS : env.MARK ≠ env.SPACE)
    (hM : env.MARK ≠ -1) (hS : env.SPACE ≠ -1) :
    ∀ (n : Nat) (U : List Bool), U.length ≤ n →
      ∀ (fuel nb data : Nat) (c : Cursor), Reads env results RC5_T1 true c U →
        U.length < fuel →
        ∃ log, decodeRC5_loop env results.rawlen results fuel nb data c = some (none, log) := by
  intro n
  induction n using Nat.strong_induction_on with
  | _ n ih =>
    intro U hU fuel nb data c hr hf
    obtain ⟨f, rfl⟩ : ∃ f, fuel = f + 1 := ⟨fuel - 1, by omega⟩
    match U, hU, hr, hf with
    | [], _, hr, _ =>
      obtain ⟨hoff, hbad⟩ := (reads_nil_bad env results RC5_T1 c).1 hr
      rw [decodeRC5_loop, if_pos hoff]
      simp only [hbad]
      rw [if_neg (fun h => hS h.1.symm), if_neg (fun h => hM h.1.symm)]
      exact ⟨_, rfl⟩
    | [a], _, hr, _ =>
      rw [reads_cons] at hr
      obtain ⟨hoff, hA, hr1⟩ := hr
      obtain ⟨-, hbad⟩ := (reads_nil_bad env results RC5_T1 _).1 hr1
      rw [decodeRC5_loop, if_pos hoff]
      simp only [hbad]
      rw [if_neg (fun h => hM h.2.symm), if_neg (fun h => hS h.2.symm)]
      exact ⟨_, rfl⟩
    | a :: b :: us, hU, hr, hf =>
      rw [reads_cons] at hr
      obtain ⟨hoff, hA, hr1⟩ := hr
      rw [reads_cons] at hr1
      obtain ⟨-, hB, hr2⟩ := hr1
      simp only [List.length_cons] at hU hf
      rw [decodeRC5_loop_pair env results.rawlen results hMS f nb data c a b hoff hA hB]
      by_cases h1 : a = false ∧ b = true
      · obtain ⟨log, hl⟩ := ih us.length (by omega) us le_rfl f (nb + 1)
          (bitsValue data [true]) _ hr2 (by omega)
        rw [if_pos h1, hl]
        exact ⟨_, rfl⟩
      · by_cases h2 : a = true ∧ b = false
        · obtain ⟨log, hl⟩ := ih us.length (by omega) us le_rfl f (nb + 1)
            (bitsValue data [false]) _ hr2 (by omega)
          rw [if_neg h1, if_pos h2, hl]
          exact ⟨_, rfl⟩
        · rw [if_neg h1, if_neg h2]
          exact ⟨_, rfl⟩

theorem decodeRC5_start_fail (env : Env) (fuel irparams_rawlen : Nat) (results : decode_results)
    (h : (getRClevel env results ⟨1, 0⟩ RC5_T1).1 ≠ env.MARK ∨
      (getRClevel env results (getRClevel env results ⟨1, 0⟩ RC5_T1).2 RC5_T1).1 ≠ env.SPACE ∨
      (getRClevel env results (getRClevel env results
        (getRClevel env results ⟨1, 0⟩ RC5_T1).2 RC5_T1).2 RC5_T1).1 ≠ env.MARK) :
    ∃ log, decodeRC5 env fuel irparams_rawlen results = some ⟨false, results, log⟩ := by
  unfold decodeRC5
  split
  · exact ⟨_, rfl⟩
  · simp only
    split
    · exact ⟨_, rfl⟩
    · split
      · exact ⟨_, rfl⟩
      · split
        · exact ⟨_, rfl⟩
        · rename_i h1 h2 h3
          rcases h with h | h | h
          · exact absurd h h1
          · exact absurd h h2
          · exact absurd h h3

theorem decodeRC5_start_ok (env : Env) (fuel irparams_rawlen : Nat) (results : decode_results)
    (hlen : 13 ≤ irparams_rawlen)
    (hA : (getRClevel env results ⟨1, 0⟩ RC5_T1).1 = env.MARK)
    (hB : (getRClevel env results (getRClevel env results ⟨1, 0⟩ RC5_T1).2 RC5_T1).1 = env.SPACE)
    (hC : (getRClevel env results (getRClevel env results
        (getRClevel env results ⟨1, 0⟩ RC5_T1).2 RC5_T1).2 RC5_T1).1 = env.MARK)
    (r : Option (Nat × Nat)) (log : List Event)
    (hl : decodeRC5_loop env irparams_rawlen results fuel 0 0
      (getRClevel env results (getRClevel env results
        (getRClevel env results ⟨1, 0⟩ RC5_T1).2 RC5_T1).2 RC5_T1).2 = some (r, log)) :
    ∃ log', decodeRC5 env fuel irparams_rawlen results = some (outcomeRC5 results log' r) := by
  unfold decodeRC5
  rw [if_neg (by unfold MIN_RC5_SAMPLES; omega)]
  simp only [hA, hB, hC, ne_eq, not_true_eq_false, if_false, hl]
  cases r with
  | none => exact ⟨_, rfl⟩
  | some nd => exact ⟨_, rfl⟩

/-- The decoder on a buffer whose elements all match: its outcome is that of the
flat decoder on the unit sequence. -/
theorem decodeRC5_flat_end (env : Env) (fuel : Nat) (results : decode_results)
    (hMS : env.MARK ≠ env.SPACE) (hlen : 13 ≤ results.rawlen) (U : List Bool)
    (hr : Reads env results RC5_T1 false ⟨1, 0⟩ U) (hf : U.length < fuel) :
    ∃ log, decodeRC5 env fuel results.rawlen results =
      some (outcomeRC5 results log
        ((flatDecodeRC5 U).map (fun bs => (bs.length, bitsValue 0 bs)))) := by
  have ho1 := getRClevel_offset_le env results ⟨1, 0⟩ RC5_T1
  have ho2 := getRClevel_offset_le env results (getRClevel env results ⟨1, 0⟩ RC5_T1).2 RC5_T1
  match U, hr, hf with
  | [], hr, _ =>
    have := (reads_nil_end env results RC5_T1 _).1 hr
    simp only at this
    omega
  | [a], hr, _ =>
    rw [reads_cons] at hr
    have := (reads_nil_end env results RC5_T1 _).1 hr.2.2
    simp only at ho1
    omega
  | [a, b], hr, _ =>
    rw [reads_cons, reads_cons] at hr
    have := (reads_nil_end env results RC5_T1 _).1 hr.2.2.2.2
    simp only at ho1
    omega
  | a :: b :: c :: rest, hr, hf =>
    rw [reads_cons, reads_cons, reads_cons] at hr
    obtain ⟨-, hA, -, hB, -, hC, hrest⟩ := hr
    by_cases hpat : a = true ∧ b = false ∧ c = true
    · obtain ⟨rfl, rfl, rfl⟩ := hpat
      simp only [List.length_cons] at hf
      obtain ⟨log, hl⟩ := reads_loop_end env results hMS rest.length rest le_rfl fuel 0 0 _ hrest
        (by omega)
      obtain ⟨log', h⟩ := decodeRC5_start_ok env fuel results.rawlen results hlen hA hB hC _ _ hl
      refine ⟨log', ?_⟩
      rw [h]
      simp only [flatDecodeRC5, Nat.zero_add]
    · have hnone : flatDecodeRC5 (a :: b :: c :: rest) = none := by
        cases a <;> cases b <;> cases c <;> simp_all [flatDecodeRC5]
      rw [hnone]
      refine decodeRC5_start_fail env fuel results.rawlen results ?_
      rw [hA, hB, hC]
      cases a <;> cases b <;> cases c <;> simp_all [levelOf, Ne.symm hMS]

/-- The decoder on a buffer with an element that matches no multiple returns
false. -/
theorem decodeRC5_flat_bad (env : Env) (fuel : Nat) (results : decode_results)
    (hMS : env.MARK ≠ env.SPACE) (hM : env.MARK ≠ -1) (hS : env.SPACE ≠ -1)
    (hlen : 13 ≤ results.rawlen) (U : List Bool)
    (hr : Reads env results RC5_T1 true ⟨1, 0⟩ U) (hf : U.length < fuel) :
    ∃ log, decodeRC5 env fuel results.rawlen results = some ⟨false, results, log⟩ := by
  match U, hr, hf with
  | [], hr, _ =>
    obtain ⟨-, hbad⟩ := (reads_nil_bad env results RC5_T1 _).1 hr
    refine decodeRC5_start_fail env fuel results.rawlen results (Or.inl ?_)
    rw [hbad]
    exact fun h => hM h.symm
  | [a], hr, _ =>
    rw [reads_cons] at hr
    obtain ⟨-, hbad⟩ := (reads_nil_bad env results RC5_T1 _).1 hr.2.2
    refine decodeRC5_start_fail env fuel results.rawlen results (Or.inr (Or.inl ?_))
    rw [hbad]
    exact fun h => hS h.symm
  | [a, b], hr, _ =>
    rw [reads_cons, reads_cons] at hr
    obtain ⟨-, hbad⟩ := (reads_nil_bad env results RC5_T1 _).1 hr.2.2.2.2
    refine decodeRC5_start_fail env fuel results.rawlen results (Or.inr (Or.inr ?_))
    rw [hbad]
    exact fun h => hM h.symm
  | a :: b :: c :: rest, hr, hf =>
    rw [reads_cons, reads_cons, reads_cons] at hr
    obtain ⟨-, hA, -, hB, -, hC, hrest⟩ := hr
    by_cases hpat : a = true ∧ b = false ∧ c = true
    · obtain ⟨rfl, rfl, rfl⟩ := hpat
      simp only [List.length_cons] at hf
      obtain ⟨log, hl⟩ := reads_loop_bad env results hMS hM hS rest.length rest le_rfl fuel 0 0 _
        hrest (by omega)
      exact decodeRC5_start_ok env fuel results.rawlen results hlen hA hB hC _ _ hl
    · refine decodeRC5_start_fail env fuel results.rawlen results ?_
      rw [hA, hB, hC]
      cases a <;> cases b <;> cases c <;> simp_all [levelOf, Ne.symm hMS]

theorem bitsValue_mod (bs : List Bool) :
    ∀ acc, bitsValue (acc % 2 ^ 32) bs =
      (bs.foldl (fun a b => 2 * a + (if b then 1 else 0)) acc) % 2 ^ 32 := by
  induction bs with
  | nil => intro acc; rfl
  | cons b bs ih =>
    intro acc
    rw [bitsValue, List.foldl_cons, ← ih]
    congr 1
    cases b
    · simp only [Bool.false_eq_true, if_false, Nat.shiftLeft_eq, pow_one]
      omega
    · simp only [if_true, shift_or_one]
      omega

theorem bitsValue_eq_valueMSB (bs : List Bool) : bitsValue 0 bs = valueMSB bs % 2 ^ 32 := by
  have := bitsValue_mod bs 0
  rw [Nat.zero_mod] at this
  exact this

theorem foldl_bits_lt (bs : List Bool) :
    ∀ acc, (bs.foldl (fun a b => 2 * a + (if b then 1 else 0)) acc) + 1
      ≤ (acc + 1) * 2 ^ bs.length := by
  induction bs with
  | nil => intro acc; simp
  | cons b bs ih =>
    intro acc
    rw [List.foldl_cons, List.length_cons, pow_succ]
    have h1 := ih (2 * acc + (if b then 1 else 0))
    have h2 : (2 * acc + (if b then 1 else 0) + 1) * 2 ^ bs.length
        ≤ (acc + 1) * (2 ^ bs.length * 2) := by
      have : 2 * acc + (if b then 1 else 0) + 1 ≤ (acc + 1) * 2 := by
        cases b <;> simp <;> omega
      calc (2 * acc + (if b then 1 else 0) + 1) * 2 ^ bs.length
          ≤ ((acc + 1) * 2) * 2 ^ bs.length := Nat.mul_le_mul_right _ this
        _ = (acc + 1) * (2 ^ bs.length * 2) := by ring
    omega

theorem valueMSB_lt (bs : List Bool) : valueMSB bs < 2 ^ bs.length := by
  have := foldl_bits_lt bs 0
  simp only [Nat.zero_add, Nat.one_mul] at this
  exact this

theorem pairBits_length : ∀ (n : Nat) (l bs : List Bool), l.length ≤ n →
    pairBits l = some bs → 2 * bs.length = l.length := by
  intro n
  induction n using Nat.strong_induction_on with
  | _ n ih =>
    intro l bs hl h
    match l, hl, h with
    | [], _, h =>
      simp only [pairBits, Option.some.injEq] at h
      subst h; rfl
    | [a], _, h => simp [pairBits] at h
    | a :: b :: rest, hl, h =>
      simp only [List.length_cons] at hl
      rw [pairBits] at h
      split at h
      · simp only [Option.map_eq_some'] at h
        obtain ⟨bs', h1, rfl⟩ := h
        have := ih rest.length (by omega) rest bs' le_rfl h1
        simp only [List.length_cons]
        omega
      · split at h
        · simp only [Option.map_eq_some'] at h
          obtain ⟨bs', h1, rfl⟩ := h
          have := ih rest.length (by omega) rest bs' le_rfl h1
          simp only [List.length_cons]
          omega
        · cases h

theorem flatDecodeRC5_length (U bs : List Bool) (h : flatDecodeRC5 U = some bs) :
    bs.length = (U.length - 3 + 1) / 2 := by
  match U, h with
  | true :: false :: true :: rest, h =>
    simp only [flatDecodeRC5] at h
    have := pairBits_length _ _ _ le_rfl h
    have hp : (padSpace rest).length = rest.length + rest.length % 2 := by
      unfold padSpace
      split
      · rename_i h1; simp [h1]
      · rename_i h1
        have : rest.length % 2 = 0 := by omega
        simp [this]
    simp only [List.length_cons]
    omega

/-- The outcome of `decodeRC5` is the outcome of the flat decoder on the unit
sequence of the buffer, the value reduced modulo `2 ^ 32`. -/
theorem decodeRC5_flat (env : Env) (fuel : Nat) (results : decode_results)
    (hMS : env.MARK ≠ env.SPACE) (hM : env.MARK ≠ -1) (hS : env.SPACE ≠ -1)
    (hlen : 13 ≤ results.rawlen) (hfuel : 3 * results.rawlen ≤ fuel) :
    ∃ log, decodeRC5 env fuel results.rawlen results =
      some (outcomeRC5 results log
        (((unitsRC5 env results).bind flatDecodeRC5).map
          (fun bs => (bs.length, valueMSB bs % 2 ^ 32)))) := by
  obtain ⟨h1, h2⟩ := reads_of_units env results RC5_T1 (results.rawlen - 1) 1 (by omega)
  unfold unitsRC5
  cases hu : unitsFrom env results RC5_T1 (results.rawlen - 1) 1 with
  | none =>
    obtain ⟨U, hr, hl⟩ := h2 hu
    exact decodeRC5_flat_bad env fuel results hMS hM hS hlen U hr (by omega)
  | some U =>
    obtain ⟨hr, hl⟩ := h1 U hu
    obtain ⟨log, h⟩ := decodeRC5_flat_end env fuel results hMS hlen U hr (by omega)
    refine ⟨log, ?_⟩
    rw [h]
    simp only [Option.some_bind, bitsValue_eq_valueMSB]

/-- C16, counterexample: on the 70-sample buffer holding the start condition and
33 one bits, the pairs read most significant bit first are `2 ^ 33 - 1`, while
`decodeRC5` succeeds with `bits = 33` and `value = 2 ^ 32 - 1`. -/
theorem decodeRC5_value_wraps :
    (unitsRC5 libEnv longRC5).bind flatDecodeRC5 = some (List.replicate 33 true) ∧
      valueMSB (List.replicate 33 true) = 8589934591 ∧
      ∃ log, decodeRC5 libEnv 210 longRC5.rawlen longRC5 =
        some ⟨true,
          { longRC5 with bits := 33, value := 4294967295, decode_type := decode_type_t.RC5 },
          log⟩ := by
  have hu : (unitsRC5 libEnv longRC5).bind flatDecodeRC5 = some (List.replicate 33 true) := by
    decide
  refine ⟨hu, by decide, ?_⟩
  obtain ⟨log, h⟩ := decodeRC5_flat libEnv 210 longRC5 (by decide) (by decide) (by decide)
    (by decide) (by decide)
  rw [hu] at h
  exact ⟨log, h⟩

/-- C16, amended: `decodeRC5` equals a decoder over the flat unit-symbol sequence.
For a buffer of `rawlen ≥ 13` samples (the length the decoder checks), with `U`
the elements `1 … rawlen - 1` each replaced by `avail` copies of its polarity:
`decodeRC5` succeeds if and only if every element matches a multiple, `U` starts
with MARK, SPACE, MARK and the rest, padded with one SPACE when odd, splits into
valid pairs; then `bits` is the number of pairs, `⌈(|U| - 3) / 2⌉`, and `value` is
the pairs read most significant bit first, reduced modulo `2 ^ 32` (the pairs
themselves when `bits ≤ 32`). -/
theorem decodeRC5_refines_flat_decoder (env : Env) (fuel : Nat) (results : decode_results)
    (hMS : env.MARK ≠ env.SPACE) (hM : env.MARK ≠ -1) (hS : env.SPACE ≠ -1)
    (hlen : 13 ≤ results.rawlen) (hfuel : 3 * results.rawlen ≤ fuel) :
    (∀ bs, (unitsRC5 env results).bind flatDecodeRC5 = some bs →
      ∃ log, decodeRC5 env fuel results.rawlen results =
        some ⟨true,
          { results with
            bits := bs.length, value := valueMSB bs % 2 ^ 32, decode_type := decode_type_t.RC5 },
          log⟩) ∧
    ((unitsRC5 env results).bind flatDecodeRC5 = none →
      ∃ log, decodeRC5 env fuel results.rawlen results = some ⟨false, results, log⟩) ∧
    (∀ U bs, unitsRC5 env results = some U → flatDecodeRC5 U = some bs →
      bs.length = (U.length - 3 + 1) / 2 ∧
        (bs.length ≤ 32 → valueMSB bs % 2 ^ 32 = valueMSB bs)) := by
  obtain ⟨log, h⟩ := decodeRC5_flat env fuel results hMS hM hS hlen hfuel
  refine ⟨fun bs hbs => ⟨log, ?_⟩, fun hnone => ⟨log, ?_⟩, fun U bs _ hbs => ?_⟩
  · rw [h, hbs]
    rfl
  · rw [h, hnone]
    rfl
  · refine ⟨flatDecodeRC5_length U bs hbs, fun h32 => Nat.mod_eq_of_lt ?_⟩
    exact lt_of_lt_of_le (valueMSB_lt bs) (Nat.pow_le_pow_right (by decide) h32)

/-- Witness of C16: the 14-sample capture of `sendRC5 (0, 6)` has six valid pairs,
all zeros. -/
theorem decodeRC5_refines_flat_decoder_witness :
    (unitsRC5 libEnv captureRC5_0_6).bind flatDecodeRC5 = some (List.replicate 6 false) ∧
      ∃ log, decodeRC5 libEnv 42 captureRC5_0_6.rawlen captureRC5_0_6 =
        some ⟨true,
          { captureRC5_0_6 with
            bits := (List.replicate 6 false).length,
            value := valueMSB (List.replicate 6 false) % 2 ^ 32,
            decode_type := decode_type_t.RC5 },
          log⟩ :=
  ⟨by decide,
    (decodeRC5_refines_flat_decoder libEnv 42 captureRC5_0_6 (by decide) (by decide) (by decide)
      (by decide) (by decide)).1 _ (by decide)⟩

end IRremote
